import Mathlib

/-!
# ASR_ProcBentPath: centerline sampler and tube mesh builder

A shallow embedding of `Source/Showreel_3Cs/Private/SR_ProcBentPath.cpp`.

Modelling conventions

* `float` values are idealised as exact real numbers (`ℝ`); rounding is not modelled.
  Real-valued definitions are therefore not executable, closed instances are evaluated
  by rewriting (`simp`, `norm_num`).
* `int32` values are unbounded integers; loop counters and array indices, which the code
  only ever makes non-negative, are natural numbers.
* `TArray` is `List`.  An out-of-range `operator[]` is a fault, modelled by `none`.
* The engine functions used by the file (`FVector::GetSafeNormal`, `FVector::Normalize`,
  `FVector::IsNearlyZero`, `FMath::IsNearlyZero`, `FVector::Size`, `TArray::SetNumZeroed`,
  `TArray::Last`) follow the Unreal Engine math library, including its tolerances
  `UE_SMALL_NUMBER = 1e-8` and `UE_KINDA_SMALL_NUMBER = 1e-4`.
-/

set_option autoImplicit false

namespace ProcBentPath

noncomputable section

/-! ## Engine math -/

/-- Engine vector type `FVector` with real components. -/
@[ext] structure FVector where
  X : ℝ
  Y : ℝ
  Z : ℝ

/-- Engine type `FVector2D`. -/
@[ext] structure FVector2D where
  X : ℝ
  Y : ℝ

namespace FVector

instance : Add FVector := ⟨fun a b => ⟨a.X + b.X, a.Y + b.Y, a.Z + b.Z⟩⟩
instance : Sub FVector := ⟨fun a b => ⟨a.X - b.X, a.Y - b.Y, a.Z - b.Z⟩⟩
instance : Neg FVector := ⟨fun a => ⟨-a.X, -a.Y, -a.Z⟩⟩
instance : HMul FVector ℝ FVector := ⟨fun a k => ⟨a.X * k, a.Y * k, a.Z * k⟩⟩

/-- The constant `FVector::ZeroVector`. -/
def ZeroVector : FVector := ⟨0, 0, 0⟩
/-- The constant `FVector::UpVector`. -/
def UpVector : FVector := ⟨0, 0, 1⟩
/-- The constant `FVector::ForwardVector`. -/
def ForwardVector : FVector := ⟨1, 0, 0⟩

/-- The constant `UE_SMALL_NUMBER`. -/
def SMALL_NUMBER : ℝ := 1 / 100000000
/-- The constant `UE_KINDA_SMALL_NUMBER`. -/
def KINDA_SMALL_NUMBER : ℝ := 1 / 10000

/-- Engine function `FVector::CrossProduct`. -/
def CrossProduct (A B : FVector) : FVector :=
  ⟨A.Y * B.Z - A.Z * B.Y, A.Z * B.X - A.X * B.Z, A.X * B.Y - A.Y * B.X⟩

/-- Engine function `FVector::DotProduct`. -/
def DotProduct (A B : FVector) : ℝ := A.X * B.X + A.Y * B.Y + A.Z * B.Z

/-- Engine function `FVector::SizeSquared`. -/
def SizeSquared (V : FVector) : ℝ := V.X * V.X + V.Y * V.Y + V.Z * V.Z

/-- Engine function `FVector::Size`, the Euclidean norm. -/
def Size (V : FVector) : ℝ := Real.sqrt (V.X * V.X + V.Y * V.Y + V.Z * V.Z)

/-- Engine function `FMath::InvSqrt`. -/
def InvSqrt (s : ℝ) : ℝ := 1 / Real.sqrt s

/-- Engine function `FVector::GetSafeNormal` with its default tolerance: the vector itself
when its squared length is exactly one, the zero vector when the squared length is below
`SMALL_NUMBER`, the scaled vector otherwise. -/
def GetSafeNormal (V : FVector) : FVector :=
  let SquareSum := V.X * V.X + V.Y * V.Y + V.Z * V.Z
  if SquareSum = 1 then V
  else if SquareSum < SMALL_NUMBER then ZeroVector
  else
    let Scale := InvSqrt SquareSum
    ⟨V.X * Scale, V.Y * Scale, V.Z * Scale⟩

/-- Engine function `FVector::Normalize` with its default tolerance, as the value the vector
holds afterwards: scaled when the squared length exceeds `SMALL_NUMBER`, unchanged otherwise. -/
def Normalize (V : FVector) : FVector :=
  let SquareSum := V.X * V.X + V.Y * V.Y + V.Z * V.Z
  if SquareSum > SMALL_NUMBER then
    let Scale := InvSqrt SquareSum
    ⟨V.X * Scale, V.Y * Scale, V.Z * Scale⟩
  else V

/-- Engine function `FVector::IsNearlyZero` with its default tolerance. -/
def IsNearlyZero (V : FVector) : Prop :=
  |V.X| ≤ KINDA_SMALL_NUMBER ∧ |V.Y| ≤ KINDA_SMALL_NUMBER ∧ |V.Z| ≤ KINDA_SMALL_NUMBER

instance (V : FVector) : Decidable (IsNearlyZero V) := by
  unfold IsNearlyZero; infer_instance

end FVector

open FVector

/-- Engine function `FMath::DegreesToRadians`. -/
def DegreesToRadians (DegVal : ℝ) : ℝ := DegVal * (Real.pi / 180)

/-- Engine function `FMath::IsNearlyZero` on a scalar. -/
def IsNearlyZero (Value ErrorTolerance : ℝ) : Prop := |Value| ≤ ErrorTolerance

instance (Value ErrorTolerance : ℝ) : Decidable (IsNearlyZero Value ErrorTolerance) := by
  unfold IsNearlyZero; infer_instance

/-! ## Actor properties -/

/-- The editable shape properties of `ASR_ProcBentPath` that the builder reads. -/
structure Params where
  LengthMeters : ℝ
  CurveDegrees : ℝ
  DropDepthMeters : ℝ
  HalfWidth : ℝ
  CeilingHeight : ℝ
  WallThickness : ℝ
  Segments : Int
  bSmoothNormals : Bool

/-- The property defaults declared in `SR_ProcBentPath.h`. -/
def Params.defaults : Params :=
  { LengthMeters := 10
    CurveDegrees := 27
    DropDepthMeters := -(12 / 5)
    HalfWidth := 1 / 2
    CeilingHeight := 5 / 2
    WallThickness := 5
    Segments := 32
    bSmoothNormals := true }

/-! ## Centerline sampler -/

/-- The function `ASR_ProcBentPath::SampleCenterline`; returns `(OutPos, OutTangent)`. -/
def SampleCenterline (p : Params) (T : ℝ) : FVector × FVector :=
  let Theta := DegreesToRadians p.CurveDegrees
  if IsNearlyZero Theta (1 / 1000000) then
    let X := p.LengthMeters * T
    let Z := p.DropDepthMeters * T
    let OutPos : FVector := ⟨X, 0, Z⟩
    let OutTangent : FVector := ⟨p.LengthMeters, 0, p.DropDepthMeters⟩
    (OutPos, Normalize OutTangent)
  else
    let R := p.LengthMeters / Theta
    let Angle := Theta * T
    let CosA := Real.cos Angle
    let SinA := Real.sin Angle
    let X := R * SinA
    let Y := R * (1 - CosA)
    let Z := p.DropDepthMeters * T
    let OutPos : FVector := ⟨X, if p.CurveDegrees ≥ 0 then Y else -Y, Z⟩
    let dP_dA : FVector2D := ⟨R * CosA, R * SinA⟩
    let dXY : FVector := ⟨dP_dA.X * Theta, dP_dA.Y * Theta, p.DropDepthMeters⟩
    let dXY : FVector := if p.CurveDegrees < 0 then ⟨dXY.X, dXY.Y * (-1), dXY.Z⟩ else dXY
    (OutPos, GetSafeNormal dXY)

/-! ## Tube mesh builder -/

/-- The local type `Strip` of `BuildMesh`: one face of the tube.  `Tan` holds the three
components given to `FProcMeshTangent`. -/
structure Strip where
  V : List FVector
  I : List Nat
  N : List FVector
  UV : List FVector2D
  Tan : List FVector

/-- A freshly declared, empty `Strip`. -/
def Strip.empty : Strip := ⟨[], [], [], [], []⟩

/-- The eight strips of one build, in mesh section order 0 to 7. -/
structure Sections where
  FloorIn : Strip
  LeftIn : Strip
  RightIn : Strip
  CeilIn : Strip
  FloorOut : Strip
  LeftOut : Strip
  RightOut : Strip
  CeilOut : Strip

/-- The eight strips as a list, indexed by mesh section number. -/
def Sections.toList (m : Sections) : List Strip :=
  [m.FloorIn, m.LeftIn, m.RightIn, m.CeilIn, m.FloorOut, m.LeftOut, m.RightOut, m.CeilOut]

/-- The lambda `PushPair` of `BuildMesh`. -/
def PushPair (S : Strip) (A B Normal Tangent : FVector) (U V0 V1 : ℝ) : Strip :=
  { S with
    V := S.V ++ [A, B]
    N := S.N ++ [Normal, Normal]
    Tan := S.Tan ++ [⟨Tangent.X, Tangent.Y, Tangent.Z⟩, ⟨Tangent.X, Tangent.Y, Tangent.Z⟩]
    UV := S.UV ++ [⟨U, V0⟩, ⟨U, V1⟩] }

/-- The variables that live across iterations of the ring loop of `BuildMesh`. -/
structure RingState where
  AccumLen : ℝ
  PrevCenter : FVector
  S : Sections

/-- The state before the first ring. -/
def RingState.init : RingState :=
  ⟨0, ZeroVector,
   ⟨Strip.empty, Strip.empty, Strip.empty, Strip.empty,
    Strip.empty, Strip.empty, Strip.empty, Strip.empty⟩⟩

/-- One iteration of the ring loop of `BuildMesh`, for ring index `i`. -/
def ringBody (p : Params) (st : RingState) (i : Nat) : RingState :=
  let H := p.CeilingHeight * 100
  let W := p.HalfWidth
  let Tn := p.WallThickness
  let t : ℝ := if p.Segments = 0 then 0 else (i : ℝ) / (p.Segments : ℝ)
  let C := (SampleCenterline p t).1
  let T := (SampleCenterline p t).2
  let AccumLen := if i > 0 then st.AccumLen + (C - st.PrevCenter).Size else st.AccumLen
  let Up := UpVector
  let Side := (CrossProduct Up T).GetSafeNormal
  let Side := if Side.IsNearlyZero then (CrossProduct ForwardVector T).GetSafeNormal else Side
  let N_Floor := (CrossProduct T Side).GetSafeNormal
  let N_Ceil := -N_Floor
  let N_Left := Side
  let N_Right := -Side
  let Lb := C - Side * W
  let Rb := C + Side * W
  let Rt := Rb + Up * H
  let Lt := Lb + Up * H
  let NO_Floor := -N_Floor
  let NO_Ceil := -N_Ceil
  let NO_Left := -N_Left
  let NO_Right := -N_Right
  let LbOut := Lb + (NO_Floor + NO_Left) * Tn
  let RbOut := Rb + (NO_Floor + NO_Right) * Tn
  let RtOut := Rt + (NO_Ceil + NO_Right) * Tn
  let LtOut := Lt + (NO_Ceil + NO_Left) * Tn
  let U := if AccumLen > 0 then AccumLen / 100 else 0
  { AccumLen := AccumLen
    PrevCenter := C
    S :=
      { FloorIn := PushPair st.S.FloorIn Lb Rb N_Floor T U 0 1
        LeftIn := PushPair st.S.LeftIn Lb Lt N_Left T U 0 1
        RightIn := PushPair st.S.RightIn Rb Rt N_Right T U 0 1
        CeilIn := PushPair st.S.CeilIn Lt Rt N_Ceil T U 0 1
        FloorOut := PushPair st.S.FloorOut LbOut RbOut (-N_Floor) T U 0 1
        LeftOut := PushPair st.S.LeftOut LbOut LtOut (-N_Left) T U 0 1
        RightOut := PushPair st.S.RightOut RbOut RtOut (-N_Right) T U 0 1
        CeilOut := PushPair st.S.CeilOut LtOut RtOut (-N_Ceil) T U 0 1 } }

/-- The ring loop of `BuildMesh`: `i` runs from 0 while `i < NumRings = Segments + 1`. -/
def ringLoop (p : Params) : RingState :=
  let NumRings := p.Segments + 1
  (List.range NumRings.toNat).foldl (ringBody p) RingState.init

/-- One iteration of the loop of `BuildStrip`: the six indices appended for segment `s`. -/
def stripBody (bPairsAreAcrossNotVertical : Bool) (Indices : List Nat) (s : Nat) : List Nat :=
  let i0 := s * 2
  let i1 := i0 + 1
  let i2 := i0 + 2
  let i3 := i0 + 3
  if bPairsAreAcrossNotVertical then
    Indices ++ [i0, i1, i2] ++ [i2, i1, i3]
  else
    Indices ++ [i0, i2, i1] ++ [i2, i3, i1]

/-- The lambda `BuildStrip` of `BuildMesh`; returns the index array it fills. -/
def BuildStrip (Segs : Int) (bPairsAreAcrossNotVertical : Bool) : List Nat :=
  (List.range Segs.toNat).foldl (stripBody bPairsAreAcrossNotVertical) []

/-- Engine function `TArray::SetNumZeroed`: new elements are zeroed, surplus elements are
removed, elements already present are kept. -/
def SetNumZeroed (N : List FVector) (NewNum : Nat) : List FVector :=
  if NewNum > N.length then N ++ List.replicate (NewNum - N.length) ZeroVector
  else N.take NewNum

/-- The update `N[a] += Fn`; `none` when `a` is out of range. -/
def AddAt (N : List FVector) (a : Nat) (Fn : FVector) : Option (List FVector) :=
  match N[a]? with
  | some v => some (N.set a (v + Fn))
  | none => none

/-- The first loop of the lambda `Smooth`: consumes the index array three entries at a time
and adds each face normal to the three vertex normals.  `none` on any out-of-range read. -/
def SmoothAccum (V : List FVector) : List Nat → List FVector → Option (List FVector)
  | [], N => some N
  | a :: b :: c :: I, N =>
    match V[a]?, V[b]?, V[c]? with
    | some A, some B, some C =>
      let Fn := (CrossProduct (B - A) (C - A)).GetSafeNormal
      (AddAt N a Fn).bind fun N =>
      (AddAt N b Fn).bind fun N =>
      (AddAt N c Fn).bind fun N => SmoothAccum V I N
    | _, _, _ => none
  | _, _ => none

/-- The lambda `Smooth` of `BuildMesh`; returns the normal array it leaves. -/
def Smooth (V : List FVector) (I : List Nat) (N : List FVector) : Option (List FVector) :=
  (SmoothAccum V I (SetNumZeroed N V.length)).map fun N => N.map GetSafeNormal

/-- The lambda `NormalizeU` of `BuildMesh`; `UVs.Last(1)` is the element before the last. -/
def NormalizeU (UVs : List FVector2D) : List FVector2D :=
  if UVs.length < 2 then UVs
  else
    match UVs[UVs.length - 1 - 1]? with
    | none => UVs
    | some last1 =>
      let TotalU := last1.X
      if ¬ IsNearlyZero TotalU SMALL_NUMBER then
        let S := 1 / TotalU
        UVs.map fun uv => ⟨uv.X * S, uv.Y⟩
      else UVs

/-- The function `ASR_ProcBentPath::BuildMesh`, up to the eight arrays handed to
`CreateMeshSection_LinearColor`; `none` when an array access is out of range. -/
def BuildMesh (p : Params) : Option Sections :=
  let R := (ringLoop p).S
  let FloorIn := { R.FloorIn with I := BuildStrip p.Segments true }
  let FloorOut := { R.FloorOut with I := BuildStrip p.Segments false }
  let CeilIn := { R.CeilIn with I := BuildStrip p.Segments false }
  let CeilOut := { R.CeilOut with I := BuildStrip p.Segments true }
  let LeftIn := { R.LeftIn with I := BuildStrip p.Segments false }
  let LeftOut := { R.LeftOut with I := BuildStrip p.Segments true }
  let RightIn := { R.RightIn with I := BuildStrip p.Segments true }
  let RightOut := { R.RightOut with I := BuildStrip p.Segments false }
  let smoothed : Option Sections :=
    if p.bSmoothNormals then
      (Smooth FloorIn.V FloorIn.I FloorIn.N).bind fun nFloorIn =>
      (Smooth FloorOut.V FloorOut.I FloorOut.N).bind fun nFloorOut =>
      (Smooth LeftIn.V LeftIn.I LeftIn.N).bind fun nLeftIn =>
      (Smooth LeftOut.V LeftOut.I LeftOut.N).bind fun nLeftOut =>
      (Smooth RightIn.V RightIn.I RightIn.N).bind fun nRightIn =>
      (Smooth RightOut.V RightOut.I RightOut.N).bind fun nRightOut =>
      (Smooth CeilIn.V CeilIn.I CeilIn.N).bind fun nCeilIn =>
      (Smooth CeilOut.V CeilOut.I CeilOut.N).bind fun nCeilOut =>
      some
        { FloorIn := { FloorIn with N := nFloorIn }
          LeftIn := { LeftIn with N := nLeftIn }
          RightIn := { RightIn with N := nRightIn }
          CeilIn := { CeilIn with N := nCeilIn }
          FloorOut := { FloorOut with N := nFloorOut }
          LeftOut := { LeftOut with N := nLeftOut }
          RightOut := { RightOut with N := nRightOut }
          CeilOut := { CeilOut with N := nCeilOut } }
    else
      some ⟨FloorIn, LeftIn, RightIn, CeilIn, FloorOut, LeftOut, RightOut, CeilOut⟩
  smoothed.map fun m =>
    { m with
      FloorIn := { m.FloorIn with UV := NormalizeU m.FloorIn.UV }
      FloorOut := { m.FloorOut with UV := NormalizeU m.FloorOut.UV }
      CeilIn := { m.CeilIn with UV := NormalizeU m.CeilIn.UV }
      CeilOut := { m.CeilOut with UV := NormalizeU m.CeilOut.UV } }

/-! ## Definitions used to state the properties -/

/-- The array obtained by appending the pair `f i, g i` for `i = 0, …, k - 1`. -/
def pairs {α : Type} (f g : Nat → α) : Nat → List α
  | 0 => []
  | k + 1 => pairs f g k ++ [f k, g k]

/-- The parameter `t` of ring `i`. -/
def ringT (p : Params) (i : Nat) : ℝ :=
  if p.Segments = 0 then 0 else (i : ℝ) / (p.Segments : ℝ)

/-- The center `C` of ring `i`. -/
def ringC (p : Params) (i : Nat) : FVector := (SampleCenterline p (ringT p i)).1

/-- The tangent `T` of ring `i`. -/
def ringTan (p : Params) (i : Nat) : FVector := (SampleCenterline p (ringT p i)).2

/-- The vector `Side` the loop body derives from a tangent `T`. -/
def frameSide (T : FVector) : FVector :=
  if (CrossProduct UpVector T).GetSafeNormal.IsNearlyZero then
    (CrossProduct ForwardVector T).GetSafeNormal
  else (CrossProduct UpVector T).GetSafeNormal

/-- The vector `Side` of ring `i`. -/
def ringSide (p : Params) (i : Nat) : FVector := frameSide (ringTan p i)

/-- The vector `N_Floor` of ring `i`. -/
def ringNFloor (p : Params) (i : Nat) : FVector :=
  (CrossProduct (ringTan p i) (ringSide p i)).GetSafeNormal

/-- The inner corner `Lb` of ring `i`. -/
def ringLb (p : Params) (i : Nat) : FVector := ringC p i - ringSide p i * p.HalfWidth
/-- The inner corner `Rb` of ring `i`. -/
def ringRb (p : Params) (i : Nat) : FVector := ringC p i + ringSide p i * p.HalfWidth
/-- The inner corner `Rt` of ring `i`. -/
def ringRt (p : Params) (i : Nat) : FVector := ringRb p i + UpVector * (p.CeilingHeight * 100)
/-- The inner corner `Lt` of ring `i`. -/
def ringLt (p : Params) (i : Nat) : FVector := ringLb p i + UpVector * (p.CeilingHeight * 100)

/-- The outer corner `LbOut` of ring `i`. -/
def ringLbOut (p : Params) (i : Nat) : FVector :=
  ringLb p i + (-ringNFloor p i + -ringSide p i) * p.WallThickness
/-- The outer corner `RbOut` of ring `i`. -/
def ringRbOut (p : Params) (i : Nat) : FVector :=
  ringRb p i + (-ringNFloor p i + - -ringSide p i) * p.WallThickness
/-- The outer corner `RtOut` of ring `i`. -/
def ringRtOut (p : Params) (i : Nat) : FVector :=
  ringRt p i + (- -ringNFloor p i + - -ringSide p i) * p.WallThickness
/-- The outer corner `LtOut` of ring `i`. -/
def ringLtOut (p : Params) (i : Nat) : FVector :=
  ringLt p i + (- -ringNFloor p i + -ringSide p i) * p.WallThickness

/-- The value of `AccumLen` once ring `i` has been processed. -/
def accumAt (p : Params) : Nat → ℝ
  | 0 => 0
  | i + 1 => accumAt p i + (ringC p (i + 1) - ringC p i).Size

/-- The texture coordinate `U` of ring `i`. -/
def ringU (p : Params) (i : Nat) : ℝ := if accumAt p i > 0 then accumAt p i / 100 else 0

/-- The state of the ring loop after `k` iterations. -/
def ringFold (p : Params) (k : Nat) : RingState :=
  (List.range k).foldl (ringBody p) RingState.init

/-- The six indices `BuildStrip` appends for segment `s`. -/
def stripSix (b : Bool) (s : Nat) : List Nat :=
  if b then [s * 2, s * 2 + 1, s * 2 + 2, s * 2 + 2, s * 2 + 1, s * 2 + 3]
  else [s * 2, s * 2 + 2, s * 2 + 1, s * 2 + 2, s * 2 + 3, s * 2 + 1]

/-- The index array after `k` segments. -/
def stripFold (b : Bool) (k : Nat) : List Nat := (List.range k).foldl (stripBody b) []

/-- An index array made of whole triangles whose indices are all below `m`. -/
def trisInRange (m : Nat) : List Nat → Prop
  | [] => True
  | a :: b :: c :: I => a < m ∧ b < m ∧ c < m ∧ trisInRange m I
  | _ => False

/-- The eight sections `BuildMesh` hands over, given the final normal array of each strip. -/
def assemble (p : Params) (nFloorIn nLeftIn nRightIn nCeilIn nFloorOut nLeftOut nRightOut
    nCeilOut : List FVector) : Sections :=
  { FloorIn := ⟨(ringLoop p).S.FloorIn.V, BuildStrip p.Segments true, nFloorIn,
        NormalizeU (ringLoop p).S.FloorIn.UV, (ringLoop p).S.FloorIn.Tan⟩
    LeftIn := ⟨(ringLoop p).S.LeftIn.V, BuildStrip p.Segments false, nLeftIn,
        (ringLoop p).S.LeftIn.UV, (ringLoop p).S.LeftIn.Tan⟩
    RightIn := ⟨(ringLoop p).S.RightIn.V, BuildStrip p.Segments true, nRightIn,
        (ringLoop p).S.RightIn.UV, (ringLoop p).S.RightIn.Tan⟩
    CeilIn := ⟨(ringLoop p).S.CeilIn.V, BuildStrip p.Segments false, nCeilIn,
        NormalizeU (ringLoop p).S.CeilIn.UV, (ringLoop p).S.CeilIn.Tan⟩
    FloorOut := ⟨(ringLoop p).S.FloorOut.V, BuildStrip p.Segments false, nFloorOut,
        NormalizeU (ringLoop p).S.FloorOut.UV, (ringLoop p).S.FloorOut.Tan⟩
    LeftOut := ⟨(ringLoop p).S.LeftOut.V, BuildStrip p.Segments true, nLeftOut,
        (ringLoop p).S.LeftOut.UV, (ringLoop p).S.LeftOut.Tan⟩
    RightOut := ⟨(ringLoop p).S.RightOut.V, BuildStrip p.Segments false, nRightOut,
        (ringLoop p).S.RightOut.UV, (ringLoop p).S.RightOut.Tan⟩
    CeilOut := ⟨(ringLoop p).S.CeilOut.V, BuildStrip p.Segments true, nCeilOut,
        NormalizeU (ringLoop p).S.CeilOut.UV, (ringLoop p).S.CeilOut.Tan⟩ }

/-- Entry `j` of the inner and of the outer normal array are negations of each other with a
strictly negative dot product. -/
def opposedAt (inner outer : List FVector) (j : Nat) : Prop :=
  ∃ a b, inner[j]? = some a ∧ outer[j]? = some b ∧ b = -a ∧ DotProduct a b < 0

/-- The UV array every strip holds after the ring loop. -/
def ringUVs (p : Params) (K : Nat) : List FVector2D :=
  pairs (fun i => (⟨ringU p i, 0⟩ : FVector2D)) (fun i => ⟨ringU p i, 1⟩) K

/-- The scale applied to (length, 0, drop) by `Normalize`. -/
def tangentScale (p : Params) : ℝ :=
  InvSqrt (p.LengthMeters * p.LengthMeters + p.DropDepthMeters * p.DropDepthMeters)

/-- The dot products of the face normal `(B - A) × (C - A)`, the formula of `Smooth`, with
three vertex normals. -/
def dots3 (A B C na nb nc : FVector) : ℝ × ℝ × ℝ :=
  (DotProduct (CrossProduct (B - A) (C - A)) na,
   DotProduct (CrossProduct (B - A) (C - A)) nb,
   DotProduct (CrossProduct (B - A) (C - A)) nc)

/-- For triangle `t` of a strip (indices `I[3t], I[3t+1], I[3t+2]`): the dot products of its
face normal with the normals stored at its three corners; `none` if a read is out of range. -/
def triangleDots (S : Strip) (t : Nat) : Option (ℝ × ℝ × ℝ) :=
  match S.I[3 * t]?, S.I[3 * t + 1]?, S.I[3 * t + 2]? with
  | some a, some b, some c =>
    match S.V[a]?, S.V[b]?, S.V[c]?, S.N[a]?, S.N[b]?, S.N[c]? with
    | some A, some B, some C, some na, some nb, some nc => some (dots3 A B C na nb nc)
    | _, _, _, _, _, _ => none
  | _, _, _ => none

/-- The hypotheses of the winding statement: a straight path with `N ≥ 1` segments, positive
length, half-width and ceiling height, non-negative wall thickness, a tangent long enough to
be normalised, and not a nearly vertical climb. -/
def StraightBuild (p : Params) (N : Nat) : Prop :=
  1 ≤ N ∧ p.Segments = (N : Int) ∧ p.CurveDegrees = 0 ∧ 0 < p.LengthMeters ∧
  0 < p.HalfWidth ∧ 0 < p.CeilingHeight ∧ 0 ≤ p.WallThickness ∧
  SMALL_NUMBER < p.LengthMeters * p.LengthMeters + p.DropDepthMeters * p.DropDepthMeters ∧
  (SMALL_NUMBER * (p.LengthMeters * p.LengthMeters + p.DropDepthMeters * p.DropDepthMeters)
      ≤ p.LengthMeters * p.LengthMeters ∨ p.DropDepthMeters < 0)

/-- The parameter set of the scenario: length 10, curve 0, drop 0, half-width 0.5, ceiling
height 2.5, wall thickness 0, one segment; the smoothing flag is left open. -/
def scenario (bSmoothNormals : Bool) : Params :=
  { LengthMeters := 10
    CurveDegrees := 0
    DropDepthMeters := 0
    HalfWidth := 1 / 2
    CeilingHeight := 5 / 2
    WallThickness := 0
    Segments := 1
    bSmoothNormals := bSmoothNormals }

/-- The values of ring `i` are the ones stored at the entries `2i`, `2i+1` of the arrays the
ring loop builds: corner positions in the position arrays, `N_Floor` and `Side` in the normal
arrays of the inner floor and inner left wall, the tangent in the tangent arrays. -/
def RingStored (p : Params) (i : Nat) : Prop :=
  ((ringLoop p).S.FloorIn.V[2 * i]? = some (ringLb p i) ∧
   (ringLoop p).S.FloorIn.V[2 * i + 1]? = some (ringRb p i) ∧
   (ringLoop p).S.CeilIn.V[2 * i]? = some (ringLt p i) ∧
   (ringLoop p).S.CeilIn.V[2 * i + 1]? = some (ringRt p i) ∧
   (ringLoop p).S.FloorOut.V[2 * i]? = some (ringLbOut p i) ∧
   (ringLoop p).S.FloorOut.V[2 * i + 1]? = some (ringRbOut p i) ∧
   (ringLoop p).S.CeilOut.V[2 * i]? = some (ringLtOut p i) ∧
   (ringLoop p).S.CeilOut.V[2 * i + 1]? = some (ringRtOut p i)) ∧
  (ringLoop p).S.FloorIn.N[2 * i]? = some (ringNFloor p i) ∧
  (ringLoop p).S.LeftIn.N[2 * i]? = some (ringSide p i) ∧
  (ringLoop p).S.FloorIn.Tan[2 * i]? = some (ringTan p i)

/-- A straight climb of length 3 and drop 4, one segment. -/
def climb : Params :=
  { LengthMeters := 3
    CurveDegrees := 0
    DropDepthMeters := 4
    HalfWidth := 1 / 2
    CeilingHeight := 5 / 2
    WallThickness := 5
    Segments := 1
    bSmoothNormals := true }

/-- A straight path of length 1e-5 without drop, one segment. -/
def tiny : Params :=
  { LengthMeters := 1 / 100000
    CurveDegrees := 0
    DropDepthMeters := 0
    HalfWidth := 1 / 2
    CeilingHeight := 5 / 2
    WallThickness := 5
    Segments := 1
    bSmoothNormals := true }

/-- The derivative with respect to the parameter of the position `SampleCenterline` returns:
(length, 0, drop) in the straight band, (L·cos A, ±L·sin A, drop) with A = Theta·t on the
arc, the sign being that of the Y coordinate of the position. -/
def centerlineDerivative (p : Params) (t : ℝ) : FVector :=
  if IsNearlyZero (DegreesToRadians p.CurveDegrees) (1 / 1000000) then
    ⟨p.LengthMeters, 0, p.DropDepthMeters⟩
  else
    ⟨p.LengthMeters * Real.cos (DegreesToRadians p.CurveDegrees * t),
     if p.CurveDegrees < 0 then
       -(p.LengthMeters * Real.sin (DegreesToRadians p.CurveDegrees * t))
     else p.LengthMeters * Real.sin (DegreesToRadians p.CurveDegrees * t),
     p.DropDepthMeters⟩

/-! ## Vector algebra -/

@[simp] theorem FVector.add_X (a b : FVector) : (a + b).X = a.X + b.X := rfl
@[simp] theorem FVector.add_Y (a b : FVector) : (a + b).Y = a.Y + b.Y := rfl
@[simp] theorem FVector.add_Z (a b : FVector) : (a + b).Z = a.Z + b.Z := rfl
@[simp] theorem FVector.sub_X (a b : FVector) : (a - b).X = a.X - b.X := rfl
@[simp] theorem FVector.sub_Y (a b : FVector) : (a - b).Y = a.Y - b.Y := rfl
@[simp] theorem FVector.sub_Z (a b : FVector) : (a - b).Z = a.Z - b.Z := rfl
@[simp] theorem FVector.neg_X (a : FVector) : (-a).X = -a.X := rfl
@[simp] theorem FVector.neg_Y (a : FVector) : (-a).Y = -a.Y := rfl
@[simp] theorem FVector.neg_Z (a : FVector) : (-a).Z = -a.Z := rfl
@[simp] theorem FVector.mul_X (a : FVector) (k : ℝ) : (a * k).X = a.X * k := rfl
@[simp] theorem FVector.mul_Y (a : FVector) (k : ℝ) : (a * k).Y = a.Y * k := rfl
@[simp] theorem FVector.mul_Z (a : FVector) (k : ℝ) : (a * k).Z = a.Z * k := rfl

theorem small_pos : 0 < SMALL_NUMBER := by unfold SMALL_NUMBER; norm_num

theorem small_lt_one : SMALL_NUMBER < 1 := by unfold SMALL_NUMBER; norm_num

/-- Scaling a vector by the inverse square root of its positive squared length gives a
vector of squared length one. -/
theorem scaled_sizeSquared (x y z : ℝ) (h : 0 < x * x + y * y + z * z) :
    SizeSquared ⟨x * InvSqrt (x * x + y * y + z * z), y * InvSqrt (x * x + y * y + z * z),
      z * InvSqrt (x * x + y * y + z * z)⟩ = 1 := by
  have hs : Real.sqrt (x * x + y * y + z * z) * Real.sqrt (x * x + y * y + z * z)
      = x * x + y * y + z * z := Real.mul_self_sqrt h.le
  have hpos : 0 < Real.sqrt (x * x + y * y + z * z) := Real.sqrt_pos.mpr h
  simp only [SizeSquared, InvSqrt]
  field_simp

theorem GetSafeNormal_of_unit (V : FVector) (h : SizeSquared V = 1) : GetSafeNormal V = V := by
  unfold SizeSquared at h
  simp [GetSafeNormal, h]

theorem GetSafeNormal_sizeSquared (V : FVector) (h : SMALL_NUMBER ≤ SizeSquared V) :
    SizeSquared (GetSafeNormal V) = 1 := by
  unfold GetSafeNormal
  by_cases h1 : V.X * V.X + V.Y * V.Y + V.Z * V.Z = 1
  · simp [h1, SizeSquared]
  · have h2 : ¬ V.X * V.X + V.Y * V.Y + V.Z * V.Z < SMALL_NUMBER := not_lt.mpr h
    simp only [h1, h2, if_false]
    exact scaled_sizeSquared _ _ _ (lt_of_lt_of_le small_pos h)

theorem GetSafeNormal_of_small (V : FVector) (h : SizeSquared V < SMALL_NUMBER) :
    GetSafeNormal V = ZeroVector := by
  unfold SizeSquared at h
  have h1 : ¬ V.X * V.X + V.Y * V.Y + V.Z * V.Z = 1 := by
    intro h1; rw [h1] at h; exact absurd h (not_lt.mpr small_lt_one.le)
  simp [GetSafeNormal, h, h1]

theorem Normalize_sizeSquared (V : FVector) (h : SMALL_NUMBER < SizeSquared V) :
    SizeSquared (Normalize V) = 1 := by
  unfold SizeSquared at h
  unfold Normalize
  simp only [gt_iff_lt, h, if_true]
  exact scaled_sizeSquared _ _ _ (lt_trans small_pos h)

theorem Size_eq_one_of_sizeSquared (V : FVector) (h : SizeSquared V = 1) : Size V = 1 := by
  unfold SizeSquared at h
  simp [Size, h]

/-! ## The centerline sampler on a straight path -/

theorem DegreesToRadians_zero : DegreesToRadians 0 = 0 := by simp [DegreesToRadians]

theorem SampleCenterline_straight (p : Params) (t : ℝ)
    (h : IsNearlyZero (DegreesToRadians p.CurveDegrees) (1 / 1000000)) :
    SampleCenterline p t =
      (⟨p.LengthMeters * t, 0, p.DropDepthMeters * t⟩,
       Normalize ⟨p.LengthMeters, 0, p.DropDepthMeters⟩) := by
  unfold SampleCenterline
  simp only [if_pos h]

theorem nearlyZero_zero : IsNearlyZero (DegreesToRadians 0) (1 / 1000000) := by
  rw [DegreesToRadians_zero]; unfold IsNearlyZero; norm_num

/-- Claim C4, amended.  For curve angle 0, length > 0 and squared tangent length
`length² + drop²` above the normalisation tolerance 1e-8, the sampled position is (0,0,0) at
t = 0 and (length, 0, drop) at t = 1, and the tangent is, for every t, the vector
(length, 0, drop) divided by its Euclidean norm. -/
theorem straight_sample_endpoints_and_tangent (p : Params) (hc : p.CurveDegrees = 0)
    (hL : 0 < p.LengthMeters)
    (hn : SMALL_NUMBER < p.LengthMeters * p.LengthMeters + p.DropDepthMeters * p.DropDepthMeters) :
    (SampleCenterline p 0).1 = ⟨0, 0, 0⟩ ∧
    (SampleCenterline p 1).1 = ⟨p.LengthMeters, 0, p.DropDepthMeters⟩ ∧
    ∀ t : ℝ, (SampleCenterline p t).2 =
      ⟨p.LengthMeters / Size ⟨p.LengthMeters, 0, p.DropDepthMeters⟩,
       0 / Size ⟨p.LengthMeters, 0, p.DropDepthMeters⟩,
       p.DropDepthMeters / Size ⟨p.LengthMeters, 0, p.DropDepthMeters⟩⟩ := by
  have hz : IsNearlyZero (DegreesToRadians p.CurveDegrees) (1 / 1000000) := by
    rw [hc]; exact nearlyZero_zero
  refine ⟨?_, ?_, ?_⟩
  · rw [SampleCenterline_straight p 0 hz]; simp
  · rw [SampleCenterline_straight p 1 hz]; simp
  · intro t
    rw [SampleCenterline_straight p t hz]
    have hn2 : SMALL_NUMBER <
        p.LengthMeters * p.LengthMeters + 0 * 0 + p.DropDepthMeters * p.DropDepthMeters := by
      simpa using hn
    simp only [Normalize, gt_iff_lt, hn2, if_true, Size, InvSqrt]
    ext <;> simp [div_eq_mul_inv]

/-- Witness for claim C4 (amended) at length 10, drop 0. -/
theorem straight_sample_endpoints_and_tangent_witness :
    (SampleCenterline ⟨10, 0, 0, 1 / 2, 5 / 2, 0, 1, true⟩ 0).1 = ⟨0, 0, 0⟩ ∧
    (SampleCenterline ⟨10, 0, 0, 1 / 2, 5 / 2, 0, 1, true⟩ 1).1 = ⟨10, 0, 0⟩ ∧
    ∀ t : ℝ, (SampleCenterline ⟨10, 0, 0, 1 / 2, 5 / 2, 0, 1, true⟩ t).2 =
      ⟨10 / Size ⟨10, 0, 0⟩, 0 / Size ⟨10, 0, 0⟩, 0 / Size ⟨10, 0, 0⟩⟩ :=
  straight_sample_endpoints_and_tangent ⟨10, 0, 0, 1 / 2, 5 / 2, 0, 1, true⟩ rfl
    (by norm_num) (by simp only [SMALL_NUMBER]; norm_num)

/-- Claim C4 as stated fails: at curve angle 0, length 1e-5 and drop 0 the squared length
1e-10 of (length, 0, drop) is not above the tolerance, `Normalize` leaves the vector as it
is, and the returned tangent is (1e-5, 0, 0), not the unit vector (1, 0, 0). -/
theorem straight_tangent_not_normalised_counterexample :
    (0 : ℝ) < 1 / 100000 ∧
    (SampleCenterline ⟨1 / 100000, 0, 0, 1 / 2, 5 / 2, 0, 1, true⟩ 0).2 = ⟨1 / 100000, 0, 0⟩ ∧
    (SampleCenterline ⟨1 / 100000, 0, 0, 1 / 2, 5 / 2, 0, 1, true⟩ 0).2 ≠
      ⟨(1 / 100000) / Size ⟨1 / 100000, 0, 0⟩, 0 / Size ⟨1 / 100000, 0, 0⟩,
       0 / Size ⟨1 / 100000, 0, 0⟩⟩ := by
  have hs : Size ⟨1 / 100000, 0, 0⟩ = 1 / 100000 := by
    simp only [Size]
    rw [show (1 / 100000 : ℝ) * (1 / 100000) + 0 * 0 + 0 * 0 = (1 / 100000) ^ 2 by norm_num]
    exact Real.sqrt_sq (by norm_num)
  have ht : (SampleCenterline ⟨1 / 100000, 0, 0, 1 / 2, 5 / 2, 0, 1, true⟩ 0).2
      = ⟨1 / 100000, 0, 0⟩ := by
    rw [SampleCenterline_straight _ _ nearlyZero_zero]
    simp only [Normalize, SMALL_NUMBER]
    norm_num
  refine ⟨by norm_num, ht, ?_⟩
  rw [ht, hs]
  intro h
  have := congrArg FVector.X h
  norm_num at this

/-! ## The centerline sampler on an arc -/

theorem theta_ne_zero (c : ℝ) (h : ¬ IsNearlyZero (DegreesToRadians c) (1 / 1000000)) :
    DegreesToRadians c ≠ 0 := by
  intro h0
  apply h
  rw [h0]; unfold IsNearlyZero; norm_num

/-- The arc branch with the products `R * Theta` simplified to the length. -/
theorem SampleCenterline_curved (p : Params) (t : ℝ)
    (h : ¬ IsNearlyZero (DegreesToRadians p.CurveDegrees) (1 / 1000000)) :
    SampleCenterline p t =
      (⟨p.LengthMeters / DegreesToRadians p.CurveDegrees
          * Real.sin (DegreesToRadians p.CurveDegrees * t),
        if p.CurveDegrees ≥ 0 then
          p.LengthMeters / DegreesToRadians p.CurveDegrees
            * (1 - Real.cos (DegreesToRadians p.CurveDegrees * t))
        else
          -(p.LengthMeters / DegreesToRadians p.CurveDegrees
            * (1 - Real.cos (DegreesToRadians p.CurveDegrees * t))),
        p.DropDepthMeters * t⟩,
       GetSafeNormal
        ⟨p.LengthMeters * Real.cos (DegreesToRadians p.CurveDegrees * t),
         if p.CurveDegrees < 0 then
           -(p.LengthMeters * Real.sin (DegreesToRadians p.CurveDegrees * t))
         else p.LengthMeters * Real.sin (DegreesToRadians p.CurveDegrees * t),
         p.DropDepthMeters⟩) := by
  have h0 := theta_ne_zero _ h
  unfold SampleCenterline
  simp only [if_neg h]
  congr 2
  by_cases hc : p.CurveDegrees < 0
  · simp only [if_pos hc]
    ext
    · show _ / _ * _ * _ = _
      field_simp
    · show _ / _ * _ * _ * (-1) = _
      field_simp
    · rfl
  · simp only [if_neg hc]
    ext
    · show _ / _ * _ * _ = _
      field_simp
    · show _ / _ * _ * _ = _
      field_simp
    · rfl

/-- The derivative vector normalised by the arc branch has squared length
`length² + drop²`, whatever the parameter. -/
theorem curved_dXY_sizeSquared (L D A : ℝ) (b : Prop) [Decidable b] :
    SizeSquared ⟨L * Real.cos A, if b then -(L * Real.sin A) else L * Real.sin A, D⟩
      = L * L + D * D := by
  have hcs := Real.sin_sq_add_cos_sq A
  by_cases hb : b
  · simp only [SizeSquared, if_pos hb]; nlinarith [hcs]
  · simp only [SizeSquared, if_neg hb]; nlinarith [hcs]

/-- With `length² + drop²` above the tolerance the sampled tangent is a unit vector. -/
theorem tangent_sizeSquared (p : Params) (t : ℝ)
    (hn : SMALL_NUMBER < p.LengthMeters * p.LengthMeters + p.DropDepthMeters * p.DropDepthMeters) :
    SizeSquared (SampleCenterline p t).2 = 1 := by
  by_cases h : IsNearlyZero (DegreesToRadians p.CurveDegrees) (1 / 1000000)
  · rw [SampleCenterline_straight p t h]
    apply Normalize_sizeSquared
    simpa [SizeSquared] using hn
  · rw [SampleCenterline_curved p t h]
    apply GetSafeNormal_sizeSquared
    rw [curved_dXY_sizeSquared]
    exact hn.le

theorem InvSqrt_pos (s : ℝ) (h : 0 < s) : 0 < InvSqrt s := by
  unfold InvSqrt
  exact one_div_pos.mpr (Real.sqrt_pos.mpr h)

/-- Normalising a vector (x, 0, z) with x > 0 keeps Y = 0 and X > 0. -/
theorem GetSafeNormal_forward (x z : ℝ) (hx : 0 < x) (hn : SMALL_NUMBER ≤ x * x + z * z) :
    (GetSafeNormal ⟨x, 0, z⟩).Y = 0 ∧ 0 < (GetSafeNormal ⟨x, 0, z⟩).X := by
  have hn2 : ¬ x * x + 0 * 0 + z * z < SMALL_NUMBER := by simpa using hn
  have hp : 0 < x * x + 0 * 0 + z * z := by nlinarith [small_pos]
  unfold GetSafeNormal
  by_cases h1 : x * x + 0 * 0 + z * z = 1
  · rw [if_pos h1]; exact ⟨rfl, hx⟩
  · simp only [h1, hn2, if_false]
    exact ⟨by simp, mul_pos hx (InvSqrt_pos _ hp)⟩

/-- Claim C5, amended.  For every non-zero curve angle, every drop and every length > 0 with
`length² + drop²` above the normalisation tolerance 1e-8, the sample at t = 0 is at (0,0,0),
its tangent has Y = 0 and X > 0, and for every t in [0,1] the tangent has norm exactly 1. -/
theorem curved_sample_start_and_unit_tangent (p : Params) (hc : p.CurveDegrees ≠ 0)
    (hL : 0 < p.LengthMeters)
    (hn : SMALL_NUMBER < p.LengthMeters * p.LengthMeters + p.DropDepthMeters * p.DropDepthMeters) :
    (SampleCenterline p 0).1 = ⟨0, 0, 0⟩ ∧
    (SampleCenterline p 0).2.Y = 0 ∧
    0 < (SampleCenterline p 0).2.X ∧
    ∀ t : ℝ, 0 ≤ t → t ≤ 1 → Size (SampleCenterline p t).2 = 1 := by
  refine ⟨?_, ?_, ?_, fun t _ _ => Size_eq_one_of_sizeSquared _ (tangent_sizeSquared p t hn)⟩
  · by_cases h : IsNearlyZero (DegreesToRadians p.CurveDegrees) (1 / 1000000)
    · rw [SampleCenterline_straight p 0 h]; simp
    · rw [SampleCenterline_curved p 0 h]; simp
  · by_cases h : IsNearlyZero (DegreesToRadians p.CurveDegrees) (1 / 1000000)
    · rw [SampleCenterline_straight p 0 h]
      simp [Normalize]
      split <;> simp
    · rw [SampleCenterline_curved p 0 h]
      have := (GetSafeNormal_forward p.LengthMeters p.DropDepthMeters hL hn.le).1
      simpa using this
  · by_cases h : IsNearlyZero (DegreesToRadians p.CurveDegrees) (1 / 1000000)
    · rw [SampleCenterline_straight p 0 h]
      have hn2 : SMALL_NUMBER <
          p.LengthMeters * p.LengthMeters + 0 * 0 + p.DropDepthMeters * p.DropDepthMeters := by
        simpa using hn
      simp only [Normalize, gt_iff_lt, hn2, if_true]
      exact mul_pos hL (InvSqrt_pos _ (lt_trans small_pos hn2))
    · rw [SampleCenterline_curved p 0 h]
      have := (GetSafeNormal_forward p.LengthMeters p.DropDepthMeters hL hn.le).2
      simpa using this

/-- Witness for claim C5 (amended) at curve 90 degrees, length 10, drop 0. -/
theorem curved_sample_start_and_unit_tangent_witness :
    (SampleCenterline ⟨10, 90, 0, 1 / 2, 5 / 2, 0, 1, true⟩ 0).1 = ⟨0, 0, 0⟩ ∧
    (SampleCenterline ⟨10, 90, 0, 1 / 2, 5 / 2, 0, 1, true⟩ 0).2.Y = 0 ∧
    0 < (SampleCenterline ⟨10, 90, 0, 1 / 2, 5 / 2, 0, 1, true⟩ 0).2.X ∧
    ∀ t : ℝ, 0 ≤ t → t ≤ 1 →
      Size (SampleCenterline ⟨10, 90, 0, 1 / 2, 5 / 2, 0, 1, true⟩ t).2 = 1 :=
  curved_sample_start_and_unit_tangent ⟨10, 90, 0, 1 / 2, 5 / 2, 0, 1, true⟩
    (by norm_num) (by norm_num) (by simp only [SMALL_NUMBER]; norm_num)

theorem DegreesToRadians_90 : DegreesToRadians 90 = Real.pi / 2 := by
  unfold DegreesToRadians; ring

theorem DegreesToRadians_neg (c : ℝ) : DegreesToRadians (-c) = -DegreesToRadians c := by
  unfold DegreesToRadians; ring

theorem not_nearlyZero_90 : ¬ IsNearlyZero (DegreesToRadians 90) (1 / 1000000) := by
  rw [DegreesToRadians_90]
  unfold IsNearlyZero
  have := Real.pi_gt_three
  rw [abs_of_pos (by linarith)]
  linarith

theorem not_nearlyZero_neg (c : ℝ) (h : ¬ IsNearlyZero (DegreesToRadians c) (1 / 1000000)) :
    ¬ IsNearlyZero (DegreesToRadians (-c)) (1 / 1000000) := by
  rw [DegreesToRadians_neg]
  unfold IsNearlyZero at *
  rwa [abs_neg]

/-- Claim C5 as stated fails: at curve 90 degrees, length 1e-5 and drop 0 the derivative
vector has squared length 1e-10, below the tolerance, so `GetSafeNormal` returns the zero
vector: the tangent at t = 0 has X = 0 and norm 0. -/
theorem curved_tangent_zero_counterexample :
    (90 : ℝ) ≠ 0 ∧ (0 : ℝ) < 1 / 100000 ∧
    (SampleCenterline ⟨1 / 100000, 90, 0, 1 / 2, 5 / 2, 0, 1, true⟩ 0).2 = ⟨0, 0, 0⟩ ∧
    ¬ 0 < (SampleCenterline ⟨1 / 100000, 90, 0, 1 / 2, 5 / 2, 0, 1, true⟩ 0).2.X ∧
    Size (SampleCenterline ⟨1 / 100000, 90, 0, 1 / 2, 5 / 2, 0, 1, true⟩ 0).2 ≠ 1 := by
  have ht : (SampleCenterline ⟨1 / 100000, 90, 0, 1 / 2, 5 / 2, 0, 1, true⟩ 0).2
      = ⟨0, 0, 0⟩ := by
    rw [SampleCenterline_curved _ _ not_nearlyZero_90]
    simp only [mul_zero, Real.cos_zero, Real.sin_zero, mul_one]
    rw [if_neg (by norm_num)]
    apply GetSafeNormal_of_small
    simp only [SizeSquared, SMALL_NUMBER]
    norm_num
  refine ⟨by norm_num, by norm_num, ht, ?_, ?_⟩
  · rw [ht]; simp
  · rw [ht]; simp [Size]

/-! ## Negative curve angles -/

/-- Outside the straight band the sampler returns, for the angle `-c`, exactly what it
returns for `c > 0`: the radius `R` changes sign with `Theta`, which already mirrors Y, and
the explicit flips for negative `CurveDegrees` mirror it back. -/
theorem SampleCenterline_neg_curve (p : Params) (c t : ℝ) (hc : 0 < c)
    (h : ¬ IsNearlyZero (DegreesToRadians c) (1 / 1000000)) :
    SampleCenterline { p with CurveDegrees := -c } t
      = SampleCenterline { p with CurveDegrees := c } t := by
  have h0 := theta_ne_zero _ h
  rw [SampleCenterline_curved { p with CurveDegrees := -c } t (not_nearlyZero_neg c h),
    SampleCenterline_curved { p with CurveDegrees := c } t h]
  simp only [DegreesToRadians_neg, neg_mul, Real.sin_neg, Real.cos_neg]
  have h1 : ¬ (-c ≥ 0) := by linarith
  have h2 : c ≥ 0 := hc.le
  have h3 : -c < 0 := by linarith
  have h4 : ¬ (c < 0) := by linarith
  simp only [if_neg h1, if_pos h2, if_pos h3, if_neg h4]
  congr 2
  · field_simp
  · field_simp
  · simp

/-- Claim C6, evaluated on the code at CurveDegrees = -90 (length 10, drop 0, t = 1): the
sampled position is (20/π, 20/π, 0), the very position sampled for +90, with the same
positive Y; the tangents coincide as well.  The path is not mirrored. -/
theorem negative_curve_samples_like_positive :
    (SampleCenterline ⟨10, -90, 0, 1 / 2, 5 / 2, 0, 1, true⟩ 1).1
      = ⟨20 / Real.pi, 20 / Real.pi, 0⟩ ∧
    (SampleCenterline ⟨10, 90, 0, 1 / 2, 5 / 2, 0, 1, true⟩ 1).1
      = ⟨20 / Real.pi, 20 / Real.pi, 0⟩ ∧
    0 < 20 / Real.pi ∧
    (SampleCenterline ⟨10, -90, 0, 1 / 2, 5 / 2, 0, 1, true⟩ 1).2
      = (SampleCenterline ⟨10, 90, 0, 1 / 2, 5 / 2, 0, 1, true⟩ 1).2 := by
  have hneg := SampleCenterline_neg_curve ⟨10, 90, 0, 1 / 2, 5 / 2, 0, 1, true⟩ 90 1
    (by norm_num) not_nearlyZero_90
  simp only at hneg
  have hpos : (SampleCenterline ⟨10, 90, 0, 1 / 2, 5 / 2, 0, 1, true⟩ 1).1
      = ⟨20 / Real.pi, 20 / Real.pi, 0⟩ := by
    rw [SampleCenterline_curved _ _ not_nearlyZero_90]
    simp only [DegreesToRadians_90, mul_one, Real.sin_pi_div_two, Real.cos_pi_div_two]
    rw [if_pos (by norm_num)]
    have hpi := Real.pi_pos
    ext
    · show (10 : ℝ) / (Real.pi / 2) = 20 / Real.pi
      field_simp; norm_num
    · show (10 : ℝ) / (Real.pi / 2) * (1 - 0) = 20 / Real.pi
      field_simp; norm_num
    · show (0 : ℝ) = 0
      rfl
  refine ⟨?_, hpos, by positivity, ?_⟩
  · rw [hneg]; exact hpos
  · rw [hneg]

/-! ## The quarter turn -/

theorem GetSafeNormal_eq_scale (V : FVector) :
    ∃ k : ℝ, GetSafeNormal V = ⟨V.X * k, V.Y * k, V.Z * k⟩ := by
  unfold GetSafeNormal
  by_cases h1 : V.X * V.X + V.Y * V.Y + V.Z * V.Z = 1
  · exact ⟨1, by simp [h1]⟩
  · by_cases h2 : V.X * V.X + V.Y * V.Y + V.Z * V.Z < SMALL_NUMBER
    · exact ⟨0, by simp [h1, h2, ZeroVector]⟩
    · exact ⟨InvSqrt (V.X * V.X + V.Y * V.Y + V.Z * V.Z), by simp [h1, h2]⟩

/-- Claim C7.  For curveDegrees = 90, drop = 0 and length = (π/2)·R with R > 0, the sample
at t = 1 is at (R, R, 0), its tangent has Z = 0, and that tangent is perpendicular to the
tangent at t = 0. -/
theorem quarter_turn_endpoint (p : Params) (R : ℝ) (hc : p.CurveDegrees = 90)
    (hd : p.DropDepthMeters = 0) (hl : p.LengthMeters = Real.pi / 2 * R) (hR : 0 < R) :
    (SampleCenterline p 1).1 = ⟨R, R, 0⟩ ∧
    (SampleCenterline p 1).2.Z = 0 ∧
    DotProduct (SampleCenterline p 1).2 (SampleCenterline p 0).2 = 0 := by
  have hz : ¬ IsNearlyZero (DegreesToRadians p.CurveDegrees) (1 / 1000000) := by
    rw [hc]; exact not_nearlyZero_90
  have hpi := Real.pi_pos
  rw [SampleCenterline_curved p 1 hz, SampleCenterline_curved p 0 hz]
  simp only [hc, hd, hl, DegreesToRadians_90, mul_one, mul_zero, Real.sin_pi_div_two,
    Real.cos_pi_div_two, Real.sin_zero, Real.cos_zero]
  have h90 : ¬ ((90 : ℝ) < 0) := by norm_num
  have h90p : (90 : ℝ) ≥ 0 := by norm_num
  simp only [if_neg h90, if_pos h90p]
  obtain ⟨k1, hk1⟩ := GetSafeNormal_eq_scale ⟨0, Real.pi / 2 * R, 0⟩
  obtain ⟨k0, hk0⟩ := GetSafeNormal_eq_scale ⟨Real.pi / 2 * R, 0, 0⟩
  rw [hk1, hk0]
  refine ⟨?_, by simp, by simp [DotProduct]⟩
  ext
  · show Real.pi / 2 * R / (Real.pi / 2) = R
    field_simp
  · show Real.pi / 2 * R / (Real.pi / 2) * (1 - 0) = R
    field_simp
  · show (0 : ℝ) = 0
    rfl

/-- Witness for claim C7 at R = 10. -/
theorem quarter_turn_endpoint_witness :
    (SampleCenterline ⟨Real.pi / 2 * 10, 90, 0, 1 / 2, 5 / 2, 0, 64, true⟩ 1).1 = ⟨10, 10, 0⟩ ∧
    (SampleCenterline ⟨Real.pi / 2 * 10, 90, 0, 1 / 2, 5 / 2, 0, 64, true⟩ 1).2.Z = 0 ∧
    DotProduct (SampleCenterline ⟨Real.pi / 2 * 10, 90, 0, 1 / 2, 5 / 2, 0, 64, true⟩ 1).2
      (SampleCenterline ⟨Real.pi / 2 * 10, 90, 0, 1 / 2, 5 / 2, 0, 64, true⟩ 0).2 = 0 :=
  quarter_turn_endpoint ⟨Real.pi / 2 * 10, 90, 0, 1 / 2, 5 / 2, 0, 64, true⟩ 10 rfl rfl rfl
    (by norm_num)

/-! ## The ring loop as a list of vertex pairs -/

theorem pairs_length {α : Type} (f g : Nat → α) (k : Nat) : (pairs f g k).length = 2 * k := by
  induction k with
  | zero => rfl
  | succ k ih => simp [pairs, ih]; omega

theorem pairs_get_even {α : Type} (f g : Nat → α) (k i : Nat) (h : i < k) :
    (pairs f g k)[2 * i]? = some (f i) := by
  induction k with
  | zero => omega
  | succ k ih =>
    simp only [pairs]
    by_cases hi : i < k
    · rw [List.getElem?_append_left (by rw [pairs_length]; omega)]
      exact ih hi
    · have hik : i = k := by omega
      subst hik
      rw [List.getElem?_append_right (by rw [pairs_length])]
      simp [pairs_length]

theorem pairs_get_odd {α : Type} (f g : Nat → α) (k i : Nat) (h : i < k) :
    (pairs f g k)[2 * i + 1]? = some (g i) := by
  induction k with
  | zero => omega
  | succ k ih =>
    simp only [pairs]
    by_cases hi : i < k
    · rw [List.getElem?_append_left (by rw [pairs_length]; omega)]
      exact ih hi
    · have hik : i = k := by omega
      subst hik
      rw [List.getElem?_append_right (by rw [pairs_length]; omega)]
      simp [pairs_length]

/-- A loop whose body appends the pair `f i, g i` to an array builds `pairs f g`. -/
theorem foldl_range_pairs {σ α : Type} (body : σ → Nat → σ) (proj : σ → List α)
    (f g : Nat → α) (h : ∀ st i, proj (body st i) = proj st ++ [f i, g i]) (init : σ)
    (k : Nat) :
    proj ((List.range k).foldl body init) = proj init ++ pairs f g k := by
  induction k with
  | zero => simp [pairs]
  | succ k ih =>
    rw [List.range_succ, List.foldl_append]
    simp only [List.foldl_cons, List.foldl_nil, h, ih, pairs, List.append_assoc]

/-! ## The state of the ring loop -/

theorem ringLoop_eq (p : Params) : ringLoop p = ringFold p (p.Segments + 1).toNat := rfl

theorem ringFold_succ (p : Params) (k : Nat) :
    ringFold p (k + 1) = ringBody p (ringFold p k) k := by
  simp [ringFold, List.range_succ, List.foldl_append]

theorem ringBody_AccumLen (p : Params) (st : RingState) (i : Nat) :
    (ringBody p st i).AccumLen
      = if i > 0 then st.AccumLen + (ringC p i - st.PrevCenter).Size else st.AccumLen := rfl

theorem ringBody_PrevCenter (p : Params) (st : RingState) (i : Nat) :
    (ringBody p st i).PrevCenter = ringC p i := rfl

theorem ringFold_accum (p : Params) (k : Nat) :
    (ringFold p (k + 1)).AccumLen = accumAt p k ∧ (ringFold p (k + 1)).PrevCenter = ringC p k := by
  induction k with
  | zero =>
    rw [ringFold_succ]
    exact ⟨rfl, rfl⟩
  | succ k ih =>
    rw [ringFold_succ, ringBody_AccumLen, ringBody_PrevCenter, ih.1, ih.2]
    simp [accumAt]

/-- The UV arrays: every strip receives `(U, 0), (U, 1)` with the `U` of the ring. -/
theorem ringFold_UV_of (p : Params) (proj : RingState → List FVector2D)
    (h : ∀ st i, proj (ringBody p st i) = proj st ++
      [⟨if (ringBody p st i).AccumLen > 0 then (ringBody p st i).AccumLen / 100 else 0, 0⟩,
       ⟨if (ringBody p st i).AccumLen > 0 then (ringBody p st i).AccumLen / 100 else 0, 1⟩])
    (h0 : proj RingState.init = []) (k : Nat) :
    proj (ringFold p k)
      = pairs (fun i => (⟨ringU p i, 0⟩ : FVector2D)) (fun i => ⟨ringU p i, 1⟩) k := by
  induction k with
  | zero => simpa [ringFold, pairs] using h0
  | succ k ih =>
    have hacc : (ringBody p (ringFold p k) k).AccumLen = accumAt p k := by
      rw [← ringFold_succ]; exact (ringFold_accum p k).1
    rw [ringFold_succ, h, ih, hacc]
    rfl

/-- The arrays of strip `FloorIn` after `k` rings. -/
theorem ringFold_FloorIn (p : Params) (k : Nat) :
    (ringFold p k).S.FloorIn.V = pairs (ringLb p) (ringRb p) k ∧
    (ringFold p k).S.FloorIn.N = pairs (ringNFloor p) (ringNFloor p) k ∧
    (ringFold p k).S.FloorIn.Tan = pairs (ringTan p) (ringTan p) k ∧
    (ringFold p k).S.FloorIn.UV
      = pairs (fun i => (⟨ringU p i, 0⟩ : FVector2D)) (fun i => ⟨ringU p i, 1⟩) k ∧
    (ringFold p k).S.FloorIn.I = [] := by
  refine ⟨?_, ?_, ?_, ?_, ?_⟩
  · exact foldl_range_pairs (ringBody p) (fun st => st.S.FloorIn.V) _ _ (fun _ _ => rfl)
      RingState.init k
  · exact foldl_range_pairs (ringBody p) (fun st => st.S.FloorIn.N) _ _ (fun _ _ => rfl)
      RingState.init k
  · exact foldl_range_pairs (ringBody p) (fun st => st.S.FloorIn.Tan) _ _ (fun _ _ => rfl)
      RingState.init k
  · exact ringFold_UV_of p (fun st => st.S.FloorIn.UV) (fun _ _ => rfl) rfl k
  · unfold ringFold
    induction k with
    | zero => rfl
    | succ k ih =>
      rw [List.range_succ, List.foldl_append]
      exact ih

/-- The arrays of strip `LeftIn` after `k` rings. -/
theorem ringFold_LeftIn (p : Params) (k : Nat) :
    (ringFold p k).S.LeftIn.V = pairs (ringLb p) (ringLt p) k ∧
    (ringFold p k).S.LeftIn.N = pairs (ringSide p) (ringSide p) k ∧
    (ringFold p k).S.LeftIn.Tan = pairs (ringTan p) (ringTan p) k ∧
    (ringFold p k).S.LeftIn.UV
      = pairs (fun i => (⟨ringU p i, 0⟩ : FVector2D)) (fun i => ⟨ringU p i, 1⟩) k ∧
    (ringFold p k).S.LeftIn.I = [] := by
  refine ⟨?_, ?_, ?_, ?_, ?_⟩
  · exact foldl_range_pairs (ringBody p) (fun st => st.S.LeftIn.V) _ _ (fun _ _ => rfl)
      RingState.init k
  · exact foldl_range_pairs (ringBody p) (fun st => st.S.LeftIn.N) _ _ (fun _ _ => rfl)
      RingState.init k
  · exact foldl_range_pairs (ringBody p) (fun st => st.S.LeftIn.Tan) _ _ (fun _ _ => rfl)
      RingState.init k
  · exact ringFold_UV_of p (fun st => st.S.LeftIn.UV) (fun _ _ => rfl) rfl k
  · unfold ringFold
    induction k with
    | zero => rfl
    | succ k ih =>
      rw [List.range_succ, List.foldl_append]
      exact ih

/-- The arrays of strip `RightIn` after `k` rings. -/
theorem ringFold_RightIn (p : Params) (k : Nat) :
    (ringFold p k).S.RightIn.V = pairs (ringRb p) (ringRt p) k ∧
    (ringFold p k).S.RightIn.N = pairs (fun i => -ringSide p i) (fun i => -ringSide p i) k ∧
    (ringFold p k).S.RightIn.Tan = pairs (ringTan p) (ringTan p) k ∧
    (ringFold p k).S.RightIn.UV
      = pairs (fun i => (⟨ringU p i, 0⟩ : FVector2D)) (fun i => ⟨ringU p i, 1⟩) k ∧
    (ringFold p k).S.RightIn.I = [] := by
  refine ⟨?_, ?_, ?_, ?_, ?_⟩
  · exact foldl_range_pairs (ringBody p) (fun st => st.S.RightIn.V) _ _ (fun _ _ => rfl)
      RingState.init k
  · exact foldl_range_pairs (ringBody p) (fun st => st.S.RightIn.N) _ _ (fun _ _ => rfl)
      RingState.init k
  · exact foldl_range_pairs (ringBody p) (fun st => st.S.RightIn.Tan) _ _ (fun _ _ => rfl)
      RingState.init k
  · exact ringFold_UV_of p (fun st => st.S.RightIn.UV) (fun _ _ => rfl) rfl k
  · unfold ringFold
    induction k with
    | zero => rfl
    | succ k ih =>
      rw [List.range_succ, List.foldl_append]
      exact ih

/-- The arrays of strip `CeilIn` after `k` rings. -/
theorem ringFold_CeilIn (p : Params) (k : Nat) :
    (ringFold p k).S.CeilIn.V = pairs (ringLt p) (ringRt p) k ∧
    (ringFold p k).S.CeilIn.N = pairs (fun i => -ringNFloor p i) (fun i => -ringNFloor p i) k ∧
    (ringFold p k).S.CeilIn.Tan = pairs (ringTan p) (ringTan p) k ∧
    (ringFold p k).S.CeilIn.UV
      = pairs (fun i => (⟨ringU p i, 0⟩ : FVector2D)) (fun i => ⟨ringU p i, 1⟩) k ∧
    (ringFold p k).S.CeilIn.I = [] := by
  refine ⟨?_, ?_, ?_, ?_, ?_⟩
  · exact foldl_range_pairs (ringBody p) (fun st => st.S.CeilIn.V) _ _ (fun _ _ => rfl)
      RingState.init k
  · exact foldl_range_pairs (ringBody p) (fun st => st.S.CeilIn.N) _ _ (fun _ _ => rfl)
      RingState.init k
  · exact foldl_range_pairs (ringBody p) (fun st => st.S.CeilIn.Tan) _ _ (fun _ _ => rfl)
      RingState.init k
  · exact ringFold_UV_of p (fun st => st.S.CeilIn.UV) (fun _ _ => rfl) rfl k
  · unfold ringFold
    induction k with
    | zero => rfl
    | succ k ih =>
      rw [List.range_succ, List.foldl_append]
      exact ih

/-- The arrays of strip `FloorOut` after `k` rings. -/
theorem ringFold_FloorOut (p : Params) (k : Nat) :
    (ringFold p k).S.FloorOut.V = pairs (ringLbOut p) (ringRbOut p) k ∧
    (ringFold p k).S.FloorOut.N = pairs (fun i => -ringNFloor p i) (fun i => -ringNFloor p i) k ∧
    (ringFold p k).S.FloorOut.Tan = pairs (ringTan p) (ringTan p) k ∧
    (ringFold p k).S.FloorOut.UV
      = pairs (fun i => (⟨ringU p i, 0⟩ : FVector2D)) (fun i => ⟨ringU p i, 1⟩) k ∧
    (ringFold p k).S.FloorOut.I = [] := by
  refine ⟨?_, ?_, ?_, ?_, ?_⟩
  · exact foldl_range_pairs (ringBody p) (fun st => st.S.FloorOut.V) _ _ (fun _ _ => rfl)
      RingState.init k
  · exact foldl_range_pairs (ringBody p) (fun st => st.S.FloorOut.N) _ _ (fun _ _ => rfl)
      RingState.init k
  · exact foldl_range_pairs (ringBody p) (fun st => st.S.FloorOut.Tan) _ _ (fun _ _ => rfl)
      RingState.init k
  · exact ringFold_UV_of p (fun st => st.S.FloorOut.UV) (fun _ _ => rfl) rfl k
  · unfold ringFold
    induction k with
    | zero => rfl
    | succ k ih =>
      rw [List.range_succ, List.foldl_append]
      exact ih

/-- The arrays of strip `LeftOut` after `k` rings. -/
theorem ringFold_LeftOut (p : Params) (k : Nat) :
    (ringFold p k).S.LeftOut.V = pairs (ringLbOut p) (ringLtOut p) k ∧
    (ringFold p k).S.LeftOut.N = pairs (fun i => -ringSide p i) (fun i => -ringSide p i) k ∧
    (ringFold p k).S.LeftOut.Tan = pairs (ringTan p) (ringTan p) k ∧
    (ringFold p k).S.LeftOut.UV
      = pairs (fun i => (⟨ringU p i, 0⟩ : FVector2D)) (fun i => ⟨ringU p i, 1⟩) k ∧
    (ringFold p k).S.LeftOut.I = [] := by
  refine ⟨?_, ?_, ?_, ?_, ?_⟩
  · exact foldl_range_pairs (ringBody p) (fun st => st.S.LeftOut.V) _ _ (fun _ _ => rfl)
      RingState.init k
  · exact foldl_range_pairs (ringBody p) (fun st => st.S.LeftOut.N) _ _ (fun _ _ => rfl)
      RingState.init k
  · exact foldl_range_pairs (ringBody p) (fun st => st.S.LeftOut.Tan) _ _ (fun _ _ => rfl)
      RingState.init k
  · exact ringFold_UV_of p (fun st => st.S.LeftOut.UV) (fun _ _ => rfl) rfl k
  · unfold ringFold
    induction k with
    | zero => rfl
    | succ k ih =>
      rw [List.range_succ, List.foldl_append]
      exact ih

/-- The arrays of strip `RightOut` after `k` rings. -/
theorem ringFold_RightOut (p : Params) (k : Nat) :
    (ringFold p k).S.RightOut.V = pairs (ringRbOut p) (ringRtOut p) k ∧
    (ringFold p k).S.RightOut.N = pairs (fun i => - -ringSide p i) (fun i => - -ringSide p i) k ∧
    (ringFold p k).S.RightOut.Tan = pairs (ringTan p) (ringTan p) k ∧
    (ringFold p k).S.RightOut.UV
      = pairs (fun i => (⟨ringU p i, 0⟩ : FVector2D)) (fun i => ⟨ringU p i, 1⟩) k ∧
    (ringFold p k).S.RightOut.I = [] := by
  refine ⟨?_, ?_, ?_, ?_, ?_⟩
  · exact foldl_range_pairs (ringBody p) (fun st => st.S.RightOut.V) _ _ (fun _ _ => rfl)
      RingState.init k
  · exact foldl_range_pairs (ringBody p) (fun st => st.S.RightOut.N) _ _ (fun _ _ => rfl)
      RingState.init k
  · exact foldl_range_pairs (ringBody p) (fun st => st.S.RightOut.Tan) _ _ (fun _ _ => rfl)
      RingState.init k
  · exact ringFold_UV_of p (fun st => st.S.RightOut.UV) (fun _ _ => rfl) rfl k
  · unfold ringFold
    induction k with
    | zero => rfl
    | succ k ih =>
      rw [List.range_succ, List.foldl_append]
      exact ih

/-- The arrays of strip `CeilOut` after `k` rings. -/
theorem ringFold_CeilOut (p : Params) (k : Nat) :
    (ringFold p k).S.CeilOut.V = pairs (ringLtOut p) (ringRtOut p) k ∧
    (ringFold p k).S.CeilOut.N = pairs (fun i => - -ringNFloor p i) (fun i => - -ringNFloor p i) k ∧
    (ringFold p k).S.CeilOut.Tan = pairs (ringTan p) (ringTan p) k ∧
    (ringFold p k).S.CeilOut.UV
      = pairs (fun i => (⟨ringU p i, 0⟩ : FVector2D)) (fun i => ⟨ringU p i, 1⟩) k ∧
    (ringFold p k).S.CeilOut.I = [] := by
  refine ⟨?_, ?_, ?_, ?_, ?_⟩
  · exact foldl_range_pairs (ringBody p) (fun st => st.S.CeilOut.V) _ _ (fun _ _ => rfl)
      RingState.init k
  · exact foldl_range_pairs (ringBody p) (fun st => st.S.CeilOut.N) _ _ (fun _ _ => rfl)
      RingState.init k
  · exact foldl_range_pairs (ringBody p) (fun st => st.S.CeilOut.Tan) _ _ (fun _ _ => rfl)
      RingState.init k
  · exact ringFold_UV_of p (fun st => st.S.CeilOut.UV) (fun _ _ => rfl) rfl k
  · unfold ringFold
    induction k with
    | zero => rfl
    | succ k ih =>
      rw [List.range_succ, List.foldl_append]
      exact ih

/-! ## Triangulation and smoothing succeed -/

theorem stripBody_eq (b : Bool) (Indices : List Nat) (s : Nat) :
    stripBody b Indices s = Indices ++ stripSix b s := by
  cases b <;> simp [stripBody, stripSix]

theorem BuildStrip_eq (Segs : Int) (b : Bool) : BuildStrip Segs b = stripFold b Segs.toNat := rfl

theorem stripFold_succ (b : Bool) (k : Nat) :
    stripFold b (k + 1) = stripFold b k ++ stripSix b k := by
  simp [stripFold, List.range_succ, List.foldl_append, stripBody_eq]

theorem stripFold_length (b : Bool) (k : Nat) : (stripFold b k).length = 6 * k := by
  induction k with
  | zero => rfl
  | succ k ih =>
    rw [stripFold_succ, List.length_append, ih]
    cases b <;> simp [stripSix] <;> omega

theorem trisInRange_append (m : Nat) :
    ∀ (xs ys : List Nat), trisInRange m xs → trisInRange m ys → trisInRange m (xs ++ ys)
  | [], _, _, hy => hy
  | [_], _, hx, _ => absurd hx (by simp [trisInRange])
  | [_, _], _, hx, _ => absurd hx (by simp [trisInRange])
  | a :: b :: c :: xs, ys, hx, hy => by
    simp only [trisInRange, List.cons_append] at hx ⊢
    exact ⟨hx.1, hx.2.1, hx.2.2.1, trisInRange_append m xs ys hx.2.2.2 hy⟩

theorem stripFold_inRange (b : Bool) (m k : Nat) (h : k = 0 ∨ 2 * k + 2 ≤ m) :
    trisInRange m (stripFold b k) := by
  induction k with
  | zero => simp [stripFold, trisInRange]
  | succ k ih =>
    rw [stripFold_succ]
    have hk : 2 * (k + 1) + 2 ≤ m := by omega
    apply trisInRange_append _ _ _ (ih (by omega))
    cases b <;> simp [stripSix, trisInRange] <;> omega

theorem SetNumZeroed_same (N : List FVector) (m : Nat) (h : N.length = m) :
    SetNumZeroed N m = N := by
  unfold SetNumZeroed
  rw [if_neg (by omega)]
  exact List.take_of_length_le (by omega)

theorem AddAt_some (N : List FVector) (a : Nat) (Fn : FVector) (h : a < N.length) :
    ∃ N2, AddAt N a Fn = some N2 ∧ N2.length = N.length := by
  unfold AddAt
  rw [List.getElem?_eq_getElem h]
  exact ⟨_, rfl, by simp⟩

theorem SmoothAccum_some (V : List FVector) (m : Nat) (hV : V.length = m) :
    ∀ (I : List Nat) (N : List FVector), N.length = m → trisInRange m I →
      ∃ N2, SmoothAccum V I N = some N2 ∧ N2.length = m
  | [], N, hN, _ => ⟨N, rfl, hN⟩
  | [_], _, _, h => absurd h (by simp [trisInRange])
  | [_, _], _, _, h => absurd h (by simp [trisInRange])
  | a :: b :: c :: I, N, hN, h => by
    simp only [trisInRange] at h
    obtain ⟨ha, hb, hc, hI⟩ := h
    have hav : a < V.length := by omega
    have hbv : b < V.length := by omega
    have hcv : c < V.length := by omega
    obtain ⟨N1, h1, l1⟩ := AddAt_some N a
      (CrossProduct (V[b] - V[a]) (V[c] - V[a])).GetSafeNormal (by omega)
    obtain ⟨N2, h2, l2⟩ := AddAt_some N1 b
      (CrossProduct (V[b] - V[a]) (V[c] - V[a])).GetSafeNormal (by omega)
    obtain ⟨N3, h3, l3⟩ := AddAt_some N2 c
      (CrossProduct (V[b] - V[a]) (V[c] - V[a])).GetSafeNormal (by omega)
    obtain ⟨N4, h4, l4⟩ := SmoothAccum_some V m hV I N3 (by omega) hI
    refine ⟨N4, ?_, l4⟩
    simp only [SmoothAccum]
    rw [List.getElem?_eq_getElem hav, List.getElem?_eq_getElem hbv,
      List.getElem?_eq_getElem hcv]
    simp only [h1, h2, h3, Option.bind_some, Option.some_bind]
    exact h4

theorem Smooth_some (V : List FVector) (I : List Nat) (N : List FVector) (m : Nat)
    (hV : V.length = m) (hN : N.length = m) (hI : trisInRange m I) :
    ∃ N2, Smooth V I N = some N2 ∧ N2.length = m := by
  unfold Smooth
  rw [hV, SetNumZeroed_same N m hN]
  obtain ⟨N1, h1, l1⟩ := SmoothAccum_some V m hV I N hN hI
  exact ⟨N1.map GetSafeNormal, by rw [h1]; rfl, by simp [l1]⟩

theorem NormalizeU_length (UVs : List FVector2D) : (NormalizeU UVs).length = UVs.length := by
  unfold NormalizeU
  split
  · rfl
  · split
    · rfl
    · dsimp only
      split <;> simp

/-! ## The shape of the result of `BuildMesh` -/

theorem BuildMesh_flat (p : Params) (hb : p.bSmoothNormals = false) :
    BuildMesh p = some (assemble p (ringLoop p).S.FloorIn.N (ringLoop p).S.LeftIn.N
      (ringLoop p).S.RightIn.N (ringLoop p).S.CeilIn.N (ringLoop p).S.FloorOut.N
      (ringLoop p).S.LeftOut.N (ringLoop p).S.RightOut.N (ringLoop p).S.CeilOut.N) := by
  unfold BuildMesh
  simp only [hb]
  rfl

theorem BuildMesh_smooth (p : Params) (hb : p.bSmoothNormals = true)
    (nFloorIn nLeftIn nRightIn nCeilIn nFloorOut nLeftOut nRightOut nCeilOut : List FVector)
    (hFloorIn : Smooth (ringLoop p).S.FloorIn.V (BuildStrip p.Segments true)
      (ringLoop p).S.FloorIn.N = some nFloorIn)
    (hLeftIn : Smooth (ringLoop p).S.LeftIn.V (BuildStrip p.Segments false)
      (ringLoop p).S.LeftIn.N = some nLeftIn)
    (hRightIn : Smooth (ringLoop p).S.RightIn.V (BuildStrip p.Segments true)
      (ringLoop p).S.RightIn.N = some nRightIn)
    (hCeilIn : Smooth (ringLoop p).S.CeilIn.V (BuildStrip p.Segments false)
      (ringLoop p).S.CeilIn.N = some nCeilIn)
    (hFloorOut : Smooth (ringLoop p).S.FloorOut.V (BuildStrip p.Segments false)
      (ringLoop p).S.FloorOut.N = some nFloorOut)
    (hLeftOut : Smooth (ringLoop p).S.LeftOut.V (BuildStrip p.Segments true)
      (ringLoop p).S.LeftOut.N = some nLeftOut)
    (hRightOut : Smooth (ringLoop p).S.RightOut.V (BuildStrip p.Segments false)
      (ringLoop p).S.RightOut.N = some nRightOut)
    (hCeilOut : Smooth (ringLoop p).S.CeilOut.V (BuildStrip p.Segments true)
      (ringLoop p).S.CeilOut.N = some nCeilOut) :
    BuildMesh p = some (assemble p nFloorIn nLeftIn nRightIn nCeilIn nFloorOut nLeftOut
      nRightOut nCeilOut) := by
  unfold BuildMesh
  simp only [hb, if_true, hFloorIn, hLeftIn, hRightIn, hCeilIn, hFloorOut, hLeftOut,
    hRightOut, hCeilOut, Option.bind_some, Option.some_bind]
  rfl

theorem toNat_segments (p : Params) (N : Nat) (hS : p.Segments = (N : Int)) :
    (p.Segments + 1).toNat = N + 1 ∧ p.Segments.toNat = N := by
  rw [hS]
  constructor <;> omega

theorem ringLoop_eq_fold (p : Params) (N : Nat) (hS : p.Segments = (N : Int)) :
    ringLoop p = ringFold p (N + 1) := by
  rw [ringLoop_eq, (toNat_segments p N hS).1]

theorem BuildStrip_length (p : Params) (N : Nat) (hS : p.Segments = (N : Int)) (b : Bool) :
    (BuildStrip p.Segments b).length = 6 * N := by
  rw [BuildStrip_eq, (toNat_segments p N hS).2, stripFold_length]

theorem Smooth_ok (p : Params) (V Nn : List FVector)
    (hV : V.length = 2 * (p.Segments + 1).toNat) (hN : Nn.length = 2 * (p.Segments + 1).toNat)
    (b : Bool) :
    ∃ n, Smooth V (BuildStrip p.Segments b) Nn = some n ∧
      n.length = 2 * (p.Segments + 1).toNat := by
  apply Smooth_some V _ Nn _ hV hN
  rw [BuildStrip_eq]
  exact stripFold_inRange b _ _ (by omega)

theorem ringLoop_FloorIn_lengths (p : Params) :
    (ringLoop p).S.FloorIn.V.length = 2 * (p.Segments + 1).toNat ∧
    (ringLoop p).S.FloorIn.N.length = 2 * (p.Segments + 1).toNat ∧
    (ringLoop p).S.FloorIn.Tan.length = 2 * (p.Segments + 1).toNat ∧
    (ringLoop p).S.FloorIn.UV.length = 2 * (p.Segments + 1).toNat := by
  obtain ⟨h1, h2, h3, h4, _⟩ := ringFold_FloorIn p (p.Segments + 1).toNat
  rw [ringLoop_eq, h1, h2, h3, h4]
  simp only [pairs_length, and_self]

theorem ringLoop_LeftIn_lengths (p : Params) :
    (ringLoop p).S.LeftIn.V.length = 2 * (p.Segments + 1).toNat ∧
    (ringLoop p).S.LeftIn.N.length = 2 * (p.Segments + 1).toNat ∧
    (ringLoop p).S.LeftIn.Tan.length = 2 * (p.Segments + 1).toNat ∧
    (ringLoop p).S.LeftIn.UV.length = 2 * (p.Segments + 1).toNat := by
  obtain ⟨h1, h2, h3, h4, _⟩ := ringFold_LeftIn p (p.Segments + 1).toNat
  rw [ringLoop_eq, h1, h2, h3, h4]
  simp only [pairs_length, and_self]

theorem ringLoop_RightIn_lengths (p : Params) :
    (ringLoop p).S.RightIn.V.length = 2 * (p.Segments + 1).toNat ∧
    (ringLoop p).S.RightIn.N.length = 2 * (p.Segments + 1).toNat ∧
    (ringLoop p).S.RightIn.Tan.length = 2 * (p.Segments + 1).toNat ∧
    (ringLoop p).S.RightIn.UV.length = 2 * (p.Segments + 1).toNat := by
  obtain ⟨h1, h2, h3, h4, _⟩ := ringFold_RightIn p (p.Segments + 1).toNat
  rw [ringLoop_eq, h1, h2, h3, h4]
  simp only [pairs_length, and_self]

theorem ringLoop_CeilIn_lengths (p : Params) :
    (ringLoop p).S.CeilIn.V.length = 2 * (p.Segments + 1).toNat ∧
    (ringLoop p).S.CeilIn.N.length = 2 * (p.Segments + 1).toNat ∧
    (ringLoop p).S.CeilIn.Tan.length = 2 * (p.Segments + 1).toNat ∧
    (ringLoop p).S.CeilIn.UV.length = 2 * (p.Segments + 1).toNat := by
  obtain ⟨h1, h2, h3, h4, _⟩ := ringFold_CeilIn p (p.Segments + 1).toNat
  rw [ringLoop_eq, h1, h2, h3, h4]
  simp only [pairs_length, and_self]

theorem ringLoop_FloorOut_lengths (p : Params) :
    (ringLoop p).S.FloorOut.V.length = 2 * (p.Segments + 1).toNat ∧
    (ringLoop p).S.FloorOut.N.length = 2 * (p.Segments + 1).toNat ∧
    (ringLoop p).S.FloorOut.Tan.length = 2 * (p.Segments + 1).toNat ∧
    (ringLoop p).S.FloorOut.UV.length = 2 * (p.Segments + 1).toNat := by
  obtain ⟨h1, h2, h3, h4, _⟩ := ringFold_FloorOut p (p.Segments + 1).toNat
  rw [ringLoop_eq, h1, h2, h3, h4]
  simp only [pairs_length, and_self]

theorem ringLoop_LeftOut_lengths (p : Params) :
    (ringLoop p).S.LeftOut.V.length = 2 * (p.Segments + 1).toNat ∧
    (ringLoop p).S.LeftOut.N.length = 2 * (p.Segments + 1).toNat ∧
    (ringLoop p).S.LeftOut.Tan.length = 2 * (p.Segments + 1).toNat ∧
    (ringLoop p).S.LeftOut.UV.length = 2 * (p.Segments + 1).toNat := by
  obtain ⟨h1, h2, h3, h4, _⟩ := ringFold_LeftOut p (p.Segments + 1).toNat
  rw [ringLoop_eq, h1, h2, h3, h4]
  simp only [pairs_length, and_self]

theorem ringLoop_RightOut_lengths (p : Params) :
    (ringLoop p).S.RightOut.V.length = 2 * (p.Segments + 1).toNat ∧
    (ringLoop p).S.RightOut.N.length = 2 * (p.Segments + 1).toNat ∧
    (ringLoop p).S.RightOut.Tan.length = 2 * (p.Segments + 1).toNat ∧
    (ringLoop p).S.RightOut.UV.length = 2 * (p.Segments + 1).toNat := by
  obtain ⟨h1, h2, h3, h4, _⟩ := ringFold_RightOut p (p.Segments + 1).toNat
  rw [ringLoop_eq, h1, h2, h3, h4]
  simp only [pairs_length, and_self]

theorem ringLoop_CeilOut_lengths (p : Params) :
    (ringLoop p).S.CeilOut.V.length = 2 * (p.Segments + 1).toNat ∧
    (ringLoop p).S.CeilOut.N.length = 2 * (p.Segments + 1).toNat ∧
    (ringLoop p).S.CeilOut.Tan.length = 2 * (p.Segments + 1).toNat ∧
    (ringLoop p).S.CeilOut.UV.length = 2 * (p.Segments + 1).toNat := by
  obtain ⟨h1, h2, h3, h4, _⟩ := ringFold_CeilOut p (p.Segments + 1).toNat
  rw [ringLoop_eq, h1, h2, h3, h4]
  simp only [pairs_length, and_self]

/-- Every run returns eight sections, assembled from the ring loop arrays and from normal
arrays of full length: no array access of `Smooth` is out of range. -/
theorem BuildMesh_some (p : Params) :
    ∃ nFloorIn nLeftIn nRightIn nCeilIn nFloorOut nLeftOut nRightOut nCeilOut : List FVector,
      BuildMesh p = some (assemble p nFloorIn nLeftIn nRightIn nCeilIn nFloorOut nLeftOut
        nRightOut nCeilOut) ∧
      nFloorIn.length = 2 * (p.Segments + 1).toNat ∧
      nLeftIn.length = 2 * (p.Segments + 1).toNat ∧
      nRightIn.length = 2 * (p.Segments + 1).toNat ∧
      nCeilIn.length = 2 * (p.Segments + 1).toNat ∧
      nFloorOut.length = 2 * (p.Segments + 1).toNat ∧
      nLeftOut.length = 2 * (p.Segments + 1).toNat ∧
      nRightOut.length = 2 * (p.Segments + 1).toNat ∧
      nCeilOut.length = 2 * (p.Segments + 1).toNat := by
  have lFloorIn := ringLoop_FloorIn_lengths p
  have lLeftIn := ringLoop_LeftIn_lengths p
  have lRightIn := ringLoop_RightIn_lengths p
  have lCeilIn := ringLoop_CeilIn_lengths p
  have lFloorOut := ringLoop_FloorOut_lengths p
  have lLeftOut := ringLoop_LeftOut_lengths p
  have lRightOut := ringLoop_RightOut_lengths p
  have lCeilOut := ringLoop_CeilOut_lengths p
  cases hb : p.bSmoothNormals with
  | false =>
    exact ⟨_, _, _, _, _, _, _, _, BuildMesh_flat p hb, lFloorIn.2.1, lLeftIn.2.1, lRightIn.2.1,
      lCeilIn.2.1, lFloorOut.2.1, lLeftOut.2.1, lRightOut.2.1, lCeilOut.2.1⟩
  | true =>
    obtain ⟨nFloorIn, sFloorIn, kFloorIn⟩ := Smooth_ok p _ _ lFloorIn.1 lFloorIn.2.1 true
    obtain ⟨nLeftIn, sLeftIn, kLeftIn⟩ := Smooth_ok p _ _ lLeftIn.1 lLeftIn.2.1 false
    obtain ⟨nRightIn, sRightIn, kRightIn⟩ := Smooth_ok p _ _ lRightIn.1 lRightIn.2.1 true
    obtain ⟨nCeilIn, sCeilIn, kCeilIn⟩ := Smooth_ok p _ _ lCeilIn.1 lCeilIn.2.1 false
    obtain ⟨nFloorOut, sFloorOut, kFloorOut⟩ := Smooth_ok p _ _ lFloorOut.1 lFloorOut.2.1 false
    obtain ⟨nLeftOut, sLeftOut, kLeftOut⟩ := Smooth_ok p _ _ lLeftOut.1 lLeftOut.2.1 true
    obtain ⟨nRightOut, sRightOut, kRightOut⟩ := Smooth_ok p _ _ lRightOut.1 lRightOut.2.1 false
    obtain ⟨nCeilOut, sCeilOut, kCeilOut⟩ := Smooth_ok p _ _ lCeilOut.1 lCeilOut.2.1 true
    exact ⟨_, _, _, _, _, _, _, _,
      BuildMesh_smooth p hb _ _ _ _ _ _ _ _ sFloorIn sLeftIn sRightIn sCeilIn sFloorOut sLeftOut
        sRightOut sCeilOut,
      kFloorIn, kLeftIn, kRightIn, kCeilIn, kFloorOut, kLeftOut, kRightOut, kCeilOut⟩

/-- Claim C1.  For every parameter set with Segments = N ≥ 1, `BuildMesh` returns eight
sections and each of them has exactly 2·(N+1) positions, normals, tangents and UVs and exactly
6·N triangle indices. -/
theorem section_sizes (p : Params) (N : Nat) (hN : 1 ≤ N) (hS : p.Segments = (N : Int)) :
    ∃ m, BuildMesh p = some m ∧ ∀ S ∈ m.toList,
      S.V.length = 2 * (N + 1) ∧ S.N.length = 2 * (N + 1) ∧ S.Tan.length = 2 * (N + 1) ∧
      S.UV.length = 2 * (N + 1) ∧ S.I.length = 6 * N := by
  obtain ⟨n1, n2, n3, n4, n5, n6, n7, n8, hm, k1, k2, k3, k4, k5, k6, k7, k8⟩ :=
    BuildMesh_some p
  have hK := (toNat_segments p N hS).1
  rw [hK] at k1 k2 k3 k4 k5 k6 k7 k8
  have lFloorIn := ringLoop_FloorIn_lengths p
  rw [hK] at lFloorIn
  have lLeftIn := ringLoop_LeftIn_lengths p
  rw [hK] at lLeftIn
  have lRightIn := ringLoop_RightIn_lengths p
  rw [hK] at lRightIn
  have lCeilIn := ringLoop_CeilIn_lengths p
  rw [hK] at lCeilIn
  have lFloorOut := ringLoop_FloorOut_lengths p
  rw [hK] at lFloorOut
  have lLeftOut := ringLoop_LeftOut_lengths p
  rw [hK] at lLeftOut
  have lRightOut := ringLoop_RightOut_lengths p
  rw [hK] at lRightOut
  have lCeilOut := ringLoop_CeilOut_lengths p
  rw [hK] at lCeilOut
  have hI := BuildStrip_length p N hS
  refine ⟨_, hm, ?_⟩
  intro S hmem
  simp only [Sections.toList, assemble, List.mem_cons, List.mem_singleton, List.not_mem_nil,
    or_false] at hmem
  rcases hmem with h | h | h | h | h | h | h | h <;> subst h <;>
    simp only [NormalizeU_length, hI, k1, k2, k3, k4, k5, k6, k7, k8, lFloorIn, lLeftIn,
      lRightIn, lCeilIn, lFloorOut, lLeftOut, lRightOut, lCeilOut, and_self]

/-- Witness for claim C1 at the default parameters with one segment. -/
theorem section_sizes_witness :
    ∃ m, BuildMesh ⟨10, 27, -12 / 5, 1 / 2, 5 / 2, 5, 1, true⟩ = some m ∧ ∀ S ∈ m.toList,
      S.V.length = 2 * (1 + 1) ∧ S.N.length = 2 * (1 + 1) ∧ S.Tan.length = 2 * (1 + 1) ∧
      S.UV.length = 2 * (1 + 1) ∧ S.I.length = 6 * 1 :=
  section_sizes ⟨10, 27, -12 / 5, 1 / 2, 5 / 2, 5, 1, true⟩ 1 (by decide) rfl

/-! ## Zero wall thickness -/

/-- Claim C10.  For wall thickness 0 and any other parameters, at every ring the four outer
corners equal the four inner corners, and in the sections `BuildMesh` returns each outer
strip has the vertex positions of the inner strip of the same face. -/
theorem zero_thickness_outer_equals_inner (p : Params) (hT : p.WallThickness = 0) :
    (∀ i, ringLbOut p i = ringLb p i ∧ ringRbOut p i = ringRb p i ∧
      ringRtOut p i = ringRt p i ∧ ringLtOut p i = ringLt p i) ∧
    ∃ m, BuildMesh p = some m ∧ m.FloorOut.V = m.FloorIn.V ∧ m.LeftOut.V = m.LeftIn.V ∧
      m.RightOut.V = m.RightIn.V ∧ m.CeilOut.V = m.CeilIn.V := by
  have hc : ∀ i, ringLbOut p i = ringLb p i ∧ ringRbOut p i = ringRb p i ∧
      ringRtOut p i = ringRt p i ∧ ringLtOut p i = ringLt p i := by
    intro i
    refine ⟨?_, ?_, ?_, ?_⟩ <;> ext <;>
      simp [ringLbOut, ringRbOut, ringRtOut, ringLtOut, hT]
  have hLb : ringLbOut p = ringLb p := funext fun i => (hc i).1
  have hRb : ringRbOut p = ringRb p := funext fun i => (hc i).2.1
  have hRt : ringRtOut p = ringRt p := funext fun i => (hc i).2.2.1
  have hLt : ringLtOut p = ringLt p := funext fun i => (hc i).2.2.2
  refine ⟨hc, ?_⟩
  obtain ⟨n1, n2, n3, n4, n5, n6, n7, n8, hm, _⟩ := BuildMesh_some p
  refine ⟨_, hm, ?_, ?_, ?_, ?_⟩
  · show (ringLoop p).S.FloorOut.V = (ringLoop p).S.FloorIn.V
    rw [ringLoop_eq, (ringFold_FloorOut p _).1, (ringFold_FloorIn p _).1, hLb, hRb]
  · show (ringLoop p).S.LeftOut.V = (ringLoop p).S.LeftIn.V
    rw [ringLoop_eq, (ringFold_LeftOut p _).1, (ringFold_LeftIn p _).1, hLb, hLt]
  · show (ringLoop p).S.RightOut.V = (ringLoop p).S.RightIn.V
    rw [ringLoop_eq, (ringFold_RightOut p _).1, (ringFold_RightIn p _).1, hRb, hRt]
  · show (ringLoop p).S.CeilOut.V = (ringLoop p).S.CeilIn.V
    rw [ringLoop_eq, (ringFold_CeilOut p _).1, (ringFold_CeilIn p _).1, hLt, hRt]

/-- Witness for claim C10 at the default parameters with wall thickness 0. -/
theorem zero_thickness_outer_equals_inner_witness :
    (∀ i, ringLbOut ⟨10, 27, -12 / 5, 1 / 2, 5 / 2, 0, 32, true⟩ i
        = ringLb ⟨10, 27, -12 / 5, 1 / 2, 5 / 2, 0, 32, true⟩ i ∧
      ringRbOut ⟨10, 27, -12 / 5, 1 / 2, 5 / 2, 0, 32, true⟩ i
        = ringRb ⟨10, 27, -12 / 5, 1 / 2, 5 / 2, 0, 32, true⟩ i ∧
      ringRtOut ⟨10, 27, -12 / 5, 1 / 2, 5 / 2, 0, 32, true⟩ i
        = ringRt ⟨10, 27, -12 / 5, 1 / 2, 5 / 2, 0, 32, true⟩ i ∧
      ringLtOut ⟨10, 27, -12 / 5, 1 / 2, 5 / 2, 0, 32, true⟩ i
        = ringLt ⟨10, 27, -12 / 5, 1 / 2, 5 / 2, 0, 32, true⟩ i) ∧
    ∃ m, BuildMesh ⟨10, 27, -12 / 5, 1 / 2, 5 / 2, 0, 32, true⟩ = some m ∧
      m.FloorOut.V = m.FloorIn.V ∧ m.LeftOut.V = m.LeftIn.V ∧
      m.RightOut.V = m.RightIn.V ∧ m.CeilOut.V = m.CeilIn.V :=
  zero_thickness_outer_equals_inner ⟨10, 27, -12 / 5, 1 / 2, 5 / 2, 0, 32, true⟩ rfl

/-! ## The local frame -/

theorem cross_sizeSquared (a b : FVector) :
    SizeSquared (CrossProduct a b) = SizeSquared a * SizeSquared b - DotProduct a b ^ 2 := by
  simp only [SizeSquared, CrossProduct, DotProduct]
  ring

theorem dot_neg_self (a : FVector) : DotProduct a (-a) = -SizeSquared a := by
  simp only [SizeSquared, DotProduct, FVector.neg_X, FVector.neg_Y, FVector.neg_Z]
  ring

theorem neg_sizeSquared (a : FVector) : SizeSquared (-a) = SizeSquared a := by
  simp only [SizeSquared, FVector.neg_X, FVector.neg_Y, FVector.neg_Z]
  ring

theorem not_nearlyZero_of_unit (V : FVector) (h : SizeSquared V = 1) :
    ¬ FVector.IsNearlyZero V := by
  rintro ⟨hx, hy, hz⟩
  unfold KINDA_SMALL_NUMBER at hx hy hz
  have h1 := abs_le.mp hx
  have h2 := abs_le.mp hy
  have h3 := abs_le.mp hz
  unfold SizeSquared at h
  nlinarith [h1.1, h1.2, h2.1, h2.2, h3.1, h3.2]

theorem nearlyZero_zero_vector : FVector.IsNearlyZero ZeroVector := by
  simp [FVector.IsNearlyZero, ZeroVector, KINDA_SMALL_NUMBER]

theorem dot_safeNormal_cross (X T : FVector) :
    DotProduct T (GetSafeNormal (CrossProduct X T)) = 0 := by
  obtain ⟨k, hk⟩ := GetSafeNormal_eq_scale (CrossProduct X T)
  rw [hk]
  simp only [DotProduct, CrossProduct]
  ring

/-- For a unit tangent the side vector is a unit vector perpendicular to the tangent,
whether it comes from `Up × T` or from the fallback `Forward × T`. -/
theorem frameSide_unit (T : FVector) (hT : SizeSquared T = 1) :
    SizeSquared (frameSide T) = 1 ∧ DotProduct T (frameSide T) = 0 := by
  unfold frameSide
  by_cases h : SMALL_NUMBER ≤ SizeSquared (CrossProduct UpVector T)
  · have hu := GetSafeNormal_sizeSquared _ h
    rw [if_neg (not_nearlyZero_of_unit _ hu)]
    exact ⟨hu, dot_safeNormal_cross _ _⟩
  · rw [GetSafeNormal_of_small _ (not_le.mp h), if_pos nearlyZero_zero_vector]
    refine ⟨GetSafeNormal_sizeSquared _ ?_, dot_safeNormal_cross _ _⟩
    have h2 := not_le.mp h
    simp only [SizeSquared, CrossProduct, UpVector, ForwardVector, SMALL_NUMBER] at h2 hT ⊢
    nlinarith [mul_self_nonneg T.Y]

theorem floorNormal_unit (T : FVector) (hT : SizeSquared T = 1) :
    SizeSquared (GetSafeNormal (CrossProduct T (frameSide T))) = 1 := by
  obtain ⟨hs, hd⟩ := frameSide_unit T hT
  apply GetSafeNormal_sizeSquared
  rw [cross_sizeSquared, hT, hs, hd]
  have := small_lt_one
  norm_num
  exact this.le

theorem ringTan_unit (p : Params) (i : Nat)
    (hn : SMALL_NUMBER < p.LengthMeters * p.LengthMeters + p.DropDepthMeters * p.DropDepthMeters) :
    SizeSquared (ringTan p i) = 1 := tangent_sizeSquared p _ hn

/-! ## Inner against outer normals -/

theorem opposedAt_pairs (f : Nat → FVector) (K i j : Nat) (hi : i < K)
    (hj : j = 2 * i ∨ j = 2 * i + 1) (hf : SizeSquared (f i) = 1) :
    opposedAt (pairs f f K) (pairs (fun i => -f i) (fun i => -f i) K) j := by
  have hd : DotProduct (f i) (-f i) < 0 := by rw [dot_neg_self, hf]; norm_num
  rcases hj with h | h <;> subst h
  · exact ⟨f i, -f i, pairs_get_even _ _ _ _ hi, pairs_get_even _ _ _ _ hi, rfl, hd⟩
  · exact ⟨f i, -f i, pairs_get_odd _ _ _ _ hi, pairs_get_odd _ _ _ _ hi, rfl, hd⟩

/-- Claim C8, amended.  For every parameter set with length > 0, `length² + drop²` above the
normalisation tolerance 1e-8 and Segments = N ≥ 1, for each of the four faces and every ring
i ≤ N, the normals pushed into the inner and into the outer strip at the two vertices of that
ring are exact negations of each other and have a strictly negative dot product. -/
theorem inner_outer_normals_opposed (p : Params) (N : Nat) (hN : 1 ≤ N)
    (hS : p.Segments = (N : Int)) (hL : 0 < p.LengthMeters)
    (hn : SMALL_NUMBER < p.LengthMeters * p.LengthMeters + p.DropDepthMeters * p.DropDepthMeters) :
    ∀ i, i ≤ N → ∀ j, (j = 2 * i ∨ j = 2 * i + 1) →
      opposedAt (ringLoop p).S.FloorIn.N (ringLoop p).S.FloorOut.N j ∧
      opposedAt (ringLoop p).S.LeftIn.N (ringLoop p).S.LeftOut.N j ∧
      opposedAt (ringLoop p).S.RightIn.N (ringLoop p).S.RightOut.N j ∧
      opposedAt (ringLoop p).S.CeilIn.N (ringLoop p).S.CeilOut.N j := by
  intro i hi j hj
  have hT := ringTan_unit p i hn
  have hSide : SizeSquared (ringSide p i) = 1 := (frameSide_unit _ hT).1
  have hFloor : SizeSquared (ringNFloor p i) = 1 := floorNormal_unit _ hT
  rw [ringLoop_eq_fold p N hS, (ringFold_FloorIn p _).2.1, (ringFold_FloorOut p _).2.1,
    (ringFold_LeftIn p _).2.1, (ringFold_LeftOut p _).2.1, (ringFold_RightIn p _).2.1,
    (ringFold_RightOut p _).2.1, (ringFold_CeilIn p _).2.1, (ringFold_CeilOut p _).2.1]
  refine ⟨?_, ?_, ?_, ?_⟩
  · exact opposedAt_pairs (ringNFloor p) _ i j (by omega) hj hFloor
  · exact opposedAt_pairs (ringSide p) _ i j (by omega) hj hSide
  · exact opposedAt_pairs (fun i => -ringSide p i) _ i j (by omega) hj
      (by rw [neg_sizeSquared]; exact hSide)
  · exact opposedAt_pairs (fun i => -ringNFloor p i) _ i j (by omega) hj
      (by rw [neg_sizeSquared]; exact hFloor)

/-- Witness for claim C8 (amended) at the default parameters, ring 0, first vertex. -/
theorem inner_outer_normals_opposed_witness :
    opposedAt (ringLoop Params.defaults).S.FloorIn.N (ringLoop Params.defaults).S.FloorOut.N 0 ∧
    opposedAt (ringLoop Params.defaults).S.LeftIn.N (ringLoop Params.defaults).S.LeftOut.N 0 ∧
    opposedAt (ringLoop Params.defaults).S.RightIn.N (ringLoop Params.defaults).S.RightOut.N 0 ∧
    opposedAt (ringLoop Params.defaults).S.CeilIn.N (ringLoop Params.defaults).S.CeilOut.N 0 :=
  inner_outer_normals_opposed Params.defaults 32 (by decide) rfl
    (by simp only [Params.defaults]; norm_num)
    (by simp only [Params.defaults, SMALL_NUMBER]; norm_num) 0 (by decide) 0 (Or.inl rfl)

/-- Claim C8 as stated fails: at curve 0, length 1e-5, drop 0 the tangent stays (1e-5, 0, 0),
both cross products that define `Side` fall below the normalisation tolerance, `Side` is the
zero vector, and the left wall normals pushed at ring 0 are both (0,0,0): their dot product
is 0, not negative. -/
theorem zero_side_normals_counterexample :
    (0 : ℝ) < 1 / 100000 ∧ (1 : Int) ≤ 1 ∧
    (ringLoop ⟨1 / 100000, 0, 0, 1 / 2, 5 / 2, 5, 1, true⟩).S.LeftIn.N[0]? = some ⟨0, 0, 0⟩ ∧
    (ringLoop ⟨1 / 100000, 0, 0, 1 / 2, 5 / 2, 5, 1, true⟩).S.LeftOut.N[0]? = some ⟨-0, -0, -0⟩ ∧
    ¬ DotProduct ⟨0, 0, 0⟩ ⟨-0, -0, -0⟩ < 0 ∧
    ¬ opposedAt (ringLoop ⟨1 / 100000, 0, 0, 1 / 2, 5 / 2, 5, 1, true⟩).S.LeftIn.N
        (ringLoop ⟨1 / 100000, 0, 0, 1 / 2, 5 / 2, 5, 1, true⟩).S.LeftOut.N 0 := by
  have hT : ringTan ⟨1 / 100000, 0, 0, 1 / 2, 5 / 2, 5, 1, true⟩ 0 = ⟨1 / 100000, 0, 0⟩ := by
    unfold ringTan
    rw [SampleCenterline_straight _ _ nearlyZero_zero]
    simp only [Normalize, SMALL_NUMBER]
    norm_num
  have hSide : ringSide ⟨1 / 100000, 0, 0, 1 / 2, 5 / 2, 5, 1, true⟩ 0 = ⟨0, 0, 0⟩ := by
    unfold ringSide frameSide
    rw [hT]
    have h1 : GetSafeNormal (CrossProduct UpVector ⟨1 / 100000, 0, 0⟩) = ZeroVector := by
      apply GetSafeNormal_of_small
      simp only [SizeSquared, CrossProduct, UpVector, SMALL_NUMBER]
      norm_num
    have h2 : GetSafeNormal (CrossProduct ForwardVector ⟨1 / 100000, 0, 0⟩) = ZeroVector := by
      apply GetSafeNormal_of_small
      simp only [SizeSquared, CrossProduct, ForwardVector, SMALL_NUMBER]
      norm_num
    rw [h1, if_pos nearlyZero_zero_vector, h2]
    rfl
  have hIn : (ringLoop ⟨1 / 100000, 0, 0, 1 / 2, 5 / 2, 5, 1, true⟩).S.LeftIn.N[0]?
      = some ⟨0, 0, 0⟩ := by
    rw [ringLoop_eq_fold _ 1 rfl, (ringFold_LeftIn _ _).2.1]
    have := pairs_get_even (ringSide ⟨1 / 100000, 0, 0, 1 / 2, 5 / 2, 5, 1, true⟩)
      (ringSide ⟨1 / 100000, 0, 0, 1 / 2, 5 / 2, 5, 1, true⟩) 2 0 (by decide)
    rw [hSide] at this
    exact this
  have hOut : (ringLoop ⟨1 / 100000, 0, 0, 1 / 2, 5 / 2, 5, 1, true⟩).S.LeftOut.N[0]?
      = some ⟨-0, -0, -0⟩ := by
    rw [ringLoop_eq_fold _ 1 rfl, (ringFold_LeftOut _ _).2.1]
    have := pairs_get_even (fun i => -ringSide ⟨1 / 100000, 0, 0, 1 / 2, 5 / 2, 5, 1, true⟩ i)
      (fun i => -ringSide ⟨1 / 100000, 0, 0, 1 / 2, 5 / 2, 5, 1, true⟩ i) 2 0 (by decide)
    simp only [hSide] at this
    exact this
  have hd : ¬ DotProduct ⟨0, 0, 0⟩ ⟨-0, -0, -0⟩ < 0 := by simp [DotProduct]
  refine ⟨by norm_num, le_refl _, hIn, hOut, hd, ?_⟩
  rintro ⟨a, b, ha, hb, _, hab⟩
  rw [hIn] at ha
  rw [hOut] at hb
  cases ha
  cases hb
  exact hd hab

/-! ## UV normalisation -/

theorem Size_nonneg (V : FVector) : 0 ≤ Size V := Real.sqrt_nonneg _

theorem accumAt_mono_succ (p : Params) (i : Nat) : accumAt p i ≤ accumAt p (i + 1) := by
  simp only [accumAt]
  linarith [Size_nonneg (ringC p (i + 1) - ringC p i)]

theorem accumAt_mono (p : Params) (i j : Nat) (h : i ≤ j) : accumAt p i ≤ accumAt p j := by
  induction j with
  | zero =>
    have : i = 0 := by omega
    subst this
    exact le_refl _
  | succ j ih =>
    by_cases hij : i ≤ j
    · exact le_trans (ih hij) (accumAt_mono_succ p j)
    · have : i = j + 1 := by omega
      subst this
      exact le_refl _

theorem ringU_mono (p : Params) (i j : Nat) (h : i ≤ j) : ringU p i ≤ ringU p j := by
  have hm := accumAt_mono p i j h
  unfold ringU
  by_cases hi : accumAt p i > 0
  · have hj : accumAt p j > 0 := lt_of_lt_of_le hi hm
    rw [if_pos hi, if_pos hj]
    linarith
  · rw [if_neg hi]
    by_cases hj : accumAt p j > 0
    · rw [if_pos hj]; positivity
    · rw [if_neg hj]

theorem mem_pairs {α : Type} (f g : Nat → α) (k : Nat) (x : α) (h : x ∈ pairs f g k) :
    ∃ i, i < k ∧ (x = f i ∨ x = g i) := by
  induction k with
  | zero => simp [pairs] at h
  | succ k ih =>
    simp only [pairs, List.mem_append, List.mem_cons, List.mem_singleton, List.not_mem_nil,
      or_false] at h
    rcases h with h | h | h
    · obtain ⟨i, hi, hx⟩ := ih h
      exact ⟨i, by omega, hx⟩
    · exact ⟨k, by omega, Or.inl h⟩
    · exact ⟨k, by omega, Or.inr h⟩

theorem ringLoop_AccumLen (p : Params) (N : Nat) (hS : p.Segments = (N : Int)) :
    (ringLoop p).AccumLen = accumAt p N := by
  rw [ringLoop_eq_fold p N hS]
  exact (ringFold_accum p N).1

/-- When the total U exceeds the guard of `NormalizeU`, every U is divided by it. -/
theorem NormalizeU_ringUVs (p : Params) (N : Nat) (hU : SMALL_NUMBER < ringU p N) :
    NormalizeU (ringUVs p (N + 1))
      = (ringUVs p (N + 1)).map fun uv => ⟨uv.X * (1 / ringU p N), uv.Y⟩ := by
  have hlen : (ringUVs p (N + 1)).length = 2 * (N + 1) := pairs_length _ _ _
  have hget : (ringUVs p (N + 1))[(ringUVs p (N + 1)).length - 1 - 1]? = some ⟨ringU p N, 0⟩ := by
    rw [hlen, show 2 * (N + 1) - 1 - 1 = 2 * N by omega]
    exact pairs_get_even _ _ _ _ (by omega)
  have hnz : ¬ IsNearlyZero (ringU p N) SMALL_NUMBER := by
    unfold IsNearlyZero
    rw [abs_of_pos (lt_trans small_pos hU)]
    exact not_le.mpr hU
  unfold NormalizeU
  rw [if_neg (by omega), hget]
  simp only [hnz, not_false_eq_true, if_true]

theorem NormalizeU_ringUVs_max (p : Params) (N : Nat) (hU : SMALL_NUMBER < ringU p N) :
    (∀ uv ∈ NormalizeU (ringUVs p (N + 1)), uv.X ≤ 1) ∧
    ∃ uv ∈ NormalizeU (ringUVs p (N + 1)), uv.X = 1 := by
  have hpos : 0 < ringU p N := lt_trans small_pos hU
  rw [NormalizeU_ringUVs p N hU]
  constructor
  · intro uv huv
    obtain ⟨uv0, h0, rfl⟩ := List.mem_map.mp huv
    obtain ⟨i, hi, hx⟩ := mem_pairs _ _ _ _ h0
    have hm := ringU_mono p i N (by omega)
    have hX : uv0.X = ringU p i := by rcases hx with h | h <;> rw [h]
    show uv0.X * (1 / ringU p N) ≤ 1
    rw [hX, mul_one_div, div_le_one hpos]
    exact hm
  · refine ⟨⟨ringU p N * (1 / ringU p N), 0⟩, ?_, ?_⟩
    · apply List.mem_map.mpr
      refine ⟨⟨ringU p N, 0⟩, ?_, rfl⟩
      exact List.getElem?_mem (pairs_get_even _ _ (N + 1) N (by omega))
    · show ringU p N * (1 / ringU p N) = 1
      field_simp

/-- Claim C9, amended.  For every parameter set with length > 0 and Segments = N ≥ 1 (any
curve angle, any drop) whose total U, the accumulated length `AccumLen` after the last ring
divided by 100, exceeds the 1e-8 guard of the rescale, the maximum U coordinate of each
floor and ceiling strip (inner and outer) after UV normalisation equals 1: no U exceeds 1 and
some U equals 1. -/
theorem normalised_U_max (p : Params) (N : Nat) (hN : 1 ≤ N) (hS : p.Segments = (N : Int))
    (hL : 0 < p.LengthMeters) (hU : SMALL_NUMBER < (ringLoop p).AccumLen / 100) :
    ∃ m, BuildMesh p = some m ∧ ∀ S ∈ [m.FloorIn, m.FloorOut, m.CeilIn, m.CeilOut],
      (∀ uv ∈ S.UV, uv.X ≤ 1) ∧ ∃ uv ∈ S.UV, uv.X = 1 := by
  rw [ringLoop_AccumLen p N hS] at hU
  have hacc : accumAt p N > 0 := by
    have := small_pos
    by_contra h
    have h2 : accumAt p N / 100 ≤ 0 := by linarith [not_lt.mp h]
    linarith
  have hU2 : SMALL_NUMBER < ringU p N := by
    unfold ringU
    rw [if_pos hacc]
    exact hU
  have hmax := NormalizeU_ringUVs_max p N hU2
  obtain ⟨n1, n2, n3, n4, n5, n6, n7, n8, hm, _⟩ := BuildMesh_some p
  have e1 : (ringLoop p).S.FloorIn.UV = ringUVs p (N + 1) := by
    rw [ringLoop_eq_fold p N hS]; exact (ringFold_FloorIn p _).2.2.2.1
  have e2 : (ringLoop p).S.FloorOut.UV = ringUVs p (N + 1) := by
    rw [ringLoop_eq_fold p N hS]; exact (ringFold_FloorOut p _).2.2.2.1
  have e3 : (ringLoop p).S.CeilIn.UV = ringUVs p (N + 1) := by
    rw [ringLoop_eq_fold p N hS]; exact (ringFold_CeilIn p _).2.2.2.1
  have e4 : (ringLoop p).S.CeilOut.UV = ringUVs p (N + 1) := by
    rw [ringLoop_eq_fold p N hS]; exact (ringFold_CeilOut p _).2.2.2.1
  refine ⟨_, hm, ?_⟩
  intro S hmem
  simp only [assemble, List.mem_cons, List.mem_singleton, List.not_mem_nil, or_false] at hmem
  rcases hmem with h | h | h | h <;> subst h <;> simp only [e1, e2, e3, e4] <;> exact hmax

theorem ringT_one_segment (p : Params) (h : p.Segments = 1) :
    ringT p 0 = 0 ∧ ringT p 1 = 1 := by
  simp [ringT, h]

theorem sqrt_hundred : Real.sqrt 100 = 10 := by
  rw [show (100 : ℝ) = 10 ^ 2 by norm_num]
  exact Real.sqrt_sq (by norm_num)

theorem nearlyZero_of_curve_zero (p : Params) (hc : p.CurveDegrees = 0) :
    IsNearlyZero (DegreesToRadians p.CurveDegrees) (1 / 1000000) := by
  rw [hc]; exact nearlyZero_zero

/-- On a straight path with one segment the accumulated length is the norm of
(length, 0, drop). -/
theorem straight_accum_one (p : Params) (hc : p.CurveDegrees = 0) (hS : p.Segments = 1) :
    (ringLoop p).AccumLen = Size ⟨p.LengthMeters, 0, p.DropDepthMeters⟩ := by
  have hz := nearlyZero_of_curve_zero p hc
  rw [ringLoop_AccumLen p 1 (by rw [hS]; rfl)]
  simp only [accumAt, ringC]
  rw [(ringT_one_segment p hS).1, (ringT_one_segment p hS).2, SampleCenterline_straight p 1 hz,
    SampleCenterline_straight p 0 hz]
  simp [Size]

/-- Witness for claim C9 (amended): the straight path of length 10 with one segment. -/
theorem normalised_U_max_witness :
    ∃ m, BuildMesh ⟨10, 0, 0, 1 / 2, 5 / 2, 0, 1, true⟩ = some m ∧
      ∀ S ∈ [m.FloorIn, m.FloorOut, m.CeilIn, m.CeilOut],
        (∀ uv ∈ S.UV, uv.X ≤ 1) ∧ ∃ uv ∈ S.UV, uv.X = 1 :=
  normalised_U_max ⟨10, 0, 0, 1 / 2, 5 / 2, 0, 1, true⟩ 1 (by decide) rfl (by norm_num)
    (by
      rw [straight_accum_one _ rfl rfl]
      show SMALL_NUMBER < Real.sqrt ((10 : ℝ) * 10 + 0 * 0 + 0 * 0) / 100
      rw [show (10 : ℝ) * 10 + 0 * 0 + 0 * 0 = 100 by norm_num, sqrt_hundred]
      unfold SMALL_NUMBER
      norm_num)

theorem NormalizeU_ringUVs_skip (p : Params) (N : Nat) (h0 : 0 ≤ ringU p N)
    (hU : ringU p N ≤ SMALL_NUMBER) :
    NormalizeU (ringUVs p (N + 1)) = ringUVs p (N + 1) := by
  have hlen : (ringUVs p (N + 1)).length = 2 * (N + 1) := pairs_length _ _ _
  have hget : (ringUVs p (N + 1))[(ringUVs p (N + 1)).length - 1 - 1]? = some ⟨ringU p N, 0⟩ := by
    rw [hlen, show 2 * (N + 1) - 1 - 1 = 2 * N by omega]
    exact pairs_get_even _ _ _ _ (by omega)
  have hnz : IsNearlyZero (ringU p N) SMALL_NUMBER := by
    unfold IsNearlyZero
    rw [abs_of_nonneg h0]
    exact hU
  unfold NormalizeU
  rw [if_neg (by omega), hget]
  simp only [hnz, not_true_eq_false, if_false]

theorem DegreesToRadians_360 : DegreesToRadians 360 = 2 * Real.pi := by
  unfold DegreesToRadians; ring

theorem not_nearlyZero_360 : ¬ IsNearlyZero (DegreesToRadians 360) (1 / 1000000) := by
  rw [DegreesToRadians_360]
  unfold IsNearlyZero
  have := Real.pi_gt_three
  rw [abs_of_pos (by linarith)]
  linarith

/-- After a full turn without drop the sampled center is back at the origin, so with one
segment nothing is accumulated and every U is 0. -/
theorem full_turn_U_zero (p : Params) (hc : p.CurveDegrees = 360) (hd : p.DropDepthMeters = 0)
    (hS : p.Segments = 1) : ∀ i, i < 2 → ringU p i = 0 := by
  have hz : ¬ IsNearlyZero (DegreesToRadians p.CurveDegrees) (1 / 1000000) := by
    rw [hc]; exact not_nearlyZero_360
  obtain ⟨h0, h1⟩ := ringT_one_segment p hS
  have hC0 : ringC p 0 = ⟨0, 0, 0⟩ := by
    unfold ringC
    rw [h0, SampleCenterline_curved p 0 hz]
    simp
  have hC1 : ringC p 1 = ⟨0, 0, 0⟩ := by
    unfold ringC
    rw [h1, SampleCenterline_curved p 1 hz]
    simp [hc, hd, DegreesToRadians_360]
  have hA1 : accumAt p 1 = 0 := by
    simp only [accumAt]
    rw [hC0, hC1]
    simp [Size]
  intro i hi
  have : i = 0 ∨ i = 1 := by omega
  rcases this with h | h <;> subst h
  · simp [ringU, accumAt]
  · simp [ringU, hA1]

/-- Claim C9 as stated fails: at length 10, curve 360 degrees, drop 0 and one segment the two
ring centers coincide, `AccumLen` stays 0, the rescale is skipped, and every U of the inner
floor strip is 0, so the maximum is 0 and no U equals 1. -/
theorem full_turn_U_counterexample :
    (0 : ℝ) < 10 ∧ (1 : Int) ≤ 1 ∧
    ∃ m, BuildMesh ⟨10, 360, 0, 1 / 2, 5 / 2, 5, 1, false⟩ = some m ∧
      (∀ uv ∈ m.FloorIn.UV, uv.X = 0) ∧ ¬ ∃ uv ∈ m.FloorIn.UV, uv.X = 1 := by
  have hU := full_turn_U_zero ⟨10, 360, 0, 1 / 2, 5 / 2, 5, 1, false⟩ rfl rfl rfl
  have hUV : (ringLoop ⟨10, 360, 0, 1 / 2, 5 / 2, 5, 1, false⟩).S.FloorIn.UV
      = ringUVs ⟨10, 360, 0, 1 / 2, 5 / 2, 5, 1, false⟩ 2 := by
    rw [ringLoop_eq_fold _ 1 rfl]; exact (ringFold_FloorIn _ _).2.2.2.1
  have hskip := NormalizeU_ringUVs_skip ⟨10, 360, 0, 1 / 2, 5 / 2, 5, 1, false⟩ 1
    (by rw [hU 1 (by decide)]) (by rw [hU 1 (by decide)]; exact small_pos.le)
  have hall : ∀ uv ∈ NormalizeU (ringLoop ⟨10, 360, 0, 1 / 2, 5 / 2, 5, 1, false⟩).S.FloorIn.UV,
      uv.X = 0 := by
    intro uv huv
    rw [hUV, hskip] at huv
    obtain ⟨i, hi, hx⟩ := mem_pairs _ _ _ _ huv
    rcases hx with h | h <;> rw [h] <;> exact hU i hi
  refine ⟨by norm_num, le_refl _, _, BuildMesh_flat _ rfl, hall, ?_⟩
  rintro ⟨uv, huv, h1⟩
  have := hall uv huv
  rw [this] at h1
  norm_num at h1

/-! ## The frame on a straight path -/

theorem tangentScale_spec (p : Params)
    (hn : SMALL_NUMBER < p.LengthMeters * p.LengthMeters + p.DropDepthMeters * p.DropDepthMeters) :
    0 < tangentScale p ∧
    tangentScale p * tangentScale p
      * (p.LengthMeters * p.LengthMeters + p.DropDepthMeters * p.DropDepthMeters) = 1 := by
  have hpos := lt_trans small_pos hn
  have hs := Real.mul_self_sqrt hpos.le
  have hsp := Real.sqrt_pos.mpr hpos
  refine ⟨InvSqrt_pos _ hpos, ?_⟩
  unfold tangentScale InvSqrt
  field_simp

theorem GetSafeNormal_axisY (a : ℝ) (ha : 0 < a) (h : SMALL_NUMBER ≤ a * a) :
    GetSafeNormal ⟨0, a, 0⟩ = ⟨0, 1, 0⟩ := by
  unfold GetSafeNormal
  have e : (0 : ℝ) * 0 + a * a + 0 * 0 = a * a := by ring
  simp only [e]
  by_cases h1 : a * a = 1
  · rw [if_pos h1]
    have : a = 1 := by nlinarith
    rw [this]
  · rw [if_neg h1, if_neg (not_lt.mpr h)]
    ext
    · simp
    · show a * InvSqrt (a * a) = 1
      unfold InvSqrt
      rw [Real.sqrt_mul_self ha.le]
      field_simp
    · simp

/-- On a straight path that is not a nearly vertical climb, every ring has its center on the
line, the tangent (L, 0, D)·κ, the side vector (0, 1, 0) and the floor normal (-D, 0, L)·κ. -/
theorem straight_frame (p : Params) (hc : p.CurveDegrees = 0) (hL : 0 < p.LengthMeters)
    (hn : SMALL_NUMBER < p.LengthMeters * p.LengthMeters + p.DropDepthMeters * p.DropDepthMeters)
    (hflat : SMALL_NUMBER
        * (p.LengthMeters * p.LengthMeters + p.DropDepthMeters * p.DropDepthMeters)
        ≤ p.LengthMeters * p.LengthMeters ∨ p.DropDepthMeters < 0) (i : Nat) :
    ringC p i = ⟨p.LengthMeters * ringT p i, 0, p.DropDepthMeters * ringT p i⟩ ∧
    ringTan p i = ⟨p.LengthMeters * tangentScale p, 0, p.DropDepthMeters * tangentScale p⟩ ∧
    ringSide p i = ⟨0, 1, 0⟩ ∧
    ringNFloor p i = ⟨-(p.DropDepthMeters * tangentScale p), 0, p.LengthMeters * tangentScale p⟩ := by
  have hz := nearlyZero_of_curve_zero p hc
  obtain ⟨hk, hk1⟩ := tangentScale_spec p hn
  have hC : ringC p i = ⟨p.LengthMeters * ringT p i, 0, p.DropDepthMeters * ringT p i⟩ := by
    unfold ringC
    rw [SampleCenterline_straight p _ hz]
  have hT : ringTan p i
      = ⟨p.LengthMeters * tangentScale p, 0, p.DropDepthMeters * tangentScale p⟩ := by
    unfold ringTan
    rw [SampleCenterline_straight p _ hz]
    have hn2 : SMALL_NUMBER <
        p.LengthMeters * p.LengthMeters + 0 * 0 + p.DropDepthMeters * p.DropDepthMeters := by
      simpa using hn
    simp only [Normalize, gt_iff_lt, hn2, if_true, tangentScale]
    ext <;> simp
  have hunit : (p.LengthMeters * tangentScale p) * (p.LengthMeters * tangentScale p)
      + (p.DropDepthMeters * tangentScale p) * (p.DropDepthMeters * tangentScale p) = 1 := by
    nlinarith [hk1]
  have hSide : ringSide p i = ⟨0, 1, 0⟩ := by
    unfold ringSide frameSide
    rw [hT]
    have hUp : CrossProduct UpVector
        ⟨p.LengthMeters * tangentScale p, 0, p.DropDepthMeters * tangentScale p⟩
        = ⟨0, p.LengthMeters * tangentScale p, 0⟩ := by
      ext <;> simp [CrossProduct, UpVector]
    have hFw : CrossProduct ForwardVector
        ⟨p.LengthMeters * tangentScale p, 0, p.DropDepthMeters * tangentScale p⟩
        = ⟨0, -(p.DropDepthMeters * tangentScale p), 0⟩ := by
      ext <;> simp [CrossProduct, ForwardVector]
    rw [hUp, hFw]
    by_cases hA : SMALL_NUMBER
        ≤ (p.LengthMeters * tangentScale p) * (p.LengthMeters * tangentScale p)
    · rw [GetSafeNormal_axisY _ (mul_pos hL hk) hA]
      rw [if_neg (not_nearlyZero_of_unit _ (by simp [SizeSquared]))]
    · have hsmall : GetSafeNormal ⟨0, p.LengthMeters * tangentScale p, 0⟩ = ZeroVector := by
        apply GetSafeNormal_of_small
        simp only [SizeSquared]
        have := not_le.mp hA
        linarith
      rw [hsmall, if_pos nearlyZero_zero_vector]
      have hD : p.DropDepthMeters < 0 := by
        rcases hflat with h | h
        · exfalso
          apply hA
          have := mul_le_mul_of_nonneg_left h (mul_self_nonneg (tangentScale p))
          nlinarith [hk1]
        · exact h
      have hneg : 0 < -(p.DropDepthMeters * tangentScale p) := by
        have := mul_pos (neg_pos.mpr hD) hk
        linarith
      apply GetSafeNormal_axisY _ hneg
      have := not_le.mp hA
      have hs1 := small_lt_one
      unfold SMALL_NUMBER at *
      nlinarith
  refine ⟨hC, hT, hSide, ?_⟩
  unfold ringNFloor
  rw [hT, hSide]
  have hX : CrossProduct
      ⟨p.LengthMeters * tangentScale p, 0, p.DropDepthMeters * tangentScale p⟩ ⟨0, 1, 0⟩
      = ⟨-(p.DropDepthMeters * tangentScale p), 0, p.LengthMeters * tangentScale p⟩ := by
    ext <;> simp [CrossProduct]
  rw [hX]
  apply GetSafeNormal_of_unit
  simp only [SizeSquared]
  nlinarith [hunit]

/-! ## Triangles of a strip -/

theorem stripFold_get (b : Bool) (M s j : Nat) (hs : s < M) (hj : j < 6) :
    (stripFold b M)[6 * s + j]? = (stripSix b s)[j]? := by
  induction M with
  | zero => omega
  | succ M ih =>
    rw [stripFold_succ]
    by_cases h : s < M
    · rw [List.getElem?_append_left (by rw [stripFold_length]; omega)]
      exact ih h
    · have hsM : s = M := by omega
      subst hsM
      rw [List.getElem?_append_right (by rw [stripFold_length]; omega), stripFold_length]
      congr 1
      omega

theorem pairs_at {α : Type} (f g : Nat → α) (K s : Nat) (h : s + 1 < K) :
    (pairs f g K)[s * 2]? = some (f s) ∧ (pairs f g K)[s * 2 + 1]? = some (g s) ∧
    (pairs f g K)[s * 2 + 2]? = some (f (s + 1)) ∧
    (pairs f g K)[s * 2 + 3]? = some (g (s + 1)) := by
  refine ⟨?_, ?_, ?_, ?_⟩
  · rw [show s * 2 = 2 * s by omega]; exact pairs_get_even f g K s (by omega)
  · rw [show s * 2 + 1 = 2 * s + 1 by omega]; exact pairs_get_odd f g K s (by omega)
  · rw [show s * 2 + 2 = 2 * (s + 1) by omega]; exact pairs_get_even f g K (s + 1) h
  · rw [show s * 2 + 3 = 2 * (s + 1) + 1 by omega]; exact pairs_get_odd f g K (s + 1) h

/-- The two triangles of segment `s` in a strip triangulated with the "across" pattern. -/
theorem triangleDots_across (S : Strip) (P Q n : Nat → FVector) (M s : Nat) (hs : s < M)
    (hV : S.V = pairs P Q (M + 1)) (hN : S.N = pairs n n (M + 1))
    (hI : S.I = stripFold true M) :
    triangleDots S (2 * s) = some (dots3 (P s) (Q s) (P (s + 1)) (n s) (n s) (n (s + 1))) ∧
    triangleDots S (2 * s + 1)
      = some (dots3 (P (s + 1)) (Q s) (Q (s + 1)) (n (s + 1)) (n s) (n (s + 1))) := by
  obtain ⟨v0, v1, v2, v3⟩ := pairs_at P Q (M + 1) s (by omega)
  obtain ⟨n0, n1, n2, n3⟩ := pairs_at n n (M + 1) s (by omega)
  have i0 := stripFold_get true M s 0 hs (by omega)
  have i1 := stripFold_get true M s 1 hs (by omega)
  have i2 := stripFold_get true M s 2 hs (by omega)
  have i3 := stripFold_get true M s 3 hs (by omega)
  have i4 := stripFold_get true M s 4 hs (by omega)
  have i5 := stripFold_get true M s 5 hs (by omega)
  simp only [stripSix, if_true, List.getElem?_cons_zero, List.getElem?_cons_succ] at i0 i1 i2 i3 i4 i5
  constructor
  · unfold triangleDots
    rw [hV, hN, hI, show 3 * (2 * s) = 6 * s + 0 by omega,
      show 6 * s + 0 + 1 = 6 * s + 1 by omega, show 6 * s + 0 + 2 = 6 * s + 2 by omega,
      i0, i1, i2]
    simp only [v0, v1, v2, n0, n1, n2]
  · unfold triangleDots
    rw [hV, hN, hI, show 3 * (2 * s + 1) = 6 * s + 3 by omega,
      show 6 * s + 3 + 1 = 6 * s + 4 by omega, show 6 * s + 3 + 2 = 6 * s + 5 by omega,
      i3, i4, i5]
    simp only [v1, v2, v3, n1, n2, n3]

/-- The two triangles of segment `s` in a strip triangulated with the "wall" pattern. -/
theorem triangleDots_wall (S : Strip) (P Q n : Nat → FVector) (M s : Nat) (hs : s < M)
    (hV : S.V = pairs P Q (M + 1)) (hN : S.N = pairs n n (M + 1))
    (hI : S.I = stripFold false M) :
    triangleDots S (2 * s) = some (dots3 (P s) (P (s + 1)) (Q s) (n s) (n (s + 1)) (n s)) ∧
    triangleDots S (2 * s + 1)
      = some (dots3 (P (s + 1)) (Q (s + 1)) (Q s) (n (s + 1)) (n (s + 1)) (n s)) := by
  obtain ⟨v0, v1, v2, v3⟩ := pairs_at P Q (M + 1) s (by omega)
  obtain ⟨n0, n1, n2, n3⟩ := pairs_at n n (M + 1) s (by omega)
  have i0 := stripFold_get false M s 0 hs (by omega)
  have i1 := stripFold_get false M s 1 hs (by omega)
  have i2 := stripFold_get false M s 2 hs (by omega)
  have i3 := stripFold_get false M s 3 hs (by omega)
  have i4 := stripFold_get false M s 4 hs (by omega)
  have i5 := stripFold_get false M s 5 hs (by omega)
  simp only [stripSix, Bool.false_eq_true, if_false, List.getElem?_cons_zero,
    List.getElem?_cons_succ] at i0 i1 i2 i3 i4 i5
  constructor
  · unfold triangleDots
    rw [hV, hN, hI, show 3 * (2 * s) = 6 * s + 0 by omega,
      show 6 * s + 0 + 1 = 6 * s + 1 by omega, show 6 * s + 0 + 2 = 6 * s + 2 by omega,
      i0, i1, i2]
    simp only [v0, v1, v2, n0, n1, n2]
  · unfold triangleDots
    rw [hV, hN, hI, show 3 * (2 * s + 1) = 6 * s + 3 by omega,
      show 6 * s + 3 + 1 = 6 * s + 4 by omega, show 6 * s + 3 + 2 = 6 * s + 5 by omega,
      i3, i4, i5]
    simp only [v1, v2, v3, n1, n2, n3]

/-! ## Winding on a straight path -/

theorem ringT_step (p : Params) (N : Nat) (hN : 1 ≤ N) (hS : p.Segments = (N : Int)) (s : Nat) :
    ringT p (s + 1) = ringT p s + 1 / (N : ℝ) ∧ (0 : ℝ) < 1 / (N : ℝ) := by
  have hN0 : (0 : ℝ) < (N : ℝ) := by exact_mod_cast hN
  have hne : p.Segments ≠ 0 := by rw [hS]; exact_mod_cast (by omega : N ≠ 0)
  refine ⟨?_, by positivity⟩
  unfold ringT
  rw [if_neg hne, if_neg hne, hS]
  push_cast
  field_simp

/-- The three positive quantities the face normals of a straight strip are built from. -/
theorem straight_positive (p : Params) (N : Nat) (h : StraightBuild p N) :
    0 < p.HalfWidth * (1 / (N : ℝ)) * tangentScale p
      * (p.LengthMeters * p.LengthMeters + p.DropDepthMeters * p.DropDepthMeters) ∧
    0 ≤ p.WallThickness * (1 / (N : ℝ)) * tangentScale p
      * (p.LengthMeters * p.LengthMeters + p.DropDepthMeters * p.DropDepthMeters) ∧
    0 < (1 / (N : ℝ)) * p.CeilingHeight * p.LengthMeters := by
  obtain ⟨hN, hS, hc, hL, hW, hH, hTn, hn, hflat⟩ := h
  obtain ⟨hk, _⟩ := tangentScale_spec p hn
  have hu := (ringT_step p N hN hS 0).2
  have hsum := lt_trans small_pos hn
  refine ⟨by positivity, by positivity, by positivity⟩

theorem winding_FloorIn (p : Params) (N : Nat) (h : StraightBuild p N) (s : Nat) :
    (dots3 (ringLb p s) (ringRb p s) (ringLb p (s + 1)) (ringNFloor p s) (ringNFloor p s) (ringNFloor p (s + 1))).1 < 0 ∧
    (dots3 (ringLb p s) (ringRb p s) (ringLb p (s + 1)) (ringNFloor p s) (ringNFloor p s) (ringNFloor p (s + 1))).2.1 < 0 ∧
    (dots3 (ringLb p s) (ringRb p s) (ringLb p (s + 1)) (ringNFloor p s) (ringNFloor p s) (ringNFloor p (s + 1))).2.2 < 0 ∧
    (dots3 (ringLb p (s + 1)) (ringRb p s) (ringRb p (s + 1)) (ringNFloor p (s + 1)) (ringNFloor p s) (ringNFloor p (s + 1))).1 < 0 ∧
    (dots3 (ringLb p (s + 1)) (ringRb p s) (ringRb p (s + 1)) (ringNFloor p (s + 1)) (ringNFloor p s) (ringNFloor p (s + 1))).2.1 < 0 ∧
    (dots3 (ringLb p (s + 1)) (ringRb p s) (ringRb p (s + 1)) (ringNFloor p (s + 1)) (ringNFloor p s) (ringNFloor p (s + 1))).2.2 < 0 := by
  obtain ⟨q1, q2, q3⟩ := straight_positive p N h
  obtain ⟨hN, hS, hc, hL, hW, hH, hTn, hn, hflat⟩ := h
  obtain ⟨c0, t0, s0, f0⟩ := straight_frame p hc hL hn hflat s
  obtain ⟨c1, t1, s1, f1⟩ := straight_frame p hc hL hn hflat (s + 1)
  obtain ⟨hu, _⟩ := ringT_step p N hN hS s
  simp only [dots3, ringLb, ringRb, ringRt, ringLt, ringLbOut, ringRbOut, ringRtOut, ringLtOut,
    c0, c1, s0, s1, f0, f1, hu, DotProduct, CrossProduct, UpVector, FVector.add_X, FVector.add_Y,
    FVector.add_Z, FVector.sub_X, FVector.sub_Y, FVector.sub_Z, FVector.neg_X, FVector.neg_Y,
    FVector.neg_Z, FVector.mul_X, FVector.mul_Y, FVector.mul_Z]
  refine ⟨?_, ?_, ?_, ?_, ?_, ?_⟩ <;> linarith

/-- Every triangle of strip `FloorIn` has a face normal `(B - A) × (C - A)` pointing against the
normals pushed for its corners. -/
theorem facing_FloorIn (p : Params) (N : Nat) (h : StraightBuild p N) (S : Strip)
    (hV : S.V = (ringLoop p).S.FloorIn.V) (hN : S.N = (ringLoop p).S.FloorIn.N)
    (hI : S.I = BuildStrip p.Segments true) (t : Nat) (ht : t < 2 * N) :
    ∃ d, triangleDots S t = some d ∧ d.1 < 0 ∧ d.2.1 < 0 ∧ d.2.2 < 0 := by
  have hS := h.2.1
  have hw := winding_FloorIn p N h (t / 2)
  rw [ringLoop_eq_fold p N hS, (ringFold_FloorIn p _).1] at hV
  rw [ringLoop_eq_fold p N hS, (ringFold_FloorIn p _).2.1] at hN
  rw [BuildStrip_eq, (toNat_segments p N hS).2] at hI
  obtain ⟨e1, e2⟩ := triangleDots_across S _ _ _ N (t / 2) (by omega) hV hN hI
  have ht2 : t = 2 * (t / 2) ∨ t = 2 * (t / 2) + 1 := by omega
  rcases ht2 with h2 | h2
  · rw [h2]
    exact ⟨_, e1, hw.1, hw.2.1, hw.2.2.1⟩
  · rw [h2]
    exact ⟨_, e2, hw.2.2.2.1, hw.2.2.2.2.1, hw.2.2.2.2.2⟩

theorem winding_LeftIn (p : Params) (N : Nat) (h : StraightBuild p N) (s : Nat) :
    (dots3 (ringLb p s) (ringLb p (s + 1)) (ringLt p s) (ringSide p s) (ringSide p (s + 1)) (ringSide p s)).1 < 0 ∧
    (dots3 (ringLb p s) (ringLb p (s + 1)) (ringLt p s) (ringSide p s) (ringSide p (s + 1)) (ringSide p s)).2.1 < 0 ∧
    (dots3 (ringLb p s) (ringLb p (s + 1)) (ringLt p s) (ringSide p s) (ringSide p (s + 1)) (ringSide p s)).2.2 < 0 ∧
    (dots3 (ringLb p (s + 1)) (ringLt p (s + 1)) (ringLt p s) (ringSide p (s + 1)) (ringSide p (s + 1)) (ringSide p s)).1 < 0 ∧
    (dots3 (ringLb p (s + 1)) (ringLt p (s + 1)) (ringLt p s) (ringSide p (s + 1)) (ringSide p (s + 1)) (ringSide p s)).2.1 < 0 ∧
    (dots3 (ringLb p (s + 1)) (ringLt p (s + 1)) (ringLt p s) (ringSide p (s + 1)) (ringSide p (s + 1)) (ringSide p s)).2.2 < 0 := by
  obtain ⟨q1, q2, q3⟩ := straight_positive p N h
  obtain ⟨hN, hS, hc, hL, hW, hH, hTn, hn, hflat⟩ := h
  obtain ⟨c0, t0, s0, f0⟩ := straight_frame p hc hL hn hflat s
  obtain ⟨c1, t1, s1, f1⟩ := straight_frame p hc hL hn hflat (s + 1)
  obtain ⟨hu, _⟩ := ringT_step p N hN hS s
  simp only [dots3, ringLb, ringRb, ringRt, ringLt, ringLbOut, ringRbOut, ringRtOut, ringLtOut,
    c0, c1, s0, s1, f0, f1, hu, DotProduct, CrossProduct, UpVector, FVector.add_X, FVector.add_Y,
    FVector.add_Z, FVector.sub_X, FVector.sub_Y, FVector.sub_Z, FVector.neg_X, FVector.neg_Y,
    FVector.neg_Z, FVector.mul_X, FVector.mul_Y, FVector.mul_Z]
  refine ⟨?_, ?_, ?_, ?_, ?_, ?_⟩ <;> linarith

/-- Every triangle of strip `LeftIn` has a face normal `(B - A) × (C - A)` pointing against the
normals pushed for its corners. -/
theorem facing_LeftIn (p : Params) (N : Nat) (h : StraightBuild p N) (S : Strip)
    (hV : S.V = (ringLoop p).S.LeftIn.V) (hN : S.N = (ringLoop p).S.LeftIn.N)
    (hI : S.I = BuildStrip p.Segments false) (t : Nat) (ht : t < 2 * N) :
    ∃ d, triangleDots S t = some d ∧ d.1 < 0 ∧ d.2.1 < 0 ∧ d.2.2 < 0 := by
  have hS := h.2.1
  have hw := winding_LeftIn p N h (t / 2)
  rw [ringLoop_eq_fold p N hS, (ringFold_LeftIn p _).1] at hV
  rw [ringLoop_eq_fold p N hS, (ringFold_LeftIn p _).2.1] at hN
  rw [BuildStrip_eq, (toNat_segments p N hS).2] at hI
  obtain ⟨e1, e2⟩ := triangleDots_wall S _ _ _ N (t / 2) (by omega) hV hN hI
  have ht2 : t = 2 * (t / 2) ∨ t = 2 * (t / 2) + 1 := by omega
  rcases ht2 with h2 | h2
  · rw [h2]
    exact ⟨_, e1, hw.1, hw.2.1, hw.2.2.1⟩
  · rw [h2]
    exact ⟨_, e2, hw.2.2.2.1, hw.2.2.2.2.1, hw.2.2.2.2.2⟩

theorem winding_RightIn (p : Params) (N : Nat) (h : StraightBuild p N) (s : Nat) :
    (dots3 (ringRb p s) (ringRt p s) (ringRb p (s + 1)) (-ringSide p s) (-ringSide p s) (-ringSide p (s + 1))).1 < 0 ∧
    (dots3 (ringRb p s) (ringRt p s) (ringRb p (s + 1)) (-ringSide p s) (-ringSide p s) (-ringSide p (s + 1))).2.1 < 0 ∧
    (dots3 (ringRb p s) (ringRt p s) (ringRb p (s + 1)) (-ringSide p s) (-ringSide p s) (-ringSide p (s + 1))).2.2 < 0 ∧
    (dots3 (ringRb p (s + 1)) (ringRt p s) (ringRt p (s + 1)) (-ringSide p (s + 1)) (-ringSide p s) (-ringSide p (s + 1))).1 < 0 ∧
    (dots3 (ringRb p (s + 1)) (ringRt p s) (ringRt p (s + 1)) (-ringSide p (s + 1)) (-ringSide p s) (-ringSide p (s + 1))).2.1 < 0 ∧
    (dots3 (ringRb p (s + 1)) (ringRt p s) (ringRt p (s + 1)) (-ringSide p (s + 1)) (-ringSide p s) (-ringSide p (s + 1))).2.2 < 0 := by
  obtain ⟨q1, q2, q3⟩ := straight_positive p N h
  obtain ⟨hN, hS, hc, hL, hW, hH, hTn, hn, hflat⟩ := h
  obtain ⟨c0, t0, s0, f0⟩ := straight_frame p hc hL hn hflat s
  obtain ⟨c1, t1, s1, f1⟩ := straight_frame p hc hL hn hflat (s + 1)
  obtain ⟨hu, _⟩ := ringT_step p N hN hS s
  simp only [dots3, ringLb, ringRb, ringRt, ringLt, ringLbOut, ringRbOut, ringRtOut, ringLtOut,
    c0, c1, s0, s1, f0, f1, hu, DotProduct, CrossProduct, UpVector, FVector.add_X, FVector.add_Y,
    FVector.add_Z, FVector.sub_X, FVector.sub_Y, FVector.sub_Z, FVector.neg_X, FVector.neg_Y,
    FVector.neg_Z, FVector.mul_X, FVector.mul_Y, FVector.mul_Z]
  refine ⟨?_, ?_, ?_, ?_, ?_, ?_⟩ <;> linarith

/-- Every triangle of strip `RightIn` has a face normal `(B - A) × (C - A)` pointing against the
normals pushed for its corners. -/
theorem facing_RightIn (p : Params) (N : Nat) (h : StraightBuild p N) (S : Strip)
    (hV : S.V = (ringLoop p).S.RightIn.V) (hN : S.N = (ringLoop p).S.RightIn.N)
    (hI : S.I = BuildStrip p.Segments true) (t : Nat) (ht : t < 2 * N) :
    ∃ d, triangleDots S t = some d ∧ d.1 < 0 ∧ d.2.1 < 0 ∧ d.2.2 < 0 := by
  have hS := h.2.1
  have hw := winding_RightIn p N h (t / 2)
  rw [ringLoop_eq_fold p N hS, (ringFold_RightIn p _).1] at hV
  rw [ringLoop_eq_fold p N hS, (ringFold_RightIn p _).2.1] at hN
  rw [BuildStrip_eq, (toNat_segments p N hS).2] at hI
  obtain ⟨e1, e2⟩ := triangleDots_across S _ _ _ N (t / 2) (by omega) hV hN hI
  have ht2 : t = 2 * (t / 2) ∨ t = 2 * (t / 2) + 1 := by omega
  rcases ht2 with h2 | h2
  · rw [h2]
    exact ⟨_, e1, hw.1, hw.2.1, hw.2.2.1⟩
  · rw [h2]
    exact ⟨_, e2, hw.2.2.2.1, hw.2.2.2.2.1, hw.2.2.2.2.2⟩

theorem winding_CeilIn (p : Params) (N : Nat) (h : StraightBuild p N) (s : Nat) :
    (dots3 (ringLt p s) (ringLt p (s + 1)) (ringRt p s) (-ringNFloor p s) (-ringNFloor p (s + 1)) (-ringNFloor p s)).1 < 0 ∧
    (dots3 (ringLt p s) (ringLt p (s + 1)) (ringRt p s) (-ringNFloor p s) (-ringNFloor p (s + 1)) (-ringNFloor p s)).2.1 < 0 ∧
    (dots3 (ringLt p s) (ringLt p (s + 1)) (ringRt p s) (-ringNFloor p s) (-ringNFloor p (s + 1)) (-ringNFloor p s)).2.2 < 0 ∧
    (dots3 (ringLt p (s + 1)) (ringRt p (s + 1)) (ringRt p s) (-ringNFloor p (s + 1)) (-ringNFloor p (s + 1)) (-ringNFloor p s)).1 < 0 ∧
    (dots3 (ringLt p (s + 1)) (ringRt p (s + 1)) (ringRt p s) (-ringNFloor p (s + 1)) (-ringNFloor p (s + 1)) (-ringNFloor p s)).2.1 < 0 ∧
    (dots3 (ringLt p (s + 1)) (ringRt p (s + 1)) (ringRt p s) (-ringNFloor p (s + 1)) (-ringNFloor p (s + 1)) (-ringNFloor p s)).2.2 < 0 := by
  obtain ⟨q1, q2, q3⟩ := straight_positive p N h
  obtain ⟨hN, hS, hc, hL, hW, hH, hTn, hn, hflat⟩ := h
  obtain ⟨c0, t0, s0, f0⟩ := straight_frame p hc hL hn hflat s
  obtain ⟨c1, t1, s1, f1⟩ := straight_frame p hc hL hn hflat (s + 1)
  obtain ⟨hu, _⟩ := ringT_step p N hN hS s
  simp only [dots3, ringLb, ringRb, ringRt, ringLt, ringLbOut, ringRbOut, ringRtOut, ringLtOut,
    c0, c1, s0, s1, f0, f1, hu, DotProduct, CrossProduct, UpVector, FVector.add_X, FVector.add_Y,
    FVector.add_Z, FVector.sub_X, FVector.sub_Y, FVector.sub_Z, FVector.neg_X, FVector.neg_Y,
    FVector.neg_Z, FVector.mul_X, FVector.mul_Y, FVector.mul_Z]
  refine ⟨?_, ?_, ?_, ?_, ?_, ?_⟩ <;> linarith

/-- Every triangle of strip `CeilIn` has a face normal `(B - A) × (C - A)` pointing against the
normals pushed for its corners. -/
theorem facing_CeilIn (p : Params) (N : Nat) (h : StraightBuild p N) (S : Strip)
    (hV : S.V = (ringLoop p).S.CeilIn.V) (hN : S.N = (ringLoop p).S.CeilIn.N)
    (hI : S.I = BuildStrip p.Segments false) (t : Nat) (ht : t < 2 * N) :
    ∃ d, triangleDots S t = some d ∧ d.1 < 0 ∧ d.2.1 < 0 ∧ d.2.2 < 0 := by
  have hS := h.2.1
  have hw := winding_CeilIn p N h (t / 2)
  rw [ringLoop_eq_fold p N hS, (ringFold_CeilIn p _).1] at hV
  rw [ringLoop_eq_fold p N hS, (ringFold_CeilIn p _).2.1] at hN
  rw [BuildStrip_eq, (toNat_segments p N hS).2] at hI
  obtain ⟨e1, e2⟩ := triangleDots_wall S _ _ _ N (t / 2) (by omega) hV hN hI
  have ht2 : t = 2 * (t / 2) ∨ t = 2 * (t / 2) + 1 := by omega
  rcases ht2 with h2 | h2
  · rw [h2]
    exact ⟨_, e1, hw.1, hw.2.1, hw.2.2.1⟩
  · rw [h2]
    exact ⟨_, e2, hw.2.2.2.1, hw.2.2.2.2.1, hw.2.2.2.2.2⟩

theorem winding_FloorOut (p : Params) (N : Nat) (h : StraightBuild p N) (s : Nat) :
    (dots3 (ringLbOut p s) (ringLbOut p (s + 1)) (ringRbOut p s) (-ringNFloor p s) (-ringNFloor p (s + 1)) (-ringNFloor p s)).1 < 0 ∧
    (dots3 (ringLbOut p s) (ringLbOut p (s + 1)) (ringRbOut p s) (-ringNFloor p s) (-ringNFloor p (s + 1)) (-ringNFloor p s)).2.1 < 0 ∧
    (dots3 (ringLbOut p s) (ringLbOut p (s + 1)) (ringRbOut p s) (-ringNFloor p s) (-ringNFloor p (s + 1)) (-ringNFloor p s)).2.2 < 0 ∧
    (dots3 (ringLbOut p (s + 1)) (ringRbOut p (s + 1)) (ringRbOut p s) (-ringNFloor p (s + 1)) (-ringNFloor p (s + 1)) (-ringNFloor p s)).1 < 0 ∧
    (dots3 (ringLbOut p (s + 1)) (ringRbOut p (s + 1)) (ringRbOut p s) (-ringNFloor p (s + 1)) (-ringNFloor p (s + 1)) (-ringNFloor p s)).2.1 < 0 ∧
    (dots3 (ringLbOut p (s + 1)) (ringRbOut p (s + 1)) (ringRbOut p s) (-ringNFloor p (s + 1)) (-ringNFloor p (s + 1)) (-ringNFloor p s)).2.2 < 0 := by
  obtain ⟨q1, q2, q3⟩ := straight_positive p N h
  obtain ⟨hN, hS, hc, hL, hW, hH, hTn, hn, hflat⟩ := h
  obtain ⟨c0, t0, s0, f0⟩ := straight_frame p hc hL hn hflat s
  obtain ⟨c1, t1, s1, f1⟩ := straight_frame p hc hL hn hflat (s + 1)
  obtain ⟨hu, _⟩ := ringT_step p N hN hS s
  simp only [dots3, ringLb, ringRb, ringRt, ringLt, ringLbOut, ringRbOut, ringRtOut, ringLtOut,
    c0, c1, s0, s1, f0, f1, hu, DotProduct, CrossProduct, UpVector, FVector.add_X, FVector.add_Y,
    FVector.add_Z, FVector.sub_X, FVector.sub_Y, FVector.sub_Z, FVector.neg_X, FVector.neg_Y,
    FVector.neg_Z, FVector.mul_X, FVector.mul_Y, FVector.mul_Z]
  refine ⟨?_, ?_, ?_, ?_, ?_, ?_⟩ <;> linarith

/-- Every triangle of strip `FloorOut` has a face normal `(B - A) × (C - A)` pointing against the
normals pushed for its corners. -/
theorem facing_FloorOut (p : Params) (N : Nat) (h : StraightBuild p N) (S : Strip)
    (hV : S.V = (ringLoop p).S.FloorOut.V) (hN : S.N = (ringLoop p).S.FloorOut.N)
    (hI : S.I = BuildStrip p.Segments false) (t : Nat) (ht : t < 2 * N) :
    ∃ d, triangleDots S t = some d ∧ d.1 < 0 ∧ d.2.1 < 0 ∧ d.2.2 < 0 := by
  have hS := h.2.1
  have hw := winding_FloorOut p N h (t / 2)
  rw [ringLoop_eq_fold p N hS, (ringFold_FloorOut p _).1] at hV
  rw [ringLoop_eq_fold p N hS, (ringFold_FloorOut p _).2.1] at hN
  rw [BuildStrip_eq, (toNat_segments p N hS).2] at hI
  obtain ⟨e1, e2⟩ := triangleDots_wall S _ _ _ N (t / 2) (by omega) hV hN hI
  have ht2 : t = 2 * (t / 2) ∨ t = 2 * (t / 2) + 1 := by omega
  rcases ht2 with h2 | h2
  · rw [h2]
    exact ⟨_, e1, hw.1, hw.2.1, hw.2.2.1⟩
  · rw [h2]
    exact ⟨_, e2, hw.2.2.2.1, hw.2.2.2.2.1, hw.2.2.2.2.2⟩

theorem winding_LeftOut (p : Params) (N : Nat) (h : StraightBuild p N) (s : Nat) :
    (dots3 (ringLbOut p s) (ringLtOut p s) (ringLbOut p (s + 1)) (-ringSide p s) (-ringSide p s) (-ringSide p (s + 1))).1 < 0 ∧
    (dots3 (ringLbOut p s) (ringLtOut p s) (ringLbOut p (s + 1)) (-ringSide p s) (-ringSide p s) (-ringSide p (s + 1))).2.1 < 0 ∧
    (dots3 (ringLbOut p s) (ringLtOut p s) (ringLbOut p (s + 1)) (-ringSide p s) (-ringSide p s) (-ringSide p (s + 1))).2.2 < 0 ∧
    (dots3 (ringLbOut p (s + 1)) (ringLtOut p s) (ringLtOut p (s + 1)) (-ringSide p (s + 1)) (-ringSide p s) (-ringSide p (s + 1))).1 < 0 ∧
    (dots3 (ringLbOut p (s + 1)) (ringLtOut p s) (ringLtOut p (s + 1)) (-ringSide p (s + 1)) (-ringSide p s) (-ringSide p (s + 1))).2.1 < 0 ∧
    (dots3 (ringLbOut p (s + 1)) (ringLtOut p s) (ringLtOut p (s + 1)) (-ringSide p (s + 1)) (-ringSide p s) (-ringSide p (s + 1))).2.2 < 0 := by
  obtain ⟨q1, q2, q3⟩ := straight_positive p N h
  obtain ⟨hN, hS, hc, hL, hW, hH, hTn, hn, hflat⟩ := h
  obtain ⟨c0, t0, s0, f0⟩ := straight_frame p hc hL hn hflat s
  obtain ⟨c1, t1, s1, f1⟩ := straight_frame p hc hL hn hflat (s + 1)
  obtain ⟨hu, _⟩ := ringT_step p N hN hS s
  simp only [dots3, ringLb, ringRb, ringRt, ringLt, ringLbOut, ringRbOut, ringRtOut, ringLtOut,
    c0, c1, s0, s1, f0, f1, hu, DotProduct, CrossProduct, UpVector, FVector.add_X, FVector.add_Y,
    FVector.add_Z, FVector.sub_X, FVector.sub_Y, FVector.sub_Z, FVector.neg_X, FVector.neg_Y,
    FVector.neg_Z, FVector.mul_X, FVector.mul_Y, FVector.mul_Z]
  refine ⟨?_, ?_, ?_, ?_, ?_, ?_⟩ <;> linarith

/-- Every triangle of strip `LeftOut` has a face normal `(B - A) × (C - A)` pointing against the
normals pushed for its corners. -/
theorem facing_LeftOut (p : Params) (N : Nat) (h : StraightBuild p N) (S : Strip)
    (hV : S.V = (ringLoop p).S.LeftOut.V) (hN : S.N = (ringLoop p).S.LeftOut.N)
    (hI : S.I = BuildStrip p.Segments true) (t : Nat) (ht : t < 2 * N) :
    ∃ d, triangleDots S t = some d ∧ d.1 < 0 ∧ d.2.1 < 0 ∧ d.2.2 < 0 := by
  have hS := h.2.1
  have hw := winding_LeftOut p N h (t / 2)
  rw [ringLoop_eq_fold p N hS, (ringFold_LeftOut p _).1] at hV
  rw [ringLoop_eq_fold p N hS, (ringFold_LeftOut p _).2.1] at hN
  rw [BuildStrip_eq, (toNat_segments p N hS).2] at hI
  obtain ⟨e1, e2⟩ := triangleDots_across S _ _ _ N (t / 2) (by omega) hV hN hI
  have ht2 : t = 2 * (t / 2) ∨ t = 2 * (t / 2) + 1 := by omega
  rcases ht2 with h2 | h2
  · rw [h2]
    exact ⟨_, e1, hw.1, hw.2.1, hw.2.2.1⟩
  · rw [h2]
    exact ⟨_, e2, hw.2.2.2.1, hw.2.2.2.2.1, hw.2.2.2.2.2⟩

theorem winding_RightOut (p : Params) (N : Nat) (h : StraightBuild p N) (s : Nat) :
    (dots3 (ringRbOut p s) (ringRbOut p (s + 1)) (ringRtOut p s) (- -ringSide p s) (- -ringSide p (s + 1)) (- -ringSide p s)).1 < 0 ∧
    (dots3 (ringRbOut p s) (ringRbOut p (s + 1)) (ringRtOut p s) (- -ringSide p s) (- -ringSide p (s + 1)) (- -ringSide p s)).2.1 < 0 ∧
    (dots3 (ringRbOut p s) (ringRbOut p (s + 1)) (ringRtOut p s) (- -ringSide p s) (- -ringSide p (s + 1)) (- -ringSide p s)).2.2 < 0 ∧
    (dots3 (ringRbOut p (s + 1)) (ringRtOut p (s + 1)) (ringRtOut p s) (- -ringSide p (s + 1)) (- -ringSide p (s + 1)) (- -ringSide p s)).1 < 0 ∧
    (dots3 (ringRbOut p (s + 1)) (ringRtOut p (s + 1)) (ringRtOut p s) (- -ringSide p (s + 1)) (- -ringSide p (s + 1)) (- -ringSide p s)).2.1 < 0 ∧
    (dots3 (ringRbOut p (s + 1)) (ringRtOut p (s + 1)) (ringRtOut p s) (- -ringSide p (s + 1)) (- -ringSide p (s + 1)) (- -ringSide p s)).2.2 < 0 := by
  obtain ⟨q1, q2, q3⟩ := straight_positive p N h
  obtain ⟨hN, hS, hc, hL, hW, hH, hTn, hn, hflat⟩ := h
  obtain ⟨c0, t0, s0, f0⟩ := straight_frame p hc hL hn hflat s
  obtain ⟨c1, t1, s1, f1⟩ := straight_frame p hc hL hn hflat (s + 1)
  obtain ⟨hu, _⟩ := ringT_step p N hN hS s
  simp only [dots3, ringLb, ringRb, ringRt, ringLt, ringLbOut, ringRbOut, ringRtOut, ringLtOut,
    c0, c1, s0, s1, f0, f1, hu, DotProduct, CrossProduct, UpVector, FVector.add_X, FVector.add_Y,
    FVector.add_Z, FVector.sub_X, FVector.sub_Y, FVector.sub_Z, FVector.neg_X, FVector.neg_Y,
    FVector.neg_Z, FVector.mul_X, FVector.mul_Y, FVector.mul_Z]
  refine ⟨?_, ?_, ?_, ?_, ?_, ?_⟩ <;> linarith

/-- Every triangle of strip `RightOut` has a face normal `(B - A) × (C - A)` pointing against the
normals pushed for its corners. -/
theorem facing_RightOut (p : Params) (N : Nat) (h : StraightBuild p N) (S : Strip)
    (hV : S.V = (ringLoop p).S.RightOut.V) (hN : S.N = (ringLoop p).S.RightOut.N)
    (hI : S.I = BuildStrip p.Segments false) (t : Nat) (ht : t < 2 * N) :
    ∃ d, triangleDots S t = some d ∧ d.1 < 0 ∧ d.2.1 < 0 ∧ d.2.2 < 0 := by
  have hS := h.2.1
  have hw := winding_RightOut p N h (t / 2)
  rw [ringLoop_eq_fold p N hS, (ringFold_RightOut p _).1] at hV
  rw [ringLoop_eq_fold p N hS, (ringFold_RightOut p _).2.1] at hN
  rw [BuildStrip_eq, (toNat_segments p N hS).2] at hI
  obtain ⟨e1, e2⟩ := triangleDots_wall S _ _ _ N (t / 2) (by omega) hV hN hI
  have ht2 : t = 2 * (t / 2) ∨ t = 2 * (t / 2) + 1 := by omega
  rcases ht2 with h2 | h2
  · rw [h2]
    exact ⟨_, e1, hw.1, hw.2.1, hw.2.2.1⟩
  · rw [h2]
    exact ⟨_, e2, hw.2.2.2.1, hw.2.2.2.2.1, hw.2.2.2.2.2⟩

theorem winding_CeilOut (p : Params) (N : Nat) (h : StraightBuild p N) (s : Nat) :
    (dots3 (ringLtOut p s) (ringRtOut p s) (ringLtOut p (s + 1)) (- -ringNFloor p s) (- -ringNFloor p s) (- -ringNFloor p (s + 1))).1 < 0 ∧
    (dots3 (ringLtOut p s) (ringRtOut p s) (ringLtOut p (s + 1)) (- -ringNFloor p s) (- -ringNFloor p s) (- -ringNFloor p (s + 1))).2.1 < 0 ∧
    (dots3 (ringLtOut p s) (ringRtOut p s) (ringLtOut p (s + 1)) (- -ringNFloor p s) (- -ringNFloor p s) (- -ringNFloor p (s + 1))).2.2 < 0 ∧
    (dots3 (ringLtOut p (s + 1)) (ringRtOut p s) (ringRtOut p (s + 1)) (- -ringNFloor p (s + 1)) (- -ringNFloor p s) (- -ringNFloor p (s + 1))).1 < 0 ∧
    (dots3 (ringLtOut p (s + 1)) (ringRtOut p s) (ringRtOut p (s + 1)) (- -ringNFloor p (s + 1)) (- -ringNFloor p s) (- -ringNFloor p (s + 1))).2.1 < 0 ∧
    (dots3 (ringLtOut p (s + 1)) (ringRtOut p s) (ringRtOut p (s + 1)) (- -ringNFloor p (s + 1)) (- -ringNFloor p s) (- -ringNFloor p (s + 1))).2.2 < 0 := by
  obtain ⟨q1, q2, q3⟩ := straight_positive p N h
  obtain ⟨hN, hS, hc, hL, hW, hH, hTn, hn, hflat⟩ := h
  obtain ⟨c0, t0, s0, f0⟩ := straight_frame p hc hL hn hflat s
  obtain ⟨c1, t1, s1, f1⟩ := straight_frame p hc hL hn hflat (s + 1)
  obtain ⟨hu, _⟩ := ringT_step p N hN hS s
  simp only [dots3, ringLb, ringRb, ringRt, ringLt, ringLbOut, ringRbOut, ringRtOut, ringLtOut,
    c0, c1, s0, s1, f0, f1, hu, DotProduct, CrossProduct, UpVector, FVector.add_X, FVector.add_Y,
    FVector.add_Z, FVector.sub_X, FVector.sub_Y, FVector.sub_Z, FVector.neg_X, FVector.neg_Y,
    FVector.neg_Z, FVector.mul_X, FVector.mul_Y, FVector.mul_Z]
  refine ⟨?_, ?_, ?_, ?_, ?_, ?_⟩ <;> linarith

/-- Every triangle of strip `CeilOut` has a face normal `(B - A) × (C - A)` pointing against the
normals pushed for its corners. -/
theorem facing_CeilOut (p : Params) (N : Nat) (h : StraightBuild p N) (S : Strip)
    (hV : S.V = (ringLoop p).S.CeilOut.V) (hN : S.N = (ringLoop p).S.CeilOut.N)
    (hI : S.I = BuildStrip p.Segments true) (t : Nat) (ht : t < 2 * N) :
    ∃ d, triangleDots S t = some d ∧ d.1 < 0 ∧ d.2.1 < 0 ∧ d.2.2 < 0 := by
  have hS := h.2.1
  have hw := winding_CeilOut p N h (t / 2)
  rw [ringLoop_eq_fold p N hS, (ringFold_CeilOut p _).1] at hV
  rw [ringLoop_eq_fold p N hS, (ringFold_CeilOut p _).2.1] at hN
  rw [BuildStrip_eq, (toNat_segments p N hS).2] at hI
  obtain ⟨e1, e2⟩ := triangleDots_across S _ _ _ N (t / 2) (by omega) hV hN hI
  have ht2 : t = 2 * (t / 2) ∨ t = 2 * (t / 2) + 1 := by omega
  rcases ht2 with h2 | h2
  · rw [h2]
    exact ⟨_, e1, hw.1, hw.2.1, hw.2.2.1⟩
  · rw [h2]
    exact ⟨_, e2, hw.2.2.2.1, hw.2.2.2.2.1, hw.2.2.2.2.2⟩

/-- With smoothing off, every triangle of every section of a straight build is wound
against its stored normals. -/
theorem straight_winding_flat (p : Params) (N : Nat) (h : StraightBuild p N)
    (hb : p.bSmoothNormals = false) :
    ∃ m, BuildMesh p = some m ∧ ∀ S ∈ m.toList, ∀ t, t < 2 * N →
      ∃ d, triangleDots S t = some d ∧ d.1 < 0 ∧ d.2.1 < 0 ∧ d.2.2 < 0 := by
  refine ⟨_, BuildMesh_flat p hb, ?_⟩
  intro S hmem t ht
  simp only [Sections.toList, assemble, List.mem_cons, List.mem_singleton, List.not_mem_nil,
    or_false] at hmem
  rcases hmem with e | e | e | e | e | e | e | e <;> subst e
  · refine facing_FloorIn p N h _ ?_ ?_ ?_ t ht <;> rfl
  · refine facing_LeftIn p N h _ ?_ ?_ ?_ t ht <;> rfl
  · refine facing_RightIn p N h _ ?_ ?_ ?_ t ht <;> rfl
  · refine facing_CeilIn p N h _ ?_ ?_ ?_ t ht <;> rfl
  · refine facing_FloorOut p N h _ ?_ ?_ ?_ t ht <;> rfl
  · refine facing_LeftOut p N h _ ?_ ?_ ?_ t ht <;> rfl
  · refine facing_RightOut p N h _ ?_ ?_ ?_ t ht <;> rfl
  · refine facing_CeilOut p N h _ ?_ ?_ ?_ t ht <;> rfl

/-- Claim C3, amended.  On a straight path (curve angle 0) with length > 0, half-width > 0,
ceiling height > 0, wall thickness ≥ 0, Segments = N ≥ 1, `length² + drop²` above the
normalisation tolerance 1e-8, and which is not a nearly vertical climb (drop < 0 or
`length² ≥ 1e-8·(length² + drop²)`), for each of the eight strips and every triangle (A,B,C)
emitted by `BuildStrip`, the face normal `(B - A) × (C - A)` has a strictly negative dot
product with the flat normal pushed for each of its three vertices (the normals the sections
carry when smoothing is off). -/
theorem straight_strips_wound_against_normal (p : Params) (N : Nat) (hN : 1 ≤ N)
    (hS : p.Segments = (N : Int)) (hc : p.CurveDegrees = 0) (hL : 0 < p.LengthMeters)
    (hW : 0 < p.HalfWidth) (hH : 0 < p.CeilingHeight) (hTn : 0 ≤ p.WallThickness)
    (hn : SMALL_NUMBER < p.LengthMeters * p.LengthMeters + p.DropDepthMeters * p.DropDepthMeters)
    (hflat : SMALL_NUMBER
        * (p.LengthMeters * p.LengthMeters + p.DropDepthMeters * p.DropDepthMeters)
        ≤ p.LengthMeters * p.LengthMeters ∨ p.DropDepthMeters < 0) :
    ∃ m, BuildMesh { p with bSmoothNormals := false } = some m ∧
      ∀ S ∈ m.toList, ∀ t, t < 2 * N →
        ∃ d, triangleDots S t = some d ∧ d.1 < 0 ∧ d.2.1 < 0 ∧ d.2.2 < 0 :=
  straight_winding_flat { p with bSmoothNormals := false } N
    ⟨hN, hS, hc, hL, hW, hH, hTn, hn, hflat⟩ rfl

/-- Witness for claim C3 (amended): length 10, drop 0, half-width 0.5, ceiling height 2.5,
wall thickness 0, one segment. -/
theorem straight_strips_wound_against_normal_witness :
    ∃ m, BuildMesh { (⟨10, 0, 0, 1 / 2, 5 / 2, 0, 1, true⟩ : Params) with
        bSmoothNormals := false } = some m ∧
      ∀ S ∈ m.toList, ∀ t, t < 2 * 1 →
        ∃ d, triangleDots S t = some d ∧ d.1 < 0 ∧ d.2.1 < 0 ∧ d.2.2 < 0 :=
  straight_strips_wound_against_normal ⟨10, 0, 0, 1 / 2, 5 / 2, 0, 1, true⟩ 1 (by decide) rfl rfl
    (by norm_num) (by norm_num) (by norm_num) (by norm_num)
    (by simp only [SMALL_NUMBER]; norm_num) (Or.inl (by simp only [SMALL_NUMBER]; norm_num))

/-! ## The end-to-end scenario of the straight floor -/

theorem scenario_straightBuild (b : Bool) : StraightBuild (scenario b) 1 := by
  refine ⟨le_refl _, rfl, rfl, ?_, ?_, ?_, ?_, ?_, Or.inl ?_⟩ <;>
    simp only [scenario, SMALL_NUMBER] <;> norm_num

theorem scenario_tangentScale (b : Bool) : tangentScale (scenario b) = 1 / 10 := by
  show InvSqrt ((10 : ℝ) * 10 + 0 * 0) = 1 / 10
  rw [show (10 : ℝ) * 10 + 0 * 0 = 100 by norm_num]
  unfold InvSqrt
  rw [sqrt_hundred]

/-- The inner floor corners and the floor normal of the two rings of the scenario. -/
theorem scenario_floor (b : Bool) :
    ringLb (scenario b) 0 = ⟨0, -(1 / 2), 0⟩ ∧ ringRb (scenario b) 0 = ⟨0, 1 / 2, 0⟩ ∧
    ringLb (scenario b) 1 = ⟨10, -(1 / 2), 0⟩ ∧ ringRb (scenario b) 1 = ⟨10, 1 / 2, 0⟩ ∧
    ringNFloor (scenario b) 0 = ⟨0, 0, 1⟩ ∧ ringNFloor (scenario b) 1 = ⟨0, 0, 1⟩ := by
  obtain ⟨hN, hS, hc, hL, hW, hH, hTn, hn, hflat⟩ := scenario_straightBuild b
  obtain ⟨c0, t0, s0, f0⟩ := straight_frame (scenario b) hc hL hn hflat 0
  obtain ⟨c1, t1, s1, f1⟩ := straight_frame (scenario b) hc hL hn hflat 1
  obtain ⟨h0, h1⟩ := ringT_one_segment (scenario b) rfl
  have hk := scenario_tangentScale b
  have eL : (scenario b).LengthMeters = 10 := rfl
  have eD : (scenario b).DropDepthMeters = 0 := rfl
  have eW : (scenario b).HalfWidth = 1 / 2 := rfl
  rw [h0] at c0
  rw [h1] at c1
  rw [hk] at f0 f1
  refine ⟨?_, ?_, ?_, ?_, ?_, ?_⟩
  · unfold ringLb; rw [c0, s0, eL, eD, eW]; ext <;> simp
  · unfold ringRb; rw [c0, s0, eL, eD, eW]; ext <;> simp
  · unfold ringLb; rw [c1, s1, eL, eD, eW]; ext <;> simp
  · unfold ringRb; rw [c1, s1, eL, eD, eW]; ext <;> simp
  · rw [f0, eL, eD]; ext <;> simp
  · rw [f1, eL, eD]; ext <;> simp

theorem scenario_FloorIn_arrays (b : Bool) :
    (ringLoop (scenario b)).S.FloorIn.V
      = [⟨0, -(1 / 2), 0⟩, ⟨0, 1 / 2, 0⟩, ⟨10, -(1 / 2), 0⟩, ⟨10, 1 / 2, 0⟩] ∧
    (ringLoop (scenario b)).S.FloorIn.N = [⟨0, 0, 1⟩, ⟨0, 0, 1⟩, ⟨0, 0, 1⟩, ⟨0, 0, 1⟩] ∧
    BuildStrip (scenario b).Segments true = [0, 1, 2, 2, 1, 3] := by
  obtain ⟨l0, r0, l1, r1, f0, f1⟩ := scenario_floor b
  rw [ringLoop_eq_fold (scenario b) 1 rfl, (ringFold_FloorIn _ _).1, (ringFold_FloorIn _ _).2.1]
  refine ⟨?_, ?_, rfl⟩
  · simp only [pairs, List.nil_append, List.cons_append, l0, r0, l1, r1]
  · simp only [pairs, List.nil_append, List.cons_append, f0, f1]

/-- With smoothing on, the result consists of the ring loop arrays and the normal arrays
returned by the eight calls of `Smooth`. -/
theorem BuildMesh_smooth_normals (p : Params) (hb : p.bSmoothNormals = true) :
    ∃ nFloorIn nLeftIn nRightIn nCeilIn nFloorOut nLeftOut nRightOut nCeilOut : List FVector,
      BuildMesh p = some (assemble p nFloorIn nLeftIn nRightIn nCeilIn nFloorOut nLeftOut
        nRightOut nCeilOut) ∧
      Smooth (ringLoop p).S.FloorIn.V (BuildStrip p.Segments true) (ringLoop p).S.FloorIn.N
        = some nFloorIn ∧
      Smooth (ringLoop p).S.LeftIn.V (BuildStrip p.Segments false) (ringLoop p).S.LeftIn.N
        = some nLeftIn ∧
      Smooth (ringLoop p).S.RightIn.V (BuildStrip p.Segments true) (ringLoop p).S.RightIn.N
        = some nRightIn ∧
      Smooth (ringLoop p).S.CeilIn.V (BuildStrip p.Segments false) (ringLoop p).S.CeilIn.N
        = some nCeilIn ∧
      Smooth (ringLoop p).S.FloorOut.V (BuildStrip p.Segments false) (ringLoop p).S.FloorOut.N
        = some nFloorOut ∧
      Smooth (ringLoop p).S.LeftOut.V (BuildStrip p.Segments true) (ringLoop p).S.LeftOut.N
        = some nLeftOut ∧
      Smooth (ringLoop p).S.RightOut.V (BuildStrip p.Segments false) (ringLoop p).S.RightOut.N
        = some nRightOut ∧
      Smooth (ringLoop p).S.CeilOut.V (BuildStrip p.Segments true) (ringLoop p).S.CeilOut.N
        = some nCeilOut := by
  have lFloorIn := ringLoop_FloorIn_lengths p
  have lLeftIn := ringLoop_LeftIn_lengths p
  have lRightIn := ringLoop_RightIn_lengths p
  have lCeilIn := ringLoop_CeilIn_lengths p
  have lFloorOut := ringLoop_FloorOut_lengths p
  have lLeftOut := ringLoop_LeftOut_lengths p
  have lRightOut := ringLoop_RightOut_lengths p
  have lCeilOut := ringLoop_CeilOut_lengths p
  obtain ⟨nFloorIn, sFloorIn, _⟩ := Smooth_ok p _ _ lFloorIn.1 lFloorIn.2.1 true
  obtain ⟨nLeftIn, sLeftIn, _⟩ := Smooth_ok p _ _ lLeftIn.1 lLeftIn.2.1 false
  obtain ⟨nRightIn, sRightIn, _⟩ := Smooth_ok p _ _ lRightIn.1 lRightIn.2.1 true
  obtain ⟨nCeilIn, sCeilIn, _⟩ := Smooth_ok p _ _ lCeilIn.1 lCeilIn.2.1 false
  obtain ⟨nFloorOut, sFloorOut, _⟩ := Smooth_ok p _ _ lFloorOut.1 lFloorOut.2.1 false
  obtain ⟨nLeftOut, sLeftOut, _⟩ := Smooth_ok p _ _ lLeftOut.1 lLeftOut.2.1 true
  obtain ⟨nRightOut, sRightOut, _⟩ := Smooth_ok p _ _ lRightOut.1 lRightOut.2.1 false
  obtain ⟨nCeilOut, sCeilOut, _⟩ := Smooth_ok p _ _ lCeilOut.1 lCeilOut.2.1 true
  exact ⟨_, _, _, _, _, _, _, _,
    BuildMesh_smooth p hb _ _ _ _ _ _ _ _ sFloorIn sLeftIn sRightIn sCeilIn sFloorOut sLeftOut
      sRightOut sCeilOut,
    sFloorIn, sLeftIn, sRightIn, sCeilIn, sFloorOut, sLeftOut, sRightOut, sCeilOut⟩

theorem GetSafeNormal_down_ten : GetSafeNormal ⟨0, 0, -10⟩ = ⟨0, 0, -1⟩ := by
  unfold GetSafeNormal
  have e : (0 : ℝ) * 0 + 0 * 0 + -10 * -10 = 100 := by norm_num
  simp only [e]
  rw [if_neg (by norm_num), if_neg (by unfold SMALL_NUMBER; norm_num)]
  unfold InvSqrt
  rw [sqrt_hundred]
  ext <;> norm_num

theorem GetSafeNormal_down_unit : GetSafeNormal ⟨0, 0, -1⟩ = ⟨0, 0, -1⟩ :=
  GetSafeNormal_of_unit _ (by simp [SizeSquared])

theorem GetSafeNormal_zero : GetSafeNormal ⟨0, 0, 0⟩ = ⟨0, 0, 0⟩ :=
  GetSafeNormal_of_small _ (by simp [SizeSquared, small_pos])

/-- The smoothing step on the inner floor strip of the scenario: both face normals are
(0,0,-1); added to the flat normals (0,0,1), which `SetNumZeroed` keeps, they give (0,0,0) at
the two vertices used by one triangle and (0,0,-1) at the two vertices used by both. -/
theorem scenario_Smooth_FloorIn :
    Smooth [⟨0, -(1 / 2), 0⟩, ⟨0, 1 / 2, 0⟩, ⟨10, -(1 / 2), 0⟩, ⟨10, 1 / 2, 0⟩]
      [0, 1, 2, 2, 1, 3] [⟨0, 0, 1⟩, ⟨0, 0, 1⟩, ⟨0, 0, 1⟩, ⟨0, 0, 1⟩]
      = some [⟨0, 0, 0⟩, ⟨0, 0, -1⟩, ⟨0, 0, -1⟩, ⟨0, 0, 0⟩] := by
  have x1 : CrossProduct ((⟨0, 1 / 2, 0⟩ : FVector) - ⟨0, -(1 / 2), 0⟩)
      (⟨10, -(1 / 2), 0⟩ - ⟨0, -(1 / 2), 0⟩) = ⟨0, 0, -10⟩ := by
    ext
    · simp [CrossProduct]
    · simp [CrossProduct]
    · simp [CrossProduct]; norm_num
  have x2 : CrossProduct ((⟨0, 1 / 2, 0⟩ : FVector) - ⟨10, -(1 / 2), 0⟩)
      (⟨10, 1 / 2, 0⟩ - ⟨10, -(1 / 2), 0⟩) = ⟨0, 0, -10⟩ := by
    ext
    · simp [CrossProduct]
    · simp [CrossProduct]
    · simp [CrossProduct]; norm_num
  have a1 : (⟨0, 0, 1⟩ : FVector) + ⟨0, 0, -1⟩ = ⟨0, 0, 0⟩ := by ext <;> simp
  have a2 : (⟨0, 0, 0⟩ : FVector) + ⟨0, 0, -1⟩ = ⟨0, 0, -1⟩ := by ext <;> simp
  unfold Smooth
  have hz : SetNumZeroed [⟨0, 0, 1⟩, ⟨0, 0, 1⟩, ⟨0, 0, 1⟩, ⟨0, 0, 1⟩] 4
      = [⟨0, 0, 1⟩, ⟨0, 0, 1⟩, ⟨0, 0, 1⟩, ⟨0, 0, 1⟩] :=
    SetNumZeroed_same [⟨0, 0, 1⟩, ⟨0, 0, 1⟩, ⟨0, 0, 1⟩, ⟨0, 0, 1⟩] 4 (by rfl)
  show Option.map _ (SmoothAccum _ _ (SetNumZeroed _ 4)) = _
  rw [hz]
  simp only [SmoothAccum, AddAt, List.getElem?_cons_zero, List.getElem?_cons_succ, x1, x2,
    GetSafeNormal_down_ten, Option.bind_some, Option.some_bind, List.set_cons_zero,
    List.set_cons_succ, a1, a2, Option.map_some', List.map_cons, List.map_nil,
    GetSafeNormal_down_unit, GetSafeNormal_zero]

/-- Claim C2, evaluated on the code.  For length 10, curve 0, drop 0, half-width 0.5, ceiling
height 2.5, wall thickness 0 and one segment, the inner floor section has the 4 vertices
(0,-0.5,0), (0,0.5,0), (10,-0.5,0), (10,0.5,0) and the 6 indices 0,1,2,2,1,3 whatever the
smoothing flag.  With the flag off its normals are all (0,0,1).  With the flag on (the
default) its normals are (0,0,0), (0,0,-1), (0,0,-1), (0,0,0). -/
theorem scenario_floor_inner_section :
    (∃ m, BuildMesh (scenario true) = some m ∧
      m.FloorIn.V = [⟨0, -(1 / 2), 0⟩, ⟨0, 1 / 2, 0⟩, ⟨10, -(1 / 2), 0⟩, ⟨10, 1 / 2, 0⟩] ∧
      m.FloorIn.I = [0, 1, 2, 2, 1, 3] ∧
      m.FloorIn.N = [⟨0, 0, 0⟩, ⟨0, 0, -1⟩, ⟨0, 0, -1⟩, ⟨0, 0, 0⟩]) ∧
    (∃ m, BuildMesh (scenario false) = some m ∧
      m.FloorIn.V = [⟨0, -(1 / 2), 0⟩, ⟨0, 1 / 2, 0⟩, ⟨10, -(1 / 2), 0⟩, ⟨10, 1 / 2, 0⟩] ∧
      m.FloorIn.I = [0, 1, 2, 2, 1, 3] ∧
      m.FloorIn.N = [⟨0, 0, 1⟩, ⟨0, 0, 1⟩, ⟨0, 0, 1⟩, ⟨0, 0, 1⟩]) := by
  constructor
  · obtain ⟨hV, hN, hI⟩ := scenario_FloorIn_arrays true
    obtain ⟨n1, n2, n3, n4, n5, n6, n7, n8, hm, hs, _⟩ :=
      BuildMesh_smooth_normals (scenario true) rfl
    rw [hV, hN, hI, scenario_Smooth_FloorIn] at hs
    refine ⟨_, hm, hV, hI, ?_⟩
    exact (Option.some.inj hs).symm
  · obtain ⟨hV, hN, hI⟩ := scenario_FloorIn_arrays false
    exact ⟨_, BuildMesh_flat (scenario false) rfl, hV, hI, hN⟩

/-- Claim C3 as stated fails: in the scenario (straight, length 10, half-width 0.5, ceiling
height 2.5, one segment) the first triangle of the inner floor strip has the face normal
(0,0,-10), whose dot product with the flat normal (0,0,1) of each of its vertices is -10,
not strictly positive. -/
theorem scenario_floor_winding_counterexample :
    (scenario false).CurveDegrees = 0 ∧ 0 < (scenario false).LengthMeters ∧
    0 < (scenario false).HalfWidth ∧ 0 < (scenario false).CeilingHeight ∧
    (1 : Int) ≤ (scenario false).Segments ∧
    ∃ m, BuildMesh (scenario false) = some m ∧
      triangleDots m.FloorIn 0 = some (-10, -10, -10) ∧ ¬ (0 : ℝ) < -10 := by
  obtain ⟨_, _, _, hL, hW, hH, _⟩ := scenario_straightBuild false
  refine ⟨rfl, hL, hW, hH, le_refl _, _, BuildMesh_flat (scenario false) rfl, ?_, by norm_num⟩
  obtain ⟨l0, r0, l1, r1, f0, f1⟩ := scenario_floor false
  have hV : (ringLoop (scenario false)).S.FloorIn.V
      = pairs (ringLb (scenario false)) (ringRb (scenario false)) (1 + 1) := by
    rw [ringLoop_eq_fold (scenario false) 1 rfl]; exact (ringFold_FloorIn _ _).1
  have hN : (ringLoop (scenario false)).S.FloorIn.N
      = pairs (ringNFloor (scenario false)) (ringNFloor (scenario false)) (1 + 1) := by
    rw [ringLoop_eq_fold (scenario false) 1 rfl]; exact (ringFold_FloorIn _ _).2.1
  have ht := (triangleDots_across
    (assemble (scenario false) (ringLoop (scenario false)).S.FloorIn.N
      (ringLoop (scenario false)).S.LeftIn.N (ringLoop (scenario false)).S.RightIn.N
      (ringLoop (scenario false)).S.CeilIn.N (ringLoop (scenario false)).S.FloorOut.N
      (ringLoop (scenario false)).S.LeftOut.N (ringLoop (scenario false)).S.RightOut.N
      (ringLoop (scenario false)).S.CeilOut.N).FloorIn
    (ringLb (scenario false)) (ringRb (scenario false)) (ringNFloor (scenario false)) 1 0
    (by decide) hV hN rfl).1
  rw [show 2 * 0 = 0 by rfl, l0, r0, l1, f0, f1] at ht
  rw [ht]
  simp only [dots3, DotProduct, CrossProduct, FVector.sub_X, FVector.sub_Y, FVector.sub_Z]
  norm_num

/-! ## Indices emitted by `BuildStrip` -/

theorem stripSix_mem_lt (b : Bool) (s x : Nat) (h : x ∈ stripSix b s) : x < 2 * s + 4 := by
  cases b <;> simp [stripSix] at h <;> omega

theorem stripFold_mem_lt (b : Bool) (k x : Nat) (h : x ∈ stripFold b k) : x < 2 * k + 2 := by
  induction k with
  | zero => simp [stripFold] at h
  | succ k ih =>
    rw [stripFold_succ, List.mem_append] at h
    rcases h with h | h
    · have := ih h
      omega
    · have := stripSix_mem_lt b k x h
      omega

/-- The three indices of each of the two triangles of segment `s`. -/
theorem stripFold_triangle (b : Bool) (M t : Nat) (ht : t < 2 * M) :
    ∃ i j k, (stripFold b M)[3 * t]? = some i ∧ (stripFold b M)[3 * t + 1]? = some j ∧
      (stripFold b M)[3 * t + 2]? = some k ∧
      i < 2 * (M + 1) ∧ j < 2 * (M + 1) ∧ k < 2 * (M + 1) ∧ i ≠ j ∧ j ≠ k ∧ i ≠ k := by
  have hs : t / 2 < M := by omega
  have i0 := stripFold_get b M (t / 2) 0 hs (by omega)
  have i1 := stripFold_get b M (t / 2) 1 hs (by omega)
  have i2 := stripFold_get b M (t / 2) 2 hs (by omega)
  have i3 := stripFold_get b M (t / 2) 3 hs (by omega)
  have i4 := stripFold_get b M (t / 2) 4 hs (by omega)
  have i5 := stripFold_get b M (t / 2) 5 hs (by omega)
  have ht2 : t = 2 * (t / 2) ∨ t = 2 * (t / 2) + 1 := by omega
  cases b <;>
    simp only [stripSix, Bool.false_eq_true, if_false, if_true, List.getElem?_cons_zero,
      List.getElem?_cons_succ] at i0 i1 i2 i3 i4 i5
  · rcases ht2 with h2 | h2
    · rw [show 3 * t = 6 * (t / 2) + 0 by omega,
        show 6 * (t / 2) + 0 + 1 = 6 * (t / 2) + 1 by omega,
        show 6 * (t / 2) + 0 + 2 = 6 * (t / 2) + 2 by omega, i0, i1, i2]
      exact ⟨_, _, _, rfl, rfl, rfl, by omega, by omega, by omega, by omega, by omega, by omega⟩
    · rw [show 3 * t = 6 * (t / 2) + 3 by omega,
        show 6 * (t / 2) + 3 + 1 = 6 * (t / 2) + 4 by omega,
        show 6 * (t / 2) + 3 + 2 = 6 * (t / 2) + 5 by omega, i3, i4, i5]
      exact ⟨_, _, _, rfl, rfl, rfl, by omega, by omega, by omega, by omega, by omega, by omega⟩
  · rcases ht2 with h2 | h2
    · rw [show 3 * t = 6 * (t / 2) + 0 by omega,
        show 6 * (t / 2) + 0 + 1 = 6 * (t / 2) + 1 by omega,
        show 6 * (t / 2) + 0 + 2 = 6 * (t / 2) + 2 by omega, i0, i1, i2]
      exact ⟨_, _, _, rfl, rfl, rfl, by omega, by omega, by omega, by omega, by omega, by omega⟩
    · rw [show 3 * t = 6 * (t / 2) + 3 by omega,
        show 6 * (t / 2) + 3 + 1 = 6 * (t / 2) + 4 by omega,
        show 6 * (t / 2) + 3 + 2 = 6 * (t / 2) + 5 by omega, i3, i4, i5]
      exact ⟨_, _, _, rfl, rfl, rfl, by omega, by omega, by omega, by omega, by omega, by omega⟩

/-- Claim C19.  For every Segments = N ≥ 1 and either winding pattern, every index emitted by
`BuildStrip` is below 2·(N+1), the three indices of each of the 2·N triangles are in range
and pairwise distinct, and `Smooth` run on arrays of 2·(N+1) vertices and normals with these
indices makes no out-of-range access. -/
theorem BuildStrip_indices_valid (N : Nat) (hN : 1 ≤ N) (b : Bool) :
    (∀ x ∈ BuildStrip (N : Int) b, x < 2 * (N + 1)) ∧
    (∀ t, t < 2 * N → ∃ i j k, (BuildStrip (N : Int) b)[3 * t]? = some i ∧
      (BuildStrip (N : Int) b)[3 * t + 1]? = some j ∧
      (BuildStrip (N : Int) b)[3 * t + 2]? = some k ∧
      i < 2 * (N + 1) ∧ j < 2 * (N + 1) ∧ k < 2 * (N + 1) ∧ i ≠ j ∧ j ≠ k ∧ i ≠ k) ∧
    (∀ V Nn : List FVector, V.length = 2 * (N + 1) → Nn.length = 2 * (N + 1) →
      ∃ n, Smooth V (BuildStrip (N : Int) b) Nn = some n ∧ n.length = 2 * (N + 1)) := by
  have hN2 : ((N : Int)).toNat = N := by omega
  rw [BuildStrip_eq, hN2]
  refine ⟨?_, ?_, ?_⟩
  · intro x hx
    have := stripFold_mem_lt b N x hx
    omega
  · intro t ht
    exact stripFold_triangle b N t ht
  · intro V Nn hV hNn
    exact Smooth_some V _ Nn _ hV hNn (stripFold_inRange b _ N (Or.inr (by omega)))

/-- Witness for claim C19 at one segment with the "across" pattern. -/
theorem BuildStrip_indices_valid_witness :
    (∀ x ∈ BuildStrip ((1 : Nat) : Int) true, x < 2 * (1 + 1)) ∧
    (∀ t, t < 2 * 1 → ∃ i j k, (BuildStrip ((1 : Nat) : Int) true)[3 * t]? = some i ∧
      (BuildStrip ((1 : Nat) : Int) true)[3 * t + 1]? = some j ∧
      (BuildStrip ((1 : Nat) : Int) true)[3 * t + 2]? = some k ∧
      i < 2 * (1 + 1) ∧ j < 2 * (1 + 1) ∧ k < 2 * (1 + 1) ∧ i ≠ j ∧ j ≠ k ∧ i ≠ k) ∧
    (∀ V Nn : List FVector, V.length = 2 * (1 + 1) → Nn.length = 2 * (1 + 1) →
      ∃ n, Smooth V (BuildStrip ((1 : Nat) : Int) true) Nn = some n ∧ n.length = 2 * (1 + 1)) :=
  BuildStrip_indices_valid 1 (by decide) true

/-! ## Smoothing leaves everything but the normals -/

theorem ringLoop_flag (p : Params) (b : Bool) :
    ringLoop { p with bSmoothNormals := b } = ringLoop p := rfl

/-- Claim C18.  For every parameter set, the build with the smoothing flag on and the build
with it off both return, and section by section they have identical vertex positions,
triangle indices, tangents and UVs. -/
theorem smoothing_changes_normals_only (p : Params) :
    ∃ m1 m2, BuildMesh { p with bSmoothNormals := true } = some m1 ∧
      BuildMesh { p with bSmoothNormals := false } = some m2 ∧
      ∀ pr ∈ m1.toList.zip m2.toList,
        pr.1.V = pr.2.V ∧ pr.1.I = pr.2.I ∧ pr.1.Tan = pr.2.Tan ∧ pr.1.UV = pr.2.UV := by
  obtain ⟨a1, a2, a3, a4, a5, a6, a7, a8, hm1, _⟩ :=
    BuildMesh_some { p with bSmoothNormals := true }
  obtain ⟨b1, b2, b3, b4, b5, b6, b7, b8, hm2, _⟩ :=
    BuildMesh_some { p with bSmoothNormals := false }
  refine ⟨_, _, hm1, hm2, ?_⟩
  intro pr hpr
  simp only [Sections.toList, assemble, List.zip_cons_cons, List.zip_nil_right, List.mem_cons,
    List.mem_singleton, List.not_mem_nil, or_false] at hpr
  have e1 := ringLoop_flag p true
  have e2 := ringLoop_flag p false
  rcases hpr with h | h | h | h | h | h | h | h <;> subst h <;>
    (refine ⟨?_, ?_, ?_, ?_⟩ <;> simp only [e1, e2])

/-! ## Corner seams -/

/-- The positions stored for ring `i` in the position array of each strip. -/
theorem ring_positions (p : Params) (N : Nat) (hS : p.Segments = (N : Int)) (i : Nat)
    (hi : i ≤ N) :
    ((ringLoop p).S.FloorIn.V[2 * i]? = some (ringLb p i) ∧
     (ringLoop p).S.FloorIn.V[2 * i + 1]? = some (ringRb p i) ∧
     (ringLoop p).S.LeftIn.V[2 * i]? = some (ringLb p i) ∧
     (ringLoop p).S.LeftIn.V[2 * i + 1]? = some (ringLt p i) ∧
     (ringLoop p).S.RightIn.V[2 * i]? = some (ringRb p i) ∧
     (ringLoop p).S.RightIn.V[2 * i + 1]? = some (ringRt p i) ∧
     (ringLoop p).S.CeilIn.V[2 * i]? = some (ringLt p i) ∧
     (ringLoop p).S.CeilIn.V[2 * i + 1]? = some (ringRt p i)) ∧
    ((ringLoop p).S.FloorOut.V[2 * i]? = some (ringLbOut p i) ∧
     (ringLoop p).S.FloorOut.V[2 * i + 1]? = some (ringRbOut p i) ∧
     (ringLoop p).S.LeftOut.V[2 * i]? = some (ringLbOut p i) ∧
     (ringLoop p).S.LeftOut.V[2 * i + 1]? = some (ringLtOut p i) ∧
     (ringLoop p).S.RightOut.V[2 * i]? = some (ringRbOut p i) ∧
     (ringLoop p).S.RightOut.V[2 * i + 1]? = some (ringRtOut p i) ∧
     (ringLoop p).S.CeilOut.V[2 * i]? = some (ringLtOut p i) ∧
     (ringLoop p).S.CeilOut.V[2 * i + 1]? = some (ringRtOut p i)) := by
  have hi2 : i < N + 1 := by omega
  rw [ringLoop_eq_fold p N hS, (ringFold_FloorIn p _).1, (ringFold_LeftIn p _).1,
    (ringFold_RightIn p _).1, (ringFold_CeilIn p _).1, (ringFold_FloorOut p _).1,
    (ringFold_LeftOut p _).1, (ringFold_RightOut p _).1, (ringFold_CeilOut p _).1]
  exact ⟨⟨pairs_get_even _ _ _ _ hi2, pairs_get_odd _ _ _ _ hi2, pairs_get_even _ _ _ _ hi2,
      pairs_get_odd _ _ _ _ hi2, pairs_get_even _ _ _ _ hi2, pairs_get_odd _ _ _ _ hi2,
      pairs_get_even _ _ _ _ hi2, pairs_get_odd _ _ _ _ hi2⟩,
    ⟨pairs_get_even _ _ _ _ hi2, pairs_get_odd _ _ _ _ hi2, pairs_get_even _ _ _ _ hi2,
      pairs_get_odd _ _ _ _ hi2, pairs_get_even _ _ _ _ hi2, pairs_get_odd _ _ _ _ hi2,
      pairs_get_even _ _ _ _ hi2, pairs_get_odd _ _ _ _ hi2⟩⟩

/-- Claim C11.  For every parameter set (any wall thickness) with Segments = N and every ring
index i ≤ N, the sections `BuildMesh` returns store one and the same position for each shared
corner: Floor[2i] = Left[2i], Floor[2i+1] = Right[2i], Left[2i+1] = Ceiling[2i] and
Right[2i+1] = Ceiling[2i+1], among the four inner strips and among the four outer strips. -/
theorem corner_seams_closed (p : Params) (N : Nat) (hS : p.Segments = (N : Int)) (i : Nat)
    (hi : i ≤ N) :
    ∃ m, BuildMesh p = some m ∧
      (∃ lb rb lt rt,
        m.FloorIn.V[2 * i]? = some lb ∧ m.LeftIn.V[2 * i]? = some lb ∧
        m.FloorIn.V[2 * i + 1]? = some rb ∧ m.RightIn.V[2 * i]? = some rb ∧
        m.LeftIn.V[2 * i + 1]? = some lt ∧ m.CeilIn.V[2 * i]? = some lt ∧
        m.RightIn.V[2 * i + 1]? = some rt ∧ m.CeilIn.V[2 * i + 1]? = some rt) ∧
      (∃ lb rb lt rt,
        m.FloorOut.V[2 * i]? = some lb ∧ m.LeftOut.V[2 * i]? = some lb ∧
        m.FloorOut.V[2 * i + 1]? = some rb ∧ m.RightOut.V[2 * i]? = some rb ∧
        m.LeftOut.V[2 * i + 1]? = some lt ∧ m.CeilOut.V[2 * i]? = some lt ∧
        m.RightOut.V[2 * i + 1]? = some rt ∧ m.CeilOut.V[2 * i + 1]? = some rt) := by
  obtain ⟨n1, n2, n3, n4, n5, n6, n7, n8, hm, _⟩ := BuildMesh_some p
  obtain ⟨⟨a1, a2, a3, a4, a5, a6, a7, a8⟩, ⟨b1, b2, b3, b4, b5, b6, b7, b8⟩⟩ :=
    ring_positions p N hS i hi
  exact ⟨_, hm, ⟨_, _, _, _, a1, a3, a2, a5, a4, a7, a6, a8⟩,
    ⟨_, _, _, _, b1, b3, b2, b5, b4, b7, b6, b8⟩⟩

/-- Witness for claim C11 at the default parameters, last ring. -/
theorem corner_seams_closed_witness :
    ∃ m, BuildMesh Params.defaults = some m ∧
      (∃ lb rb lt rt,
        m.FloorIn.V[2 * 32]? = some lb ∧ m.LeftIn.V[2 * 32]? = some lb ∧
        m.FloorIn.V[2 * 32 + 1]? = some rb ∧ m.RightIn.V[2 * 32]? = some rb ∧
        m.LeftIn.V[2 * 32 + 1]? = some lt ∧ m.CeilIn.V[2 * 32]? = some lt ∧
        m.RightIn.V[2 * 32 + 1]? = some rt ∧ m.CeilIn.V[2 * 32 + 1]? = some rt) ∧
      (∃ lb rb lt rt,
        m.FloorOut.V[2 * 32]? = some lb ∧ m.LeftOut.V[2 * 32]? = some lb ∧
        m.FloorOut.V[2 * 32 + 1]? = some rb ∧ m.RightOut.V[2 * 32]? = some rb ∧
        m.LeftOut.V[2 * 32 + 1]? = some lt ∧ m.CeilOut.V[2 * 32]? = some lt ∧
        m.RightOut.V[2 * 32 + 1]? = some rt ∧ m.CeilOut.V[2 * 32 + 1]? = some rt) :=
  corner_seams_closed Params.defaults 32 rfl 32 (le_refl _)

/-! ## The frame never degenerates -/

theorem sizeSquared_of_size (V : FVector) (h : Size V = 1) : SizeSquared V = 1 := by
  unfold Size at h
  unfold SizeSquared
  have h2 := Real.sqrt_eq_one.mp h
  exact h2

/-- Claim C15.  For every unit tangent T the side vector the frame step computes,
normalize(Up × T) or else normalize(Forward × T), has unit length and is perpendicular to T,
and the floor normal normalize(T × Side) has unit length.  When Up × T is the zero vector
(T parallel or anti-parallel to Up) the side vector is the one of the fallback. -/
theorem frame_never_degenerate (T : FVector) (hT : Size T = 1) :
    Size (frameSide T) = 1 ∧ DotProduct (frameSide T) T = 0 ∧
    Size (GetSafeNormal (CrossProduct T (frameSide T))) = 1 ∧
    (CrossProduct UpVector T = ZeroVector →
      frameSide T = GetSafeNormal (CrossProduct ForwardVector T)) := by
  have hT2 := sizeSquared_of_size T hT
  obtain ⟨hs, hd⟩ := frameSide_unit T hT2
  refine ⟨Size_eq_one_of_sizeSquared _ hs, ?_, Size_eq_one_of_sizeSquared _ (floorNormal_unit T hT2),
    ?_⟩
  · simp only [DotProduct] at hd ⊢
    linarith
  · intro hz
    unfold frameSide
    rw [hz]
    have h0 : GetSafeNormal ZeroVector = ZeroVector :=
      GetSafeNormal_of_small _ (by simp [SizeSquared, ZeroVector, small_pos])
    rw [h0, if_pos nearlyZero_zero_vector]

/-- Witness for claim C15 at T = Up, where Up × T is the zero vector. -/
theorem frame_never_degenerate_witness :
    Size (frameSide UpVector) = 1 ∧ DotProduct (frameSide UpVector) UpVector = 0 ∧
    Size (GetSafeNormal (CrossProduct UpVector (frameSide UpVector))) = 1 ∧
    (CrossProduct UpVector UpVector = ZeroVector →
      frameSide UpVector = GetSafeNormal (CrossProduct ForwardVector UpVector)) :=
  frame_never_degenerate UpVector (by simp [Size, UpVector])

/-! ## Zero segments -/

theorem ringU_zero (p : Params) : ringU p 0 = 0 := by simp [ringU, accumAt]

theorem ringUVs_one (p : Params) : ringUVs p 1 = [⟨0, 0⟩, ⟨0, 1⟩] := by
  simp [ringUVs, pairs, ringU_zero]

/-- Claim C12.  With Segments = 0 the ring loop is exactly one run of its body, for ring 0,
sampled at t = 0 and leaving `AccumLen` at 0; `BuildMesh` returns (no out-of-range access in
`Smooth`); each of the eight sections has exactly 2 positions, normals, tangents and UVs and
no index; and the floor and ceiling UVs are the unscaled `(0,0), (0,1)`: the total U is 0
and `NormalizeU` leaves the array as it is. -/
theorem zero_segments_build (p : Params) (hS : p.Segments = 0) :
    ringLoop p = ringBody p RingState.init 0 ∧
    (ringLoop p).PrevCenter = (SampleCenterline p 0).1 ∧
    (ringLoop p).AccumLen = 0 ∧
    NormalizeU [⟨0, 0⟩, ⟨0, 1⟩] = [⟨0, 0⟩, ⟨0, 1⟩] ∧
    ∃ m, BuildMesh p = some m ∧
      (∀ S ∈ m.toList, S.V.length = 2 ∧ S.N.length = 2 ∧ S.Tan.length = 2 ∧
        S.UV.length = 2 ∧ S.I = []) ∧
      (∀ S ∈ [m.FloorIn, m.FloorOut, m.CeilIn, m.CeilOut], S.UV = [⟨0, 0⟩, ⟨0, 1⟩]) := by
  have hS2 : p.Segments = ((0 : Nat) : Int) := by rw [hS]; rfl
  have hK : (p.Segments + 1).toNat = 1 := by rw [hS]; rfl
  have hfold := ringLoop_eq_fold p 0 hS2
  have hT : ringT p 0 = 0 := by simp [ringT]
  have hskip : NormalizeU (ringUVs p 1) = ringUVs p 1 :=
    NormalizeU_ringUVs_skip p 0 (by rw [ringU_zero]) (by rw [ringU_zero]; exact small_pos.le)
  rw [ringUVs_one] at hskip
  refine ⟨?_, ?_, ?_, hskip, ?_⟩
  · rw [hfold, ringFold_succ]; rfl
  · rw [hfold, (ringFold_accum p 0).2]
    unfold ringC
    rw [hT]
  · rw [hfold, (ringFold_accum p 0).1]; rfl
  · obtain ⟨n1, n2, n3, n4, n5, n6, n7, n8, hm, k1, k2, k3, k4, k5, k6, k7, k8⟩ :=
      BuildMesh_some p
    rw [hK] at k1 k2 k3 k4 k5 k6 k7 k8
    have lFloorIn := ringLoop_FloorIn_lengths p
    have lLeftIn := ringLoop_LeftIn_lengths p
    have lRightIn := ringLoop_RightIn_lengths p
    have lCeilIn := ringLoop_CeilIn_lengths p
    have lFloorOut := ringLoop_FloorOut_lengths p
    have lLeftOut := ringLoop_LeftOut_lengths p
    have lRightOut := ringLoop_RightOut_lengths p
    have lCeilOut := ringLoop_CeilOut_lengths p
    rw [hK] at lFloorIn lLeftIn lRightIn lCeilIn lFloorOut lLeftOut lRightOut lCeilOut
    have hI : ∀ b, BuildStrip p.Segments b = [] := by
      intro b
      rw [BuildStrip_eq, hS]
      rfl
    have e1 : (ringLoop p).S.FloorIn.UV = ringUVs p 1 := by
      rw [hfold]; exact (ringFold_FloorIn p _).2.2.2.1
    have e2 : (ringLoop p).S.FloorOut.UV = ringUVs p 1 := by
      rw [hfold]; exact (ringFold_FloorOut p _).2.2.2.1
    have e3 : (ringLoop p).S.CeilIn.UV = ringUVs p 1 := by
      rw [hfold]; exact (ringFold_CeilIn p _).2.2.2.1
    have e4 : (ringLoop p).S.CeilOut.UV = ringUVs p 1 := by
      rw [hfold]; exact (ringFold_CeilOut p _).2.2.2.1
    refine ⟨_, hm, ?_, ?_⟩
    · intro S hmem
      simp only [Sections.toList, assemble, List.mem_cons, List.mem_singleton,
        List.not_mem_nil, or_false] at hmem
      rcases hmem with h | h | h | h | h | h | h | h <;> subst h <;>
        simp only [NormalizeU_length, hI, k1, k2, k3, k4, k5, k6, k7, k8, lFloorIn, lLeftIn,
          lRightIn, lCeilIn, lFloorOut, lLeftOut, lRightOut, lCeilOut, and_self]
    · intro S hmem
      simp only [assemble, List.mem_cons, List.mem_singleton, List.not_mem_nil,
        or_false] at hmem
      rcases hmem with h | h | h | h <;> subst h <;>
        simp only [e1, e2, e3, e4, ringUVs_one, hskip]

/-- Witness for claim C12 at the default parameters with Segments set to 0. -/
theorem zero_segments_build_witness :
    ringLoop { Params.defaults with Segments := 0 }
      = ringBody { Params.defaults with Segments := 0 } RingState.init 0 ∧
    (ringLoop { Params.defaults with Segments := 0 }).PrevCenter
      = (SampleCenterline { Params.defaults with Segments := 0 } 0).1 ∧
    (ringLoop { Params.defaults with Segments := 0 }).AccumLen = 0 ∧
    NormalizeU [⟨0, 0⟩, ⟨0, 1⟩] = [⟨0, 0⟩, ⟨0, 1⟩] ∧
    ∃ m, BuildMesh { Params.defaults with Segments := 0 } = some m ∧
      (∀ S ∈ m.toList, S.V.length = 2 ∧ S.N.length = 2 ∧ S.Tan.length = 2 ∧
        S.UV.length = 2 ∧ S.I = []) ∧
      (∀ S ∈ [m.FloorIn, m.FloorOut, m.CeilIn, m.CeilOut], S.UV = [⟨0, 0⟩, ⟨0, 1⟩]) :=
  zero_segments_build { Params.defaults with Segments := 0 } rfl

/-! ## The frame at a ring -/

theorem ring_stored (p : Params) (N : Nat) (hS : p.Segments = (N : Int)) (i : Nat)
    (hi : i ≤ N) : RingStored p i := by
  obtain ⟨⟨a1, a2, _, _, _, _, a7, a8⟩, ⟨b1, b2, _, _, _, _, b7, b8⟩⟩ :=
    ring_positions p N hS i hi
  have hi2 : i < N + 1 := by omega
  refine ⟨⟨a1, a2, a7, a8, b1, b2, b7, b8⟩, ?_, ?_, ?_⟩
  · rw [ringLoop_eq_fold p N hS, (ringFold_FloorIn p _).2.1]
    exact pairs_get_even _ _ _ _ hi2
  · rw [ringLoop_eq_fold p N hS, (ringFold_LeftIn p _).2.1]
    exact pairs_get_even _ _ _ _ hi2
  · rw [ringLoop_eq_fold p N hS, (ringFold_FloorIn p _).2.2.1]
    exact pairs_get_even _ _ _ _ hi2

theorem InvSqrt_one : InvSqrt 1 = 1 := by simp [InvSqrt]

/-- A vector whose squared length `s` is not below the tolerance is scaled by `InvSqrt s`. -/
theorem GetSafeNormal_eq_scaled (V : FVector) (s : ℝ) (hs : SizeSquared V = s)
    (h : SMALL_NUMBER ≤ s) :
    GetSafeNormal V = ⟨V.X * InvSqrt s, V.Y * InvSqrt s, V.Z * InvSqrt s⟩ := by
  unfold SizeSquared at hs
  unfold GetSafeNormal
  simp only [hs]
  by_cases h1 : s = 1
  · rw [if_pos h1, h1, InvSqrt_one]
    ext <;> simp
  · rw [if_neg h1, if_neg (not_lt.mpr h)]

/-- With `length² + drop²` above the tolerance, the sampled tangent has the vertical
component `drop·κ` and the squared horizontal length `length²·κ²`, `κ` being the inverse
norm of (length, 0, drop). -/
theorem tangent_components (p : Params) (t : ℝ)
    (hn : SMALL_NUMBER < p.LengthMeters * p.LengthMeters + p.DropDepthMeters * p.DropDepthMeters) :
    (SampleCenterline p t).2.Z = p.DropDepthMeters * tangentScale p ∧
    (SampleCenterline p t).2.X * (SampleCenterline p t).2.X
      + (SampleCenterline p t).2.Y * (SampleCenterline p t).2.Y
      = p.LengthMeters * p.LengthMeters * (tangentScale p * tangentScale p) := by
  by_cases h : IsNearlyZero (DegreesToRadians p.CurveDegrees) (1 / 1000000)
  · rw [SampleCenterline_straight p t h]
    have hn2 : SMALL_NUMBER <
        p.LengthMeters * p.LengthMeters + 0 * 0 + p.DropDepthMeters * p.DropDepthMeters := by
      simpa using hn
    simp only [Normalize, gt_iff_lt, hn2, if_true, tangentScale]
    constructor
    · simp
    · simp only [mul_zero, add_zero, zero_mul]
      ring
  · rw [SampleCenterline_curved p t h]
    rw [GetSafeNormal_eq_scaled _ _ (curved_dXY_sizeSquared _ _ _ _) hn.le]
    have hcs := Real.sin_sq_add_cos_sq (DegreesToRadians p.CurveDegrees * t)
    refine ⟨rfl, ?_⟩
    by_cases hc : p.CurveDegrees < 0
    · simp only [if_pos hc, tangentScale]
      linear_combination p.LengthMeters * p.LengthMeters
        * (InvSqrt (p.LengthMeters * p.LengthMeters + p.DropDepthMeters * p.DropDepthMeters)
          * InvSqrt (p.LengthMeters * p.LengthMeters + p.DropDepthMeters * p.DropDepthMeters))
        * hcs
    · simp only [if_neg hc, tangentScale]
      linear_combination p.LengthMeters * p.LengthMeters
        * (InvSqrt (p.LengthMeters * p.LengthMeters + p.DropDepthMeters * p.DropDepthMeters)
          * InvSqrt (p.LengthMeters * p.LengthMeters + p.DropDepthMeters * p.DropDepthMeters))
        * hcs

theorem tangentScale_eq_inv (p : Params) :
    tangentScale p
      = 1 / Real.sqrt (p.LengthMeters * p.LengthMeters + p.DropDepthMeters * p.DropDepthMeters) :=
  rfl

/-- When `Up × T` is long enough to be normalised the side vector is horizontal. -/
theorem frameSide_horizontal (T : FVector) (h : SMALL_NUMBER ≤ T.X * T.X + T.Y * T.Y) :
    (frameSide T).Z = 0 := by
  have hsz : SMALL_NUMBER ≤ SizeSquared (CrossProduct UpVector T) := by
    simp only [SizeSquared, CrossProduct, UpVector]
    nlinarith
  have hu := GetSafeNormal_sizeSquared _ hsz
  unfold frameSide
  rw [if_neg (not_nearlyZero_of_unit _ hu)]
  obtain ⟨k, hk⟩ := GetSafeNormal_eq_scale (CrossProduct UpVector T)
  rw [hk]
  simp [CrossProduct, UpVector]

/-- On a path that is not nearly vertical the side vector of every ring is horizontal. -/
theorem ringSide_horizontal (p : Params) (i : Nat)
    (hn : SMALL_NUMBER < p.LengthMeters * p.LengthMeters + p.DropDepthMeters * p.DropDepthMeters)
    (hflat : SMALL_NUMBER
        * (p.LengthMeters * p.LengthMeters + p.DropDepthMeters * p.DropDepthMeters)
        ≤ p.LengthMeters * p.LengthMeters) :
    (ringSide p i).Z = 0 := by
  obtain ⟨hk, hk1⟩ := tangentScale_spec p hn
  apply frameSide_horizontal
  have hxy := (tangent_components p (ringT p i) hn).2
  unfold ringTan
  rw [hxy]
  have := mul_le_mul_of_nonneg_left hflat (mul_self_nonneg (tangentScale p))
  nlinarith [hk1]

theorem Size_UpVector : Size UpVector = 1 := by simp [Size, UpVector]

/-- Claim C14, amended.  At every ring i ≤ N of every build with length > 0 and
`length² + drop²` above the normalisation tolerance 1e-8 (any curve angle, any drop), the
tangent T, Up and Side the builder uses each have unit length and T·Side = 0; T·Up equals
drop/√(length² + drop²), so it is 0 when drop = 0; and Up·Side = 0 whenever
`length² ≥ 1e-8·(length² + drop²)`, which always holds when drop = 0. -/
theorem ring_frame (p : Params) (N : Nat) (hS : p.Segments = (N : Int)) (i : Nat) (hi : i ≤ N)
    (hL : 0 < p.LengthMeters)
    (hn : SMALL_NUMBER < p.LengthMeters * p.LengthMeters + p.DropDepthMeters * p.DropDepthMeters) :
    RingStored p i ∧
    Size (ringTan p i) = 1 ∧ Size UpVector = 1 ∧ Size (ringSide p i) = 1 ∧
    DotProduct (ringTan p i) (ringSide p i) = 0 ∧
    DotProduct (ringTan p i) UpVector = p.DropDepthMeters
      / Real.sqrt (p.LengthMeters * p.LengthMeters + p.DropDepthMeters * p.DropDepthMeters) ∧
    (p.DropDepthMeters = 0 → DotProduct (ringTan p i) UpVector = 0 ∧
      DotProduct UpVector (ringSide p i) = 0) ∧
    (SMALL_NUMBER * (p.LengthMeters * p.LengthMeters + p.DropDepthMeters * p.DropDepthMeters)
        ≤ p.LengthMeters * p.LengthMeters → DotProduct UpVector (ringSide p i) = 0) := by
  have hT := ringTan_unit p i hn
  obtain ⟨hs, hd⟩ := frameSide_unit _ hT
  have hZ : (ringTan p i).Z = p.DropDepthMeters * tangentScale p :=
    (tangent_components p (ringT p i) hn).1
  have hUpT : DotProduct (ringTan p i) UpVector = p.DropDepthMeters
      / Real.sqrt (p.LengthMeters * p.LengthMeters + p.DropDepthMeters * p.DropDepthMeters) := by
    simp only [DotProduct, UpVector, mul_zero, mul_one, zero_add, hZ, tangentScale_eq_inv]
    ring
  have hUpS : SMALL_NUMBER
      * (p.LengthMeters * p.LengthMeters + p.DropDepthMeters * p.DropDepthMeters)
      ≤ p.LengthMeters * p.LengthMeters → DotProduct UpVector (ringSide p i) = 0 := by
    intro hflat
    simp only [DotProduct, UpVector, zero_mul, one_mul, zero_add]
    exact ringSide_horizontal p i hn hflat
  refine ⟨ring_stored p N hS i hi, Size_eq_one_of_sizeSquared _ hT, Size_UpVector,
    Size_eq_one_of_sizeSquared _ hs, hd, hUpT, ?_, hUpS⟩
  intro hD
  refine ⟨by rw [hUpT, hD]; simp, hUpS ?_⟩
  rw [hD]
  have := small_lt_one
  nlinarith [mul_self_nonneg p.LengthMeters]

/-- Witness for claim C14 (amended) at the default parameters, ring 0. -/
theorem ring_frame_witness :
    RingStored Params.defaults 0 ∧
    Size (ringTan Params.defaults 0) = 1 ∧ Size UpVector = 1 ∧
    Size (ringSide Params.defaults 0) = 1 ∧
    DotProduct (ringTan Params.defaults 0) (ringSide Params.defaults 0) = 0 ∧
    DotProduct (ringTan Params.defaults 0) UpVector = Params.defaults.DropDepthMeters
      / Real.sqrt (Params.defaults.LengthMeters * Params.defaults.LengthMeters
        + Params.defaults.DropDepthMeters * Params.defaults.DropDepthMeters) ∧
    (Params.defaults.DropDepthMeters = 0 →
      DotProduct (ringTan Params.defaults 0) UpVector = 0 ∧
      DotProduct UpVector (ringSide Params.defaults 0) = 0) ∧
    (SMALL_NUMBER * (Params.defaults.LengthMeters * Params.defaults.LengthMeters
        + Params.defaults.DropDepthMeters * Params.defaults.DropDepthMeters)
        ≤ Params.defaults.LengthMeters * Params.defaults.LengthMeters →
      DotProduct UpVector (ringSide Params.defaults 0) = 0) :=
  ring_frame Params.defaults 32 rfl 0 (by decide)
    (by simp only [Params.defaults]; norm_num)
    (by simp only [Params.defaults, SMALL_NUMBER]; norm_num)

theorem sqrt_twentyfive : Real.sqrt 25 = 5 := by
  rw [show (25 : ℝ) = 5 ^ 2 by norm_num]
  exact Real.sqrt_sq (by norm_num)

theorem climb_tangentScale : tangentScale climb = 1 / 5 := by
  show InvSqrt ((3 : ℝ) * 3 + 4 * 4) = 1 / 5
  rw [show (3 : ℝ) * 3 + 4 * 4 = 25 by norm_num]
  unfold InvSqrt
  rw [sqrt_twentyfive]

theorem climb_normalisable :
    SMALL_NUMBER < climb.LengthMeters * climb.LengthMeters
      + climb.DropDepthMeters * climb.DropDepthMeters := by
  show SMALL_NUMBER < (3 : ℝ) * 3 + 4 * 4
  unfold SMALL_NUMBER
  norm_num

/-- Claim C14 as stated fails: on the straight climb of length 3 and drop 4 the tangent stored
for ring 0 has the vertical component 4/5, so T·Up = 4/5, not 0. -/
theorem climb_tangent_not_perpendicular_counterexample :
    0 < climb.LengthMeters ∧ (1 : Int) ≤ climb.Segments ∧
    (ringLoop climb).S.FloorIn.Tan[2 * 0]? = some (ringTan climb 0) ∧
    DotProduct (ringTan climb 0) UpVector = 4 / 5 ∧ ¬ DotProduct (ringTan climb 0) UpVector = 0 := by
  have hZ : (ringTan climb 0).Z = 4 / 5 := by
    have h := (tangent_components climb (ringT climb 0) climb_normalisable).1
    rw [climb_tangentScale] at h
    rw [show (ringTan climb 0).Z = (SampleCenterline climb (ringT climb 0)).2.Z from rfl, h]
    show (4 : ℝ) * (1 / 5) = 4 / 5
    norm_num
  have hd : DotProduct (ringTan climb 0) UpVector = 4 / 5 := by
    simp only [DotProduct, UpVector, mul_zero, mul_one, zero_add, hZ]
  refine ⟨?_, ?_, (ring_stored climb 1 rfl 0 (by decide)).2.2.2, hd, ?_⟩
  · show (0 : ℝ) < 3
    norm_num
  · show (1 : Int) ≤ 1
    exact le_refl _
  · rw [hd]; norm_num

/-! ## Mitered outer corners -/

theorem floorNormal_dot_side (p : Params) (i : Nat) :
    DotProduct (ringNFloor p i) (ringSide p i) = 0 := by
  unfold ringNFloor
  obtain ⟨k, hk⟩ := GetSafeNormal_eq_scale (CrossProduct (ringTan p i) (ringSide p i))
  rw [hk]
  simp only [DotProduct, CrossProduct]
  ring

theorem sqrt_two_mul_sq (x : ℝ) : Real.sqrt (2 * (x * x)) = Real.sqrt 2 * |x| := by
  rw [Real.sqrt_mul (by norm_num : (0 : ℝ) ≤ 2), ← sq, Real.sqrt_sq_eq_abs]

/-- Claim C16, amended.  For every parameter set with length > 0 and `length² + drop²` above
the normalisation tolerance 1e-8 and every ring i ≤ N, the displacement of each outer corner
from its inner corner equals wallThickness times the sum of the outward normals of the two
adjacent faces (floor -N_Floor, ceiling N_Floor, left -Side, right Side), its component along
each of these two outward normals is exactly wallThickness, and its length is
√2·|wallThickness|. -/
theorem mitered_corners (p : Params) (N : Nat) (hS : p.Segments = (N : Int)) (i : Nat)
    (hi : i ≤ N) (hL : 0 < p.LengthMeters)
    (hn : SMALL_NUMBER < p.LengthMeters * p.LengthMeters + p.DropDepthMeters * p.DropDepthMeters) :
    RingStored p i ∧
    (ringLbOut p i - ringLb p i = (-ringNFloor p i + -ringSide p i) * p.WallThickness ∧
     ringRbOut p i - ringRb p i = (-ringNFloor p i + ringSide p i) * p.WallThickness ∧
     ringRtOut p i - ringRt p i = (ringNFloor p i + ringSide p i) * p.WallThickness ∧
     ringLtOut p i - ringLt p i = (ringNFloor p i + -ringSide p i) * p.WallThickness) ∧
    (DotProduct (ringLbOut p i - ringLb p i) (-ringNFloor p i) = p.WallThickness ∧
     DotProduct (ringLbOut p i - ringLb p i) (-ringSide p i) = p.WallThickness ∧
     DotProduct (ringRbOut p i - ringRb p i) (-ringNFloor p i) = p.WallThickness ∧
     DotProduct (ringRbOut p i - ringRb p i) (ringSide p i) = p.WallThickness ∧
     DotProduct (ringRtOut p i - ringRt p i) (ringNFloor p i) = p.WallThickness ∧
     DotProduct (ringRtOut p i - ringRt p i) (ringSide p i) = p.WallThickness ∧
     DotProduct (ringLtOut p i - ringLt p i) (ringNFloor p i) = p.WallThickness ∧
     DotProduct (ringLtOut p i - ringLt p i) (-ringSide p i) = p.WallThickness) ∧
    (Size (ringLbOut p i - ringLb p i) = Real.sqrt 2 * |p.WallThickness| ∧
     Size (ringRbOut p i - ringRb p i) = Real.sqrt 2 * |p.WallThickness| ∧
     Size (ringRtOut p i - ringRt p i) = Real.sqrt 2 * |p.WallThickness| ∧
     Size (ringLtOut p i - ringLt p i) = Real.sqrt 2 * |p.WallThickness|) := by
  have hT := ringTan_unit p i hn
  have hs : SizeSquared (ringSide p i) = 1 := (frameSide_unit _ hT).1
  have hf : SizeSquared (ringNFloor p i) = 1 := floorNormal_unit _ hT
  have hfs := floorNormal_dot_side p i
  simp only [SizeSquared] at hs hf
  simp only [DotProduct] at hfs
  have e1 : ringLbOut p i - ringLb p i
      = (-ringNFloor p i + -ringSide p i) * p.WallThickness := by
    ext <;> simp [ringLbOut]
  have e2 : ringRbOut p i - ringRb p i
      = (-ringNFloor p i + ringSide p i) * p.WallThickness := by
    ext <;> simp [ringRbOut]
  have e3 : ringRtOut p i - ringRt p i
      = (ringNFloor p i + ringSide p i) * p.WallThickness := by
    ext <;> simp [ringRtOut]
  have e4 : ringLtOut p i - ringLt p i
      = (ringNFloor p i + -ringSide p i) * p.WallThickness := by
    ext <;> simp [ringLtOut]
  refine ⟨ring_stored p N hS i hi, ⟨e1, e2, e3, e4⟩, ?_, ?_⟩
  · rw [e1, e2, e3, e4]
    simp only [DotProduct, FVector.add_X, FVector.add_Y, FVector.add_Z, FVector.neg_X,
      FVector.neg_Y, FVector.neg_Z, FVector.mul_X, FVector.mul_Y, FVector.mul_Z]
    refine ⟨?_, ?_, ?_, ?_, ?_, ?_, ?_, ?_⟩
    · linear_combination p.WallThickness * hf + p.WallThickness * hfs
    · linear_combination p.WallThickness * hs + p.WallThickness * hfs
    · linear_combination p.WallThickness * hf - p.WallThickness * hfs
    · linear_combination p.WallThickness * hs - p.WallThickness * hfs
    · linear_combination p.WallThickness * hf + p.WallThickness * hfs
    · linear_combination p.WallThickness * hs + p.WallThickness * hfs
    · linear_combination p.WallThickness * hf - p.WallThickness * hfs
    · linear_combination p.WallThickness * hs - p.WallThickness * hfs
  · rw [e1, e2, e3, e4]
    simp only [Size, FVector.add_X, FVector.add_Y, FVector.add_Z, FVector.neg_X,
      FVector.neg_Y, FVector.neg_Z, FVector.mul_X, FVector.mul_Y, FVector.mul_Z]
    refine ⟨?_, ?_, ?_, ?_⟩
    · rw [← sqrt_two_mul_sq]
      congr 1
      linear_combination (p.WallThickness * p.WallThickness) * hf
        + (p.WallThickness * p.WallThickness) * hs
        + 2 * (p.WallThickness * p.WallThickness) * hfs
    · rw [← sqrt_two_mul_sq]
      congr 1
      linear_combination (p.WallThickness * p.WallThickness) * hf
        + (p.WallThickness * p.WallThickness) * hs
        - 2 * (p.WallThickness * p.WallThickness) * hfs
    · rw [← sqrt_two_mul_sq]
      congr 1
      linear_combination (p.WallThickness * p.WallThickness) * hf
        + (p.WallThickness * p.WallThickness) * hs
        + 2 * (p.WallThickness * p.WallThickness) * hfs
    · rw [← sqrt_two_mul_sq]
      congr 1
      linear_combination (p.WallThickness * p.WallThickness) * hf
        + (p.WallThickness * p.WallThickness) * hs
        - 2 * (p.WallThickness * p.WallThickness) * hfs

/-- Witness for claim C16 (amended) at the default parameters, ring 0. -/
theorem mitered_corners_witness :
    RingStored Params.defaults 0 ∧
    (ringLbOut Params.defaults 0 - ringLb Params.defaults 0
        = (-ringNFloor Params.defaults 0 + -ringSide Params.defaults 0)
          * Params.defaults.WallThickness ∧
     ringRbOut Params.defaults 0 - ringRb Params.defaults 0
        = (-ringNFloor Params.defaults 0 + ringSide Params.defaults 0)
          * Params.defaults.WallThickness ∧
     ringRtOut Params.defaults 0 - ringRt Params.defaults 0
        = (ringNFloor Params.defaults 0 + ringSide Params.defaults 0)
          * Params.defaults.WallThickness ∧
     ringLtOut Params.defaults 0 - ringLt Params.defaults 0
        = (ringNFloor Params.defaults 0 + -ringSide Params.defaults 0)
          * Params.defaults.WallThickness) ∧
    (DotProduct (ringLbOut Params.defaults 0 - ringLb Params.defaults 0)
        (-ringNFloor Params.defaults 0) = Params.defaults.WallThickness ∧
     DotProduct (ringLbOut Params.defaults 0 - ringLb Params.defaults 0)
        (-ringSide Params.defaults 0) = Params.defaults.WallThickness ∧
     DotProduct (ringRbOut Params.defaults 0 - ringRb Params.defaults 0)
        (-ringNFloor Params.defaults 0) = Params.defaults.WallThickness ∧
     DotProduct (ringRbOut Params.defaults 0 - ringRb Params.defaults 0)
        (ringSide Params.defaults 0) = Params.defaults.WallThickness ∧
     DotProduct (ringRtOut Params.defaults 0 - ringRt Params.defaults 0)
        (ringNFloor Params.defaults 0) = Params.defaults.WallThickness ∧
     DotProduct (ringRtOut Params.defaults 0 - ringRt Params.defaults 0)
        (ringSide Params.defaults 0) = Params.defaults.WallThickness ∧
     DotProduct (ringLtOut Params.defaults 0 - ringLt Params.defaults 0)
        (ringNFloor Params.defaults 0) = Params.defaults.WallThickness ∧
     DotProduct (ringLtOut Params.defaults 0 - ringLt Params.defaults 0)
        (-ringSide Params.defaults 0) = Params.defaults.WallThickness) ∧
    (Size (ringLbOut Params.defaults 0 - ringLb Params.defaults 0)
        = Real.sqrt 2 * |Params.defaults.WallThickness| ∧
     Size (ringRbOut Params.defaults 0 - ringRb Params.defaults 0)
        = Real.sqrt 2 * |Params.defaults.WallThickness| ∧
     Size (ringRtOut Params.defaults 0 - ringRt Params.defaults 0)
        = Real.sqrt 2 * |Params.defaults.WallThickness| ∧
     Size (ringLtOut Params.defaults 0 - ringLt Params.defaults 0)
        = Real.sqrt 2 * |Params.defaults.WallThickness|) :=
  mitered_corners Params.defaults 32 rfl 0 (by decide)
    (by simp only [Params.defaults]; norm_num)
    (by simp only [Params.defaults, SMALL_NUMBER]; norm_num)

/-- On the path of length 1e-5 the tangent is not normalised, and both the side vector and
the floor normal of every ring are the zero vector. -/
theorem tiny_frame (i : Nat) :
    ringTan tiny i = ⟨1 / 100000, 0, 0⟩ ∧ ringSide tiny i = ⟨0, 0, 0⟩ ∧
    ringNFloor tiny i = ⟨0, 0, 0⟩ := by
  have hT : ringTan tiny i = ⟨1 / 100000, 0, 0⟩ := by
    unfold ringTan
    rw [SampleCenterline_straight tiny _ (nearlyZero_of_curve_zero tiny rfl)]
    show Normalize ⟨1 / 100000, 0, 0⟩ = _
    simp only [Normalize, SMALL_NUMBER]
    norm_num
  have hSide : ringSide tiny i = ⟨0, 0, 0⟩ := by
    unfold ringSide frameSide
    rw [hT]
    have h1 : GetSafeNormal (CrossProduct UpVector ⟨1 / 100000, 0, 0⟩) = ZeroVector := by
      apply GetSafeNormal_of_small
      simp only [SizeSquared, CrossProduct, UpVector, SMALL_NUMBER]
      norm_num
    have h2 : GetSafeNormal (CrossProduct ForwardVector ⟨1 / 100000, 0, 0⟩) = ZeroVector := by
      apply GetSafeNormal_of_small
      simp only [SizeSquared, CrossProduct, ForwardVector, SMALL_NUMBER]
      norm_num
    rw [h1, if_pos nearlyZero_zero_vector, h2]
    rfl
  refine ⟨hT, hSide, ?_⟩
  unfold ringNFloor
  rw [hT, hSide]
  have h3 : GetSafeNormal (CrossProduct ⟨1 / 100000, 0, 0⟩ ⟨0, 0, 0⟩) = ZeroVector := by
    apply GetSafeNormal_of_small
    simp only [SizeSquared, CrossProduct, SMALL_NUMBER]
    norm_num
  rw [h3]
  rfl

/-- Claim C16 as stated fails: at curve 0, length 1e-5, drop 0 and wall thickness 5 the side
vector and the floor normal are zero vectors, the outer corner `LbOut` coincides with `Lb`,
and the component of the displacement along the outward floor normal is 0, not 5. -/
theorem tiny_miter_counterexample :
    0 < tiny.LengthMeters ∧ tiny.WallThickness = 5 ∧ RingStored tiny 0 ∧
    ringLbOut tiny 0 - ringLb tiny 0 = ⟨0, 0, 0⟩ ∧
    DotProduct (ringLbOut tiny 0 - ringLb tiny 0) (-ringNFloor tiny 0) = 0 ∧
    ¬ DotProduct (ringLbOut tiny 0 - ringLb tiny 0) (-ringNFloor tiny 0)
      = tiny.WallThickness := by
  obtain ⟨_, hs, hf⟩ := tiny_frame 0
  have hd : ringLbOut tiny 0 - ringLb tiny 0 = ⟨0, 0, 0⟩ := by
    ext <;> simp [ringLbOut, hs, hf]
  have hdot : DotProduct (ringLbOut tiny 0 - ringLb tiny 0) (-ringNFloor tiny 0) = 0 := by
    rw [hd]; simp [DotProduct]
  refine ⟨?_, rfl, ring_stored tiny 1 rfl 0 (by decide), hd, hdot, ?_⟩
  · show (0 : ℝ) < 1 / 100000
    norm_num
  · rw [hdot]
    show ¬ (0 : ℝ) = 5
    norm_num

/-! ## The inner rectangle -/

/-- Claim C17, amended.  For every parameter set with length > 0, `length² + drop²` above the
normalisation tolerance 1e-8 and half-width ≥ 0, and every ring i ≤ N: Lb and Rb are
C ∓ Side·halfWidth and |Rb − Lb| = 2·halfWidth; Lt − Lb = Rt − Rb = (0, 0, 100·ceilingHeight);
and the edge Rb − Lb is perpendicular to the edge Lt − Lb whenever
`length² ≥ 1e-8·(length² + drop²)` (Side taken from Up × T, not from the fallback). -/
theorem inner_rectangle (p : Params) (N : Nat) (hS : p.Segments = (N : Int)) (i : Nat)
    (hi : i ≤ N) (hL : 0 < p.LengthMeters)
    (hn : SMALL_NUMBER < p.LengthMeters * p.LengthMeters + p.DropDepthMeters * p.DropDepthMeters)
    (hW : 0 ≤ p.HalfWidth) :
    RingStored p i ∧
    ringLb p i = ringC p i - ringSide p i * p.HalfWidth ∧
    ringRb p i = ringC p i + ringSide p i * p.HalfWidth ∧
    Size (ringRb p i - ringLb p i) = 2 * p.HalfWidth ∧
    ringLt p i - ringLb p i = ⟨0, 0, 100 * p.CeilingHeight⟩ ∧
    ringRt p i - ringRb p i = ⟨0, 0, 100 * p.CeilingHeight⟩ ∧
    (SMALL_NUMBER * (p.LengthMeters * p.LengthMeters + p.DropDepthMeters * p.DropDepthMeters)
        ≤ p.LengthMeters * p.LengthMeters →
      DotProduct (ringRb p i - ringLb p i) (ringLt p i - ringLb p i) = 0) := by
  have hT := ringTan_unit p i hn
  have hs : SizeSquared (ringSide p i) = 1 := (frameSide_unit _ hT).1
  simp only [SizeSquared] at hs
  have eV : ringLt p i - ringLb p i = ⟨0, 0, 100 * p.CeilingHeight⟩ := by
    ext <;> simp [ringLt, UpVector]
    ring
  have eV2 : ringRt p i - ringRb p i = ⟨0, 0, 100 * p.CeilingHeight⟩ := by
    ext <;> simp [ringRt, UpVector]
    ring
  refine ⟨ring_stored p N hS i hi, rfl, rfl, ?_, eV, eV2, ?_⟩
  · simp only [Size, ringRb, ringLb, FVector.add_X, FVector.add_Y, FVector.add_Z,
      FVector.sub_X, FVector.sub_Y, FVector.sub_Z, FVector.mul_X, FVector.mul_Y, FVector.mul_Z]
    have e : (ringC p i).X + (ringSide p i).X * p.HalfWidth
          - ((ringC p i).X - (ringSide p i).X * p.HalfWidth)
        = 2 * p.HalfWidth * (ringSide p i).X := by ring
    have e2 : (ringC p i).Y + (ringSide p i).Y * p.HalfWidth
          - ((ringC p i).Y - (ringSide p i).Y * p.HalfWidth)
        = 2 * p.HalfWidth * (ringSide p i).Y := by ring
    have e3 : (ringC p i).Z + (ringSide p i).Z * p.HalfWidth
          - ((ringC p i).Z - (ringSide p i).Z * p.HalfWidth)
        = 2 * p.HalfWidth * (ringSide p i).Z := by ring
    rw [e, e2, e3]
    have e4 : 2 * p.HalfWidth * (ringSide p i).X * (2 * p.HalfWidth * (ringSide p i).X)
        + 2 * p.HalfWidth * (ringSide p i).Y * (2 * p.HalfWidth * (ringSide p i).Y)
        + 2 * p.HalfWidth * (ringSide p i).Z * (2 * p.HalfWidth * (ringSide p i).Z)
        = (2 * p.HalfWidth) ^ 2 := by
      linear_combination (2 * p.HalfWidth) ^ 2 * hs
    rw [e4]
    exact Real.sqrt_sq (by linarith)
  · intro hflat
    have hz := ringSide_horizontal p i hn hflat
    rw [eV]
    simp only [DotProduct, ringRb, ringLb, FVector.add_Z, FVector.sub_Z, FVector.mul_Z, hz]
    ring

/-- Witness for claim C17 (amended) at the default parameters, ring 0. -/
theorem inner_rectangle_witness :
    RingStored Params.defaults 0 ∧
    ringLb Params.defaults 0
      = ringC Params.defaults 0 - ringSide Params.defaults 0 * Params.defaults.HalfWidth ∧
    ringRb Params.defaults 0
      = ringC Params.defaults 0 + ringSide Params.defaults 0 * Params.defaults.HalfWidth ∧
    Size (ringRb Params.defaults 0 - ringLb Params.defaults 0)
      = 2 * Params.defaults.HalfWidth ∧
    ringLt Params.defaults 0 - ringLb Params.defaults 0
      = ⟨0, 0, 100 * Params.defaults.CeilingHeight⟩ ∧
    ringRt Params.defaults 0 - ringRb Params.defaults 0
      = ⟨0, 0, 100 * Params.defaults.CeilingHeight⟩ ∧
    (SMALL_NUMBER * (Params.defaults.LengthMeters * Params.defaults.LengthMeters
        + Params.defaults.DropDepthMeters * Params.defaults.DropDepthMeters)
        ≤ Params.defaults.LengthMeters * Params.defaults.LengthMeters →
      DotProduct (ringRb Params.defaults 0 - ringLb Params.defaults 0)
        (ringLt Params.defaults 0 - ringLb Params.defaults 0) = 0) :=
  inner_rectangle Params.defaults 32 rfl 0 (by decide)
    (by simp only [Params.defaults]; norm_num)
    (by simp only [Params.defaults, SMALL_NUMBER]; norm_num)
    (by simp only [Params.defaults]; norm_num)

/-- Claim C17 as stated fails: at curve 0, length 1e-5, drop 0 and half-width 0.5 the side
vector is the zero vector, so Lb = Rb and |Rb − Lb| = 0, not 2·halfWidth = 1. -/
theorem tiny_rectangle_counterexample :
    0 < tiny.LengthMeters ∧ tiny.HalfWidth = 1 / 2 ∧ RingStored tiny 0 ∧
    Size (ringRb tiny 0 - ringLb tiny 0) = 0 ∧
    ¬ Size (ringRb tiny 0 - ringLb tiny 0) = 2 * tiny.HalfWidth := by
  obtain ⟨_, hs, _⟩ := tiny_frame 0
  have hz : Size (ringRb tiny 0 - ringLb tiny 0) = 0 := by
    simp [Size, ringRb, ringLb, hs]
  refine ⟨?_, rfl, ring_stored tiny 1 rfl 0 (by decide), hz, ?_⟩
  · show (0 : ℝ) < 1 / 100000
    norm_num
  · rw [hz]
    show ¬ (0 : ℝ) = 2 * (1 / 2)
    norm_num

/-! ## Accumulated length without drop -/

open Filter Topology

/-- The quotient sin(c/N) / (c/N) tends to 1. -/
theorem sin_div_self_tendsto (c : ℝ) (hc : c ≠ 0) :
    Tendsto (fun N : ℕ => Real.sin (c / (N : ℝ)) / (c / (N : ℝ))) atTop (𝓝 1) := by
  have hd : HasDerivAt Real.sin 1 0 := by
    have := Real.hasDerivAt_sin 0
    rwa [Real.cos_zero] at this
  have hs := hasDerivAt_iff_tendsto_slope_zero.mp hd
  have hx : Tendsto (fun N : ℕ => c / (N : ℝ)) atTop (𝓝[≠] 0) := by
    rw [tendsto_nhdsWithin_iff]
    refine ⟨tendsto_const_div_atTop_nhds_zero_nat c, ?_⟩
    filter_upwards [eventually_ge_atTop 1] with N hN
    have : (N : ℝ) ≠ 0 := by positivity
    exact div_ne_zero hc this
  have := hs.comp hx
  refine this.congr ?_
  intro N
  simp [div_eq_inv_mul]

/-- The squared chord between two points of the unit circle. -/
theorem chord_identity (a0 a1 : ℝ) :
    (Real.sin a1 - Real.sin a0) ^ 2 + (Real.cos a0 - Real.cos a1) ^ 2
      = (2 * Real.sin ((a1 - a0) / 2)) ^ 2 := by
  have h1 : a1 = (a1 + a0) / 2 + (a1 - a0) / 2 := by ring
  have h0 : a0 = (a1 + a0) / 2 - (a1 - a0) / 2 := by ring
  have hm := Real.sin_sq_add_cos_sq ((a1 + a0) / 2)
  rw [show Real.sin a1 = Real.sin ((a1 + a0) / 2 + (a1 - a0) / 2) by rw [← h1],
    show Real.sin a0 = Real.sin ((a1 + a0) / 2 - (a1 - a0) / 2) by rw [← h0],
    show Real.cos a1 = Real.cos ((a1 + a0) / 2 + (a1 - a0) / 2) by rw [← h1],
    show Real.cos a0 = Real.cos ((a1 + a0) / 2 - (a1 - a0) / 2) by rw [← h0],
    Real.sin_add, Real.sin_sub, Real.cos_add, Real.cos_sub]
  linear_combination (4 * Real.sin ((a1 - a0) / 2) ^ 2) * hm

/-- If every chord has the same length, `AccumLen` is the number of chords times it. -/
theorem accumAt_of_const_chord (p : Params) (c : ℝ)
    (h : ∀ i, Size (ringC p (i + 1) - ringC p i) = c) (k : Nat) :
    accumAt p k = (k : ℝ) * c := by
  induction k with
  | zero => simp [accumAt]
  | succ k ih =>
    simp only [accumAt, ih, h k]
    push_cast
    ring

/-- Without drop, every chord of a straight path has the length `length / N`. -/
theorem straight_chord (p : Params) (N : Nat) (hN : 1 ≤ N) (hS : p.Segments = (N : Int))
    (hD : p.DropDepthMeters = 0) (hL : 0 < p.LengthMeters)
    (hz : IsNearlyZero (DegreesToRadians p.CurveDegrees) (1 / 1000000)) (i : Nat) :
    Size (ringC p (i + 1) - ringC p i) = p.LengthMeters / (N : ℝ) := by
  obtain ⟨hu, hpos⟩ := ringT_step p N hN hS i
  have hN0 : (0 : ℝ) < (N : ℝ) := by exact_mod_cast hN
  unfold ringC
  rw [SampleCenterline_straight p _ hz, SampleCenterline_straight p _ hz, hu, hD]
  simp only [Size, FVector.sub_X, FVector.sub_Y, FVector.sub_Z]
  have e : (p.LengthMeters * (ringT p i + 1 / (N : ℝ)) - p.LengthMeters * ringT p i)
        * (p.LengthMeters * (ringT p i + 1 / (N : ℝ)) - p.LengthMeters * ringT p i)
        + (0 - 0) * (0 - 0)
        + (0 * (ringT p i + 1 / (N : ℝ)) - 0 * ringT p i)
          * (0 * (ringT p i + 1 / (N : ℝ)) - 0 * ringT p i)
      = (p.LengthMeters / (N : ℝ)) ^ 2 := by
    field_simp
    ring
  rw [e]
  exact Real.sqrt_sq (by positivity)

/-- Without drop, every chord of an arc has the length `|2·R·sin(Theta/(2N))|`. -/
theorem curved_chord (p : Params) (N : Nat) (hN : 1 ≤ N) (hS : p.Segments = (N : Int))
    (hD : p.DropDepthMeters = 0)
    (hz : ¬ IsNearlyZero (DegreesToRadians p.CurveDegrees) (1 / 1000000)) (i : Nat) :
    Size (ringC p (i + 1) - ringC p i)
      = |2 * (p.LengthMeters / DegreesToRadians p.CurveDegrees)
          * Real.sin (DegreesToRadians p.CurveDegrees / 2 / (N : ℝ))| := by
  obtain ⟨hu, hpos⟩ := ringT_step p N hN hS i
  unfold ringC
  rw [SampleCenterline_curved p _ hz, SampleCenterline_curved p _ hz, hu, hD]
  have hid := chord_identity (DegreesToRadians p.CurveDegrees * ringT p i)
    (DegreesToRadians p.CurveDegrees * (ringT p i + 1 / (N : ℝ)))
  have hh : (DegreesToRadians p.CurveDegrees * (ringT p i + 1 / (N : ℝ))
      - DegreesToRadians p.CurveDegrees * ringT p i) / 2
      = DegreesToRadians p.CurveDegrees / 2 / (N : ℝ) := by ring
  rw [hh] at hid
  rw [← Real.sqrt_sq_eq_abs]
  simp only [Size, FVector.sub_X, FVector.sub_Y, FVector.sub_Z]
  congr 1
  by_cases hc : p.CurveDegrees ≥ 0
  · simp only [if_pos hc]
    linear_combination (p.LengthMeters / DegreesToRadians p.CurveDegrees) ^ 2 * hid
  · simp only [if_neg hc]
    linear_combination (p.LengthMeters / DegreesToRadians p.CurveDegrees) ^ 2 * hid

/-- The accumulated length of a build without drop, as a function of the segment count. -/
theorem total_length (p : Params) (N : Nat) (hN : 1 ≤ N) (hD : p.DropDepthMeters = 0)
    (hL : 0 < p.LengthMeters) :
    (ringLoop { p with Segments := (N : Int) }).AccumLen
      = if IsNearlyZero (DegreesToRadians p.CurveDegrees) (1 / 1000000) then p.LengthMeters
        else p.LengthMeters
          * |Real.sin (DegreesToRadians p.CurveDegrees / 2 / (N : ℝ))
              / (DegreesToRadians p.CurveDegrees / 2 / (N : ℝ))| := by
  have hN0 : (0 : ℝ) < (N : ℝ) := by exact_mod_cast hN
  rw [ringLoop_AccumLen { p with Segments := (N : Int) } N rfl]
  by_cases hz : IsNearlyZero (DegreesToRadians p.CurveDegrees) (1 / 1000000)
  · rw [if_pos hz, accumAt_of_const_chord _ _
      (straight_chord { p with Segments := (N : Int) } N hN rfl hD hL hz) N]
    show (N : ℝ) * (p.LengthMeters / (N : ℝ)) = p.LengthMeters
    field_simp
  · rw [if_neg hz, accumAt_of_const_chord _ _
      (curved_chord { p with Segments := (N : Int) } N hN rfl hD hz) N]
    show (N : ℝ) * |2 * (p.LengthMeters / DegreesToRadians p.CurveDegrees)
        * Real.sin (DegreesToRadians p.CurveDegrees / 2 / (N : ℝ))| = _
    have h0 := theta_ne_zero _ hz
    have e : 2 * (p.LengthMeters / DegreesToRadians p.CurveDegrees)
          * Real.sin (DegreesToRadians p.CurveDegrees / 2 / (N : ℝ))
        = p.LengthMeters / (N : ℝ)
          * (Real.sin (DegreesToRadians p.CurveDegrees / 2 / (N : ℝ))
            / (DegreesToRadians p.CurveDegrees / 2 / (N : ℝ))) := by
      field_simp
      ring
    rw [e, abs_mul, abs_of_pos (div_pos hL hN0)]
    field_simp

/-- Claim C13.  For drop = 0, length > 0 and any curve angle, the accumulated length
`AccumLen` after the last ring of the build with N segments is at most `length` for every
N ≥ 1 and converges to `length` as N tends to infinity. -/
theorem accumulated_length_bound_and_limit (p : Params) (hD : p.DropDepthMeters = 0)
    (hL : 0 < p.LengthMeters) :
    (∀ N : ℕ, 1 ≤ N →
      (ringLoop { p with Segments := (N : Int) }).AccumLen ≤ p.LengthMeters) ∧
    Tendsto (fun N : ℕ => (ringLoop { p with Segments := (N : Int) }).AccumLen) atTop
      (𝓝 p.LengthMeters) := by
  constructor
  · intro N hN
    have hN0 : (0 : ℝ) < (N : ℝ) := by exact_mod_cast hN
    rw [total_length p N hN hD hL]
    by_cases hz : IsNearlyZero (DegreesToRadians p.CurveDegrees) (1 / 1000000)
    · rw [if_pos hz]
    · rw [if_neg hz]
      have h0 := theta_ne_zero _ hz
      have hx : DegreesToRadians p.CurveDegrees / 2 / (N : ℝ) ≠ 0 := by positivity
      have hle : |Real.sin (DegreesToRadians p.CurveDegrees / 2 / (N : ℝ))
          / (DegreesToRadians p.CurveDegrees / 2 / (N : ℝ))| ≤ 1 := by
        rw [abs_div, div_le_one (abs_pos.mpr hx)]
        exact Real.abs_sin_le_abs
      nlinarith
  · by_cases hz : IsNearlyZero (DegreesToRadians p.CurveDegrees) (1 / 1000000)
    · refine Tendsto.congr' ?_ tendsto_const_nhds
      filter_upwards [eventually_ge_atTop 1] with N hN
      rw [total_length p N hN hD hL, if_pos hz]
    · have h0 := theta_ne_zero _ hz
      have hc : DegreesToRadians p.CurveDegrees / 2 ≠ 0 := by positivity
      have ht := ((sin_div_self_tendsto _ hc).abs).const_mul p.LengthMeters
      rw [abs_one, mul_one] at ht
      refine Tendsto.congr' ?_ ht
      filter_upwards [eventually_ge_atTop 1] with N hN
      rw [total_length p N hN hD hL, if_neg hz]

/-- Witness for claim C13 at the default length and curve angle, without drop. -/
theorem accumulated_length_bound_and_limit_witness :
    (∀ N : ℕ, 1 ≤ N →
      (ringLoop { ({ Params.defaults with DropDepthMeters := 0 } : Params) with
        Segments := (N : Int) }).AccumLen
        ≤ ({ Params.defaults with DropDepthMeters := 0 } : Params).LengthMeters) ∧
    Tendsto (fun N : ℕ =>
      (ringLoop { ({ Params.defaults with DropDepthMeters := 0 } : Params) with
        Segments := (N : Int) }).AccumLen) atTop
      (𝓝 ({ Params.defaults with DropDepthMeters := 0 } : Params).LengthMeters) :=
  accumulated_length_bound_and_limit { Params.defaults with DropDepthMeters := 0 } rfl
    (by show (0 : ℝ) < 10; norm_num)

/-! ## The tangent as the normalised derivative of the position -/

/-- The three coordinates of the sampled position are differentiable in the parameter, with
derivative `centerlineDerivative`. -/
theorem position_hasDerivAt (p : Params) (t : ℝ) :
    HasDerivAt (fun s => (SampleCenterline p s).1.X) (centerlineDerivative p t).X t ∧
    HasDerivAt (fun s => (SampleCenterline p s).1.Y) (centerlineDerivative p t).Y t ∧
    HasDerivAt (fun s => (SampleCenterline p s).1.Z) (centerlineDerivative p t).Z t := by
  unfold centerlineDerivative
  by_cases hz : IsNearlyZero (DegreesToRadians p.CurveDegrees) (1 / 1000000)
  · simp only [if_pos hz, SampleCenterline_straight p _ hz]
    refine ⟨?_, ?_, ?_⟩
    · simpa using (hasDerivAt_id t).const_mul p.LengthMeters
    · exact hasDerivAt_const t 0
    · simpa using (hasDerivAt_id t).const_mul p.DropDepthMeters
  · have h0 := theta_ne_zero _ hz
    simp only [if_neg hz, SampleCenterline_curved p _ hz]
    have hlin : HasDerivAt (fun s : ℝ => DegreesToRadians p.CurveDegrees * s)
        (DegreesToRadians p.CurveDegrees) t := by
      simpa using (hasDerivAt_id t).const_mul (DegreesToRadians p.CurveDegrees)
    have hsin := hlin.sin
    have hcos := hlin.cos
    have hY : HasDerivAt
        (fun s : ℝ => p.LengthMeters / DegreesToRadians p.CurveDegrees
          * (1 - Real.cos (DegreesToRadians p.CurveDegrees * s)))
        (p.LengthMeters * Real.sin (DegreesToRadians p.CurveDegrees * t)) t := by
      have := ((hasDerivAt_const t (1 : ℝ)).sub hcos).const_mul
        (p.LengthMeters / DegreesToRadians p.CurveDegrees)
      convert this using 1
      field_simp
      ring
    refine ⟨?_, ?_, ?_⟩
    · have := hsin.const_mul (p.LengthMeters / DegreesToRadians p.CurveDegrees)
      convert this using 1
      field_simp
      ring
    · by_cases hc : p.CurveDegrees < 0
      · have hc2 : ¬ p.CurveDegrees ≥ 0 := not_le.mpr hc
        simp only [if_pos hc, if_neg hc2]
        exact hY.neg
      · have hc2 : p.CurveDegrees ≥ 0 := not_lt.mp hc
        simp only [if_neg hc, if_pos hc2]
        exact hY
    · simpa using (hasDerivAt_id t).const_mul p.DropDepthMeters

theorem centerlineDerivative_sizeSquared (p : Params) (t : ℝ) :
    SizeSquared (centerlineDerivative p t)
      = p.LengthMeters * p.LengthMeters + p.DropDepthMeters * p.DropDepthMeters := by
  unfold centerlineDerivative
  by_cases hz : IsNearlyZero (DegreesToRadians p.CurveDegrees) (1 / 1000000)
  · rw [if_pos hz]
    simp [SizeSquared]
  · rw [if_neg hz]
    exact curved_dXY_sizeSquared _ _ _ _

/-- A vector scaled by `Normalize` or `GetSafeNormal` is the vector divided by its norm. -/
theorem scaled_eq_div_size (V : FVector) (s : ℝ) (hs : SizeSquared V = s) :
    (⟨V.X * InvSqrt s, V.Y * InvSqrt s, V.Z * InvSqrt s⟩ : FVector)
      = ⟨V.X / Size V, V.Y / Size V, V.Z / Size V⟩ := by
  unfold SizeSquared at hs
  simp only [Size, InvSqrt, hs]
  ext <;> simp [div_eq_mul_inv]

/-- Claim C20, amended.  For every curve angle (positive, negative or in the straight band),
every drop, every length > 0 with `length² + drop²` above the normalisation tolerance 1e-8,
and every t, the position `SampleCenterline` returns is differentiable in t and the tangent
it returns is that derivative divided by its Euclidean norm. -/
theorem tangent_is_normalised_derivative (p : Params) (t : ℝ) (hL : 0 < p.LengthMeters)
    (hn : SMALL_NUMBER < p.LengthMeters * p.LengthMeters + p.DropDepthMeters * p.DropDepthMeters) :
    ∃ d : FVector,
      HasDerivAt (fun s => (SampleCenterline p s).1.X) d.X t ∧
      HasDerivAt (fun s => (SampleCenterline p s).1.Y) d.Y t ∧
      HasDerivAt (fun s => (SampleCenterline p s).1.Z) d.Z t ∧
      (SampleCenterline p t).2 = ⟨d.X / Size d, d.Y / Size d, d.Z / Size d⟩ := by
  obtain ⟨hx, hy, hz3⟩ := position_hasDerivAt p t
  refine ⟨centerlineDerivative p t, hx, hy, hz3, ?_⟩
  rw [← scaled_eq_div_size _ _ (centerlineDerivative_sizeSquared p t)]
  unfold centerlineDerivative
  by_cases hz : IsNearlyZero (DegreesToRadians p.CurveDegrees) (1 / 1000000)
  · simp only [if_pos hz]
    rw [SampleCenterline_straight p t hz]
    have hn2 : SMALL_NUMBER <
        p.LengthMeters * p.LengthMeters + 0 * 0 + p.DropDepthMeters * p.DropDepthMeters := by
      simpa using hn
    simp only [Normalize, gt_iff_lt, hn2, if_true]
    simp
  · simp only [if_neg hz]
    rw [SampleCenterline_curved p t hz]
    exact GetSafeNormal_eq_scaled _ _ (curved_dXY_sizeSquared _ _ _ _) hn.le

/-- Witness for claim C20 (amended) at the default parameters, t = 1/2. -/
theorem tangent_is_normalised_derivative_witness :
    ∃ d : FVector,
      HasDerivAt (fun s => (SampleCenterline Params.defaults s).1.X) d.X (1 / 2) ∧
      HasDerivAt (fun s => (SampleCenterline Params.defaults s).1.Y) d.Y (1 / 2) ∧
      HasDerivAt (fun s => (SampleCenterline Params.defaults s).1.Z) d.Z (1 / 2) ∧
      (SampleCenterline Params.defaults (1 / 2)).2 = ⟨d.X / Size d, d.Y / Size d, d.Z / Size d⟩ :=
  tangent_is_normalised_derivative Params.defaults (1 / 2)
    (by simp only [Params.defaults]; norm_num)
    (by simp only [Params.defaults, SMALL_NUMBER]; norm_num)

/-- Claim C20 as stated fails: at curve 0, length 1e-5, drop 0 the position (1e-5·t, 0, 0)
has the derivative (1e-5, 0, 0) of norm 1e-5, whose quotient is (1, 0, 0), while the returned
tangent is the derivative itself, (1e-5, 0, 0), left unnormalised. -/
theorem tiny_tangent_not_unit_derivative_counterexample :
    0 < tiny.LengthMeters ∧
    HasDerivAt (fun s => (SampleCenterline tiny s).1.X) (1 / 100000) 0 ∧
    HasDerivAt (fun s => (SampleCenterline tiny s).1.Y) 0 0 ∧
    HasDerivAt (fun s => (SampleCenterline tiny s).1.Z) 0 0 ∧
    Size ⟨1 / 100000, 0, 0⟩ = 1 / 100000 ∧
    (SampleCenterline tiny 0).2 = ⟨1 / 100000, 0, 0⟩ ∧
    (SampleCenterline tiny 0).2 ≠
      ⟨(1 / 100000) / Size ⟨1 / 100000, 0, 0⟩, 0 / Size ⟨1 / 100000, 0, 0⟩,
       0 / Size ⟨1 / 100000, 0, 0⟩⟩ := by
  have hz := nearlyZero_of_curve_zero tiny rfl
  obtain ⟨hx, hy, hz3⟩ := position_hasDerivAt tiny 0
  have hd : centerlineDerivative tiny 0 = ⟨1 / 100000, 0, 0⟩ := by
    unfold centerlineDerivative
    rw [if_pos hz]
    rfl
  rw [hd] at hx hy hz3
  have hs : Size ⟨1 / 100000, 0, 0⟩ = 1 / 100000 := by
    simp only [Size]
    rw [show (1 / 100000 : ℝ) * (1 / 100000) + 0 * 0 + 0 * 0 = (1 / 100000) ^ 2 by norm_num]
    exact Real.sqrt_sq (by norm_num)
  have ht : (SampleCenterline tiny 0).2 = ⟨1 / 100000, 0, 0⟩ := by
    rw [SampleCenterline_straight tiny 0 hz]
    show Normalize ⟨1 / 100000, 0, 0⟩ = _
    simp only [Normalize, SMALL_NUMBER]
    norm_num
  refine ⟨?_, hx, hy, hz3, hs, ht, ?_⟩
  · show (0 : ℝ) < 1 / 100000
    norm_num
  · rw [ht, hs]
    intro h
    have := congrArg FVector.X h
    norm_num at this

end

end ProcBentPath
